import Mathlib

/-!
# NTRIP caster: connection lifecycle and fan-out engine

A shallow embedding of `src/ntripcaster.c`: the agent and caster records, the
C string routines the handshake parser relies on, and the three event
callbacks (`caster_accept_cb`, `agent_read_cb`, `caster_timeout_cb`) as pure
functions on the caster state that also return the socket operations issued.

Conventions of the embedding.

* A byte is a `Nat`; a C string is the list of bytes before its terminating NUL.
* A `char*` into a C string is the suffix of the string it points to; a null
  pointer is `none`.
* `size_t` arithmetic is arithmetic modulo `2 ^ 64`.
* An agent is identified by its socket handle: the handle stands for the
  address of the `struct ntrip_agent` too, one agent owning one socket.
* An `ev_tstamp` (a C `double`) is the rational number it denotes; the
  difference of two of them is the exact difference rounded to the nearest
  double, as IEEE 754 arithmetic computes it (`double_sub`).
-/

namespace NtripCaster

/-! ## Constants of the source -/

/-- Bytes of a string literal of the source. -/
def bytes (s : String) : List Nat := s.toList.map Char.toNat

abbrev NTRIP_PENDING_AGENT : Nat := 0
abbrev NTRIP_SOURCE_AGENT : Nat := 1
abbrev NTRIP_CLIENT_AGENT : Nat := 2
abbrev NTRIP_AGENT_SENTRY : Nat := 3

abbrev DEFAULT_MAX_PENDING_AGENT : Nat := 20
abbrev DEFAULT_MAX_CLIENT_AGENT : Nat := 100
abbrev DEFAULT_MAX_SOURCE_AGENT : Nat := 20

def NTRIP_RESPONSE_OK : List Nat := bytes "ICY 200 OK\r\n"
def NTRIP_RESPONSE_FORBIDDEN : List Nat := bytes "HTTP/1.0 403 Forbidden\r\n"
def NTRIP_RESPONSE_ERROR_MOUNTP : List Nat := bytes "ERROR - Bad Mountpoint\r\n"

/-- Modulus of `size_t`. -/
abbrev SIZE_MOD : Nat := 2 ^ 64

/-- The `size_t` update `x -= 1`. -/
def size_dec (x : Nat) : Nat := (x + SIZE_MOD - 1) % SIZE_MOD

/-- The `size_t` update `x += 1`. -/
def size_inc (x : Nat) : Nat := (x + 1) % SIZE_MOD

/-- The `size_t` difference `x - y`. -/
def size_sub (x y : Nat) : Nat := (x + SIZE_MOD - y % SIZE_MOD) % SIZE_MOD

/-! ## Arithmetic of `ev_tstamp` -/

/-- Round to the nearest integer, a tie going to the even one. -/
def round_half_even (x : ℚ) : ℤ :=
  if x - ⌊x⌋ < 1 / 2 then ⌊x⌋
  else if 1 / 2 < x - ⌊x⌋ then ⌊x⌋ + 1
  else if ⌊x⌋ % 2 = 0 then ⌊x⌋ else ⌊x⌋ + 1

/-- The IEEE 754 binary64 value nearest to `x` (round to nearest, ties to
even, the rounding mode a C program starts in): `x` is scaled by the power of
two that brings it between `2 ^ 52` and `2 ^ 53`, rounded to an integer of 53
bits, and scaled back. The exponent is not bounded: a value beyond the largest
double, which the hardware rounds to an infinity, stays a finite number of the
same sign, and compares with `5.0` the same way; a difference of two doubles
that is subnormal is exact in both. -/
def double_round (x : ℚ) : ℚ :=
  if x = 0 then 0
  else round_half_even (x / 2 ^ (Int.log 2 |x| - 52)) * 2 ^ (Int.log 2 |x| - 52)

/-- The C expression `a - b` on two `ev_tstamp` (`double`) values: the exact
difference, rounded to the nearest double. -/
def double_sub (a b : ℚ) : ℚ := double_round (a - b)

/-! ## C library routines used by the parser -/

/-- The predicate `isspace` in the C locale. -/
def isspace (c : Nat) : Bool := c == 32 || (9 ≤ c && c ≤ 13)

/-- The map `tolower` in the C locale. -/
def tolower (c : Nat) : Nat := if 65 ≤ c ∧ c ≤ 90 then c + 32 else c

/-- The C string stored at the start of a byte array: the bytes before the
first NUL. -/
def cstr (mem : List Nat) : List Nat := mem.takeWhile (fun b => b != 0)

/-- The call `strstr(hay, needle)`: the suffix of `hay` at the first
occurrence of `needle`, `none` for a null result. -/
def strstr : List Nat → List Nat → Option (List Nat)
  | [], needle => if needle.isEmpty then some [] else none
  | c :: cs, needle =>
    if needle.isPrefixOf (c :: cs) then some (c :: cs) else strstr cs needle

/-- The call `strchr(s, ch)` for a non-NUL `ch`. -/
def strchr : List Nat → Nat → Option (List Nat)
  | [], _ => none
  | c :: cs, ch => if c = ch then some (c :: cs) else strchr cs ch

/-- The test `strncmp(a, b, n) == 0` on C strings. -/
def strncmp_eq0 (a b : List Nat) (n : Nat) : Bool := a.take n == b.take n

/-- The call `strcasecmp(a, b)`: the difference of the first pair of bytes
that differ after `tolower`, the end of a string counting as NUL. -/
def strcasecmp : List Nat → List Nat → Int
  | [], [] => 0
  | [], b :: _ => 0 - (tolower b : Int)
  | a :: _, [] => (tolower a : Int)
  | a :: as, b :: bs =>
    if tolower a = tolower b then strcasecmp as bs
    else (tolower a : Int) - (tolower b : Int)

/-- The call `snprintf(dst, size, "%s", p)`: the C string left in `dst`.
Passing a null `p` is undefined in ISO C; the C libraries this program is
built against (glibc, musl, the BSD libc, MSVCRT) format it as `(null)`,
which is what is modelled. -/
def snprintf_s (size : Nat) (p : Option (List Nat)) : List Nat :=
  match p with
  | some s => s.take (size - 1)
  | none => (bytes "(null)").take (size - 1)

/-- White-space directive of `sscanf`: skip any run of white space. -/
def skip_space : List Nat → List Nat
  | [] => []
  | c :: cs => if isspace c then skip_space cs else c :: cs

/-- Longest run of at most `w` leading bytes satisfying `p`, and the rest. -/
def scan_while (p : Nat → Bool) : Nat → List Nat → List Nat × List Nat
  | 0, inp => ([], inp)
  | _ + 1, [] => ([], [])
  | w + 1, c :: cs =>
    if p c then ((scan_while p w cs).1.cons c, (scan_while p w cs).2)
    else ([], c :: cs)

/-- The conversion `%<w>s` of `sscanf`: skip white space, then read up to `w`
bytes that are not white space; `none` when the input ends first. -/
def scan_s (w : Nat) (inp : List Nat) : Option (List Nat × List Nat) :=
  let r := scan_while (fun c => !isspace c) w (skip_space inp)
  if r.1.isEmpty then none else some r

/-- Literal part of a `sscanf` format: each byte has to match the input.
The error is the value `sscanf` returns: `-1` (EOF) when the input ends,
`0` on a mismatch. -/
def match_literal : List Nat → List Nat → Except Int (List Nat)
  | [], inp => .ok inp
  | _ :: _, [] => .error (-1)
  | f :: fs, c :: cs => if f = c then match_literal fs cs else .error 0

/-- The call `sscanf(p, "<verb> %63s %63s", a, b)` with `a` and `b` set to the
empty string beforehand: the return value and the contents of `a` and `b`. -/
def sscanf_verb_s_s (verb : List Nat) (p : List Nat) : Int × List Nat × List Nat :=
  match match_literal verb p with
  | .error e => (e, [], [])
  | .ok r0 =>
    match scan_s 63 (skip_space r0) with
    | none => (-1, [], [])
    | some (a, r1) =>
      match scan_s 63 (skip_space r1) with
      | none => (1, a, [])
      | some (b, _) => (2, a, b)

/-- The call `sscanf(ag, "%63[^\n]", dst)`: the contents of `dst` afterwards,
`old` being its contents before (kept when nothing matches). -/
def sscanf_line (ag : List Nat) (old : List Nat) : List Nat :=
  let r := scan_while (fun c => c != 10) 63 ag
  if r.1.isEmpty then old else r.1

/-! ## Data model -/

/-- The record `struct ntrip_agent` (the reserved traffic counters omitted). -/
structure ntrip_agent where
  socket : Nat
  type : Nat
  mountpoint : List Nat
  peeraddr : List Nat
  user_agent : List Nat
  login_time : Nat
  last_activity : ℚ
  pending_recv : List Nat
  pending_idx : Nat
  deriving DecidableEq

/-- The record `struct ntrip_caster_config` (token list and bind address
omitted: no callback reads them). -/
structure ntrip_caster_config where
  MAX_PENDING_CNT : Nat
  MAX_CLIENT_CNT : Nat
  MAX_SOURCE_CNT : Nat
  deriving DecidableEq

/-- The record `struct ntrip_caster`: the three agent lists `agents_head[i]`,
the three counters `agents_cnt[i]`, the configuration, and the next socket
handle the system hands out (handles of live sockets are pairwise distinct). -/
structure ntrip_caster where
  head_pending : List ntrip_agent
  head_source : List ntrip_agent
  head_client : List ntrip_agent
  cnt_pending : Nat
  cnt_source : Nat
  cnt_client : Nat
  config : ntrip_caster_config
  next_socket : Nat
  deriving DecidableEq

/-- The list `agents_head[t]`. -/
def ntrip_caster.agents_head (c : ntrip_caster) (t : Nat) : List ntrip_agent :=
  match t with
  | 0 => c.head_pending
  | 1 => c.head_source
  | 2 => c.head_client
  | _ => []

/-- The counter `agents_cnt[t]`. -/
def ntrip_caster.agents_cnt (c : ntrip_caster) (t : Nat) : Nat :=
  match t with
  | 0 => c.cnt_pending
  | 1 => c.cnt_source
  | 2 => c.cnt_client
  | _ => 0

/-- Assignment to the list `agents_head[t]`. -/
def ntrip_caster.set_head (c : ntrip_caster) (t : Nat) (l : List ntrip_agent) :
    ntrip_caster :=
  match t with
  | 0 => { c with head_pending := l }
  | 1 => { c with head_source := l }
  | 2 => { c with head_client := l }
  | _ => c

/-- Assignment to the counter `agents_cnt[t]`. -/
def ntrip_caster.set_cnt (c : ntrip_caster) (t : Nat) (n : Nat) : ntrip_caster :=
  match t with
  | 0 => { c with cnt_pending := n }
  | 1 => { c with cnt_source := n }
  | 2 => { c with cnt_client := n }
  | _ => c

/-- A socket operation issued by a callback. -/
inductive io_op where
  | send (socket : Nat) (data : List Nat)
  | close (socket : Nat)
  deriving DecidableEq

/-- Outcome of `recv`: an error other than would-block, would-block, or the
bytes the peer has made available (none of them: orderly shutdown). -/
inductive recv_result where
  | error
  | would_block
  | data (bytes : List Nat)
  deriving DecidableEq

/-- The macro `TAILQ_REMOVE(head, agent, entries)`. -/
def TAILQ_REMOVE (l : List ntrip_agent) (agent : ntrip_agent) : List ntrip_agent :=
  l.eraseP (fun x => x.socket == agent.socket)

/-- The macro `TAILQ_INSERT_TAIL(head, agent, entries)`. -/
def TAILQ_INSERT_TAIL (l : List ntrip_agent) (agent : ntrip_agent) : List ntrip_agent :=
  l ++ [agent]

/-- The function `close_agent`: unlink from `agents_head[agent->type]`,
decrement `agents_cnt[agent->type]`, close the socket, free the agent. -/
def close_agent (c : ntrip_caster) (agent : ntrip_agent) : ntrip_caster × List io_op :=
  let c1 := c.set_head agent.type (TAILQ_REMOVE (c.agents_head agent.type) agent)
  (c1.set_cnt agent.type (size_dec (c1.agents_cnt agent.type)), [io_op.close agent.socket])

/-- The store `agent->last_activity = now` through the pointer to the agent
with the given socket: every list linking that agent sees it. -/
def set_last_activity (c : ntrip_caster) (socket : Nat) (now : ℚ) : ntrip_caster :=
  let upd := fun (x : ntrip_agent) =>
    if x.socket = socket then { x with last_activity := now } else x
  { c with head_pending := c.head_pending.map upd,
           head_source := c.head_source.map upd,
           head_client := c.head_client.map upd }

/-- Bytes `recv(fd, dst + off, len, 0)` leaves in the array `mem`. -/
def write_at (mem : List Nat) (off : Nat) (data : List Nat) : List Nat :=
  mem.take off ++ data ++ mem.drop (off + data.length)

/-- Reclassification at the end of a handshake: `pending_idx = 0`, unlink from
`agents_head[agent->type]`, decrement its counter, set the new type, link at
the tail of the new list, increment its counter. -/
def move_agent (c : ntrip_caster) (agent : ntrip_agent) (new_type : Nat) : ntrip_caster :=
  let agent := { agent with pending_idx := 0 }
  let c := c.set_head agent.type (TAILQ_REMOVE (c.agents_head agent.type) agent)
  let c := c.set_cnt agent.type (size_dec (c.agents_cnt agent.type))
  let agent := { agent with type := new_type }
  let c := c.set_head agent.type (TAILQ_INSERT_TAIL (c.agents_head agent.type) agent)
  c.set_cnt agent.type (size_inc (c.agents_cnt agent.type))

/-- Mountpoint of a client from the url of its request line:
`if ((p = strchr(url, '/'))) p += 1;` then
`snprintf(agent->mountpoint, sizeof(agent->mountpoint), "%s", p)`. -/
def client_mountpoint (url : List Nat) : List Nat :=
  snprintf_s 64 ((strchr url 47).map (fun s => s.drop 1))

/-- Client handshake: the body of `if (p)` after `strstr(pending_recv, "GET")`
found `p`. -/
def client_handshake (c : ntrip_caster) (agent : ntrip_agent) (p : List Nat) :
    ntrip_caster × List io_op :=
  match strstr p (bytes "\r\n") with
  | none => close_agent c agent
  | some q =>
    match strstr q (bytes "User-Agent:") with
    | none => close_agent c agent
    | some ag =>
      match strstr ag (bytes "\r\n") with
      | none => close_agent c agent
      | some _ =>
        let ag := ag.drop (bytes "User-Agent:").length
        let agent := { agent with user_agent := sscanf_line ag agent.user_agent }
        let r := sscanf_verb_s_s (bytes "GET") p
        if r.1 < 2 ∨ strncmp_eq0 r.2.2 (bytes "HTTP/1") (bytes "HTTP/1").length = false then
          close_agent c agent
        else
          let agent : ntrip_agent := { agent with mountpoint := client_mountpoint r.2.1 }
          if agent.mountpoint = [] ∨ agent.mountpoint = bytes "/" then
            close_agent c agent
          else if c.config.MAX_CLIENT_CNT > 0 ∧
              c.config.MAX_CLIENT_CNT ≤ c.agents_cnt NTRIP_CLIENT_AGENT then
            ((close_agent c agent).1,
              io_op.send agent.socket NTRIP_RESPONSE_FORBIDDEN :: (close_agent c agent).2)
          else
            (move_agent c agent NTRIP_CLIENT_AGENT,
              [io_op.send agent.socket NTRIP_RESPONSE_OK])

/-- Source handshake: the body of `if (p)` after
`strstr(pending_recv, "SOURCE")` found `p`. -/
def source_handshake (c : ntrip_caster) (agent : ntrip_agent) (p : List Nat) :
    ntrip_caster × List io_op :=
  match strstr p (bytes "\r\n") with
  | none => close_agent c agent
  | some q =>
    match strstr q (bytes "Source-Agent:") with
    | none => close_agent c agent
    | some ag =>
      match strstr ag (bytes "\r\n") with
      | none => close_agent c agent
      | some _ =>
        let ag := ag.drop (bytes "Source-Agent:").length
        let agent := { agent with user_agent := sscanf_line ag agent.user_agent }
        let r := sscanf_verb_s_s (bytes "SOURCE") p
        if r.1 < 2 then
          close_agent c agent
        else
          let agent : ntrip_agent := { agent with mountpoint := snprintf_s 64 (some r.2.2) }
          if agent.mountpoint = [] ∨ agent.mountpoint = bytes "/" then
            ((close_agent c agent).1,
              io_op.send agent.socket NTRIP_RESPONSE_ERROR_MOUNTP :: (close_agent c agent).2)
          else if (c.agents_head NTRIP_SOURCE_AGENT).any
              (fun server => strcasecmp server.mountpoint agent.mountpoint == 0) then
            ((close_agent c agent).1,
              io_op.send agent.socket NTRIP_RESPONSE_ERROR_MOUNTP :: (close_agent c agent).2)
          else if c.config.MAX_SOURCE_CNT > 0 ∧
              c.config.MAX_SOURCE_CNT ≤ c.agents_cnt NTRIP_SOURCE_AGENT then
            ((close_agent c agent).1,
              io_op.send agent.socket NTRIP_RESPONSE_ERROR_MOUNTP :: (close_agent c agent).2)
          else
            (move_agent c agent NTRIP_SOURCE_AGENT,
              [io_op.send agent.socket NTRIP_RESPONSE_OK])

/-- The `do ... while (0)` block of the PENDING branch together with the
request-error close that follows it. -/
def pending_parse (c : ntrip_caster) (agent : ntrip_agent) : ntrip_caster × List io_op :=
  match strstr (cstr agent.pending_recv) (bytes "GET") with
  | some p => client_handshake c agent p
  | none =>
    match strstr (cstr agent.pending_recv) (bytes "SOURCE") with
    | some p => source_handshake c agent p
    | none => close_agent c agent

/-- Fan-out loop of the SOURCE branch over the client list: one `send` per
client whose mountpoint matches, `last_activity` refreshed where the `send`
did not fail. `send_res fd` is what `send` on `fd` returns (`none`: error). -/
def fanout (mountpoint : List Nat) (buf : List Nat) (now : ℚ)
    (send_res : Nat → Option Nat) : List ntrip_agent → List ntrip_agent × List io_op
  | [] => ([], [])
  | client :: rest =>
    if strcasecmp mountpoint client.mountpoint = 0 then
      ((if (send_res client.socket).isSome then { client with last_activity := now }
        else client) :: (fanout mountpoint buf now send_res rest).1,
       io_op.send client.socket buf :: (fanout mountpoint buf now send_res rest).2)
    else
      (client :: (fanout mountpoint buf now send_res rest).1,
       (fanout mountpoint buf now send_res rest).2)

/-- The PENDING branch of `agent_read_cb`. -/
def pending_read (c : ntrip_caster) (agent : ntrip_agent) (r : recv_result) (now : ℚ) :
    ntrip_caster × List io_op :=
  match r with
  | .error => close_agent c agent
  | .would_block => (c, [])
  | .data avail =>
    let got := avail.take (size_sub (size_sub 1024 agent.pending_idx) 1)
    if got.length = 0 then close_agent c agent
    else
      let agent := { agent with
        pending_recv := write_at agent.pending_recv agent.pending_idx got,
        last_activity := now,
        pending_idx := got.length }
      if agent.pending_idx ≥ 1024 - 1 then close_agent c agent
      else
        pending_parse c
          { agent with pending_recv := agent.pending_recv.set agent.pending_idx 0 }

/-- The CLIENT branch of `agent_read_cb`. -/
def client_read (c : ntrip_caster) (agent : ntrip_agent) (r : recv_result) (now : ℚ) :
    ntrip_caster × List io_op :=
  match r with
  | .error => close_agent c agent
  | .would_block => (c, [])
  | .data avail =>
    let got := avail.take (512 - 1)
    if got.length = 0 then close_agent c agent
    else (set_last_activity c agent.socket now, [])

/-- The SOURCE branch of `agent_read_cb`. -/
def source_read (c : ntrip_caster) (agent : ntrip_agent) (r : recv_result) (now : ℚ)
    (send_res : Nat → Option Nat) : ntrip_caster × List io_op :=
  match r with
  | .error => close_agent c agent
  | .would_block => (c, [])
  | .data avail =>
    let got := avail.take (512 - 1)
    if got.length = 0 then close_agent c agent
    else
      let c := set_last_activity c agent.socket now
      let f := fanout agent.mountpoint got now send_res (c.agents_head NTRIP_CLIENT_AGENT)
      (c.set_head NTRIP_CLIENT_AGENT f.1, f.2)

/-- The function `agent_read_cb` for the agent the watcher belongs to. The
last branch closes the socket and frees the agent without unlinking it. -/
def agent_read_cb (c : ntrip_caster) (agent : ntrip_agent) (r : recv_result) (now : ℚ)
    (send_res : Nat → Option Nat) : ntrip_caster × List io_op :=
  if agent.type = NTRIP_PENDING_AGENT then pending_read c agent r now
  else if agent.type = NTRIP_CLIENT_AGENT then client_read c agent r now
  else if agent.type = NTRIP_SOURCE_AGENT then source_read c agent r now send_res
  else (c, [io_op.close agent.socket])

/-- Number of agents allocated and not yet freed. -/
def ntrip_caster.live (c : ntrip_caster) : Nat :=
  c.head_pending.length + c.head_source.length + c.head_client.length

/-- Most agents a `2 ^ 64` byte address space holds: one agent takes more
than the 1024 bytes of its `pending_recv`. -/
abbrev MAX_LIVE_AGENTS : Nat := 2 ^ 64 / 1024

/-- The agent `caster_accept_cb` allocates for an accepted socket: zeroed by
`calloc`, then `socket`, `type`, `mountpoint`, `peeraddr`, `user_agent`,
`login_time`, `last_activity` and `pending_idx` are set. -/
def new_agent (agent_socket : Nat) (addrbuf : List Nat) (time : Nat) (now : ℚ) :
    ntrip_agent :=
  { socket := agent_socket
    type := NTRIP_PENDING_AGENT
    mountpoint := []
    peeraddr := snprintf_s 1025 (some addrbuf)
    user_agent := []
    login_time := time
    last_activity := now
    pending_recv := List.replicate 1024 0
    pending_idx := 0 }

/-- The function `caster_accept_cb`. `ev_error`: `EV_ERROR` is set in
`revents`; `accept_ok`: `accept` returned a valid socket (the next handle);
`calloc_ok`: `calloc` has memory to give, which it never has once
`MAX_LIVE_AGENTS` agents are live; `addrbuf`, `time`, `now`: what
`getnameinfo`, `time` and `ev_now` return. -/
def caster_accept_cb (c : ntrip_caster) (ev_error accept_ok calloc_ok : Bool)
    (addrbuf : List Nat) (time : Nat) (now : ℚ) : ntrip_caster × List io_op :=
  if ev_error then (c, [])
  else if !accept_ok then (c, [])
  else
    let agent_socket := c.next_socket
    let c := { c with next_socket := c.next_socket + 1 }
    if c.config.MAX_PENDING_CNT > 0 ∧
        c.config.MAX_PENDING_CNT ≤ c.agents_cnt NTRIP_PENDING_AGENT then
      (c, [io_op.close agent_socket])
    else if !calloc_ok || decide (MAX_LIVE_AGENTS ≤ c.live) then (c, [])
    else
      let agent := new_agent agent_socket addrbuf time now
      let c := c.set_head NTRIP_PENDING_AGENT
        (TAILQ_INSERT_TAIL (c.agents_head NTRIP_PENDING_AGENT) agent)
      (c.set_cnt NTRIP_PENDING_AGENT (size_inc (c.agents_cnt NTRIP_PENDING_AGENT)), [])

/-- Inner loop of `caster_timeout_cb` over the agents that were linked in one
list when the loop started. The test is `now - agent->last_activity >= 5.0` on
doubles. -/
def sweep (now : ℚ) : List ntrip_agent → ntrip_caster → ntrip_caster × List io_op
  | [], c => (c, [])
  | agent :: rest, c =>
    if double_sub now agent.last_activity ≥ 5 then
      ((sweep now rest (close_agent c agent).1).1,
        (close_agent c agent).2 ++ (sweep now rest (close_agent c agent).1).2)
    else sweep now rest c

/-- The function `caster_timeout_cb`. -/
def caster_timeout_cb (c : ntrip_caster) (now : ℚ) : ntrip_caster × List io_op :=
  let r0 := sweep now (c.agents_head 0) c
  let r1 := sweep now (r0.1.agents_head 1) r0.1
  let r2 := sweep now (r1.1.agents_head 2) r1.1
  (r2.1, r0.2 ++ r1.2 ++ r2.2)

/-- The function `caster_init_config`. -/
def caster_init_config : ntrip_caster_config :=
  { MAX_PENDING_CNT := DEFAULT_MAX_PENDING_AGENT
    MAX_CLIENT_CNT := DEFAULT_MAX_CLIENT_AGENT
    MAX_SOURCE_CNT := DEFAULT_MAX_SOURCE_AGENT }

/-- The caster as `main` sets it up before entering the event loop, for a
given configuration. -/
def caster_init (config : ntrip_caster_config) : ntrip_caster :=
  { head_pending := []
    head_source := []
    head_client := []
    cnt_pending := 0
    cnt_source := 0
    cnt_client := 0
    config := config
    next_socket := 0 }

/-- An event the loop dispatches. -/
inductive event where
  | accept (ev_error accept_ok calloc_ok : Bool) (addrbuf : List Nat) (time : Nat) (now : ℚ)
  | agent_read (socket : Nat) (r : recv_result) (now : ℚ) (send_res : Nat → Option Nat)
  | timeout (now : ℚ)

/-- The agent whose read watcher is registered for a socket: watchers exist
for linked agents only. -/
def find_agent (c : ntrip_caster) (socket : Nat) : Option ntrip_agent :=
  (c.head_pending ++ c.head_source ++ c.head_client).find? (fun a => a.socket == socket)

/-- One dispatch of the event loop. -/
def step (c : ntrip_caster) : event → ntrip_caster × List io_op
  | .accept ev_error accept_ok calloc_ok addrbuf time now =>
    caster_accept_cb c ev_error accept_ok calloc_ok addrbuf time now
  | .agent_read socket r now send_res =>
    match find_agent c socket with
    | some agent => agent_read_cb c agent r now send_res
    | none => (c, [])
  | .timeout now => caster_timeout_cb c now

/-- The caster after a finite sequence of events, from the initial state. -/
def run (config : ntrip_caster_config) (evs : List event) : ntrip_caster :=
  evs.foldl (fun c e => (step c e).1) (caster_init config)

/-! ## Requests of the shape the handshake parser accepts -/

/-- A field `sscanf` reads whole with `%<n>s`: not empty, at most `n` bytes,
none of them white space or NUL. -/
abbrev is_token (n : Nat) (t : List Nat) : Prop :=
  t ≠ [] ∧ t.length ≤ n ∧ ∀ b ∈ t, isspace b = false ∧ b ≠ 0

/-- Bytes none of which is NUL. -/
abbrev nul_free (t : List Nat) : Prop := ∀ b ∈ t, b ≠ 0

/-- The request `GET <url> <proto>\r\nUser-Agent: <ua>\r\n\r\n`. -/
def get_request (url proto ua : List Nat) : List Nat :=
  bytes "GET " ++ url ++ bytes " " ++ proto ++ bytes "\r\nUser-Agent: " ++ ua ++
    bytes "\r\n\r\n"

/-- The client handshake `GET /<m> HTTP/1.<x>\r\nUser-Agent: <ua>\r\n\r\n`. -/
def client_request (m : List Nat) (x : Nat) (ua : List Nat) : List Nat :=
  bytes "GET /" ++ m ++ bytes " HTTP/1." ++ [x] ++ bytes "\r\nUser-Agent: " ++ ua ++
    bytes "\r\n\r\n"

/-- The source handshake `SOURCE <pw> <m>\r\nSource-Agent: <ua>\r\n\r\n`. -/
def source_request (pw m ua : List Nat) : List Nat :=
  bytes "SOURCE " ++ pw ++ bytes " " ++ m ++ bytes "\r\nSource-Agent: " ++ ua ++
    bytes "\r\n\r\n"

/-- The dispatch of a read event on the socket of `a` in which `recv` delivers
exactly `msg`. -/
def deliver (c : ntrip_caster) (a : ntrip_agent) (msg : List Nat) (now : ℚ)
    (send_res : Nat → Option Nat) : ntrip_caster × List io_op :=
  step c (.agent_read a.socket (.data msg) now send_res)

/-- The request in the parse buffer has the verb `GET` but not all of: a
`\r\n` after it, a `User-Agent:` header after that `\r\n`, a `\r\n` after the
header. -/
def lacks_client_headers (buf : List Nat) : Bool :=
  match strstr buf (bytes "GET") with
  | none => false
  | some p =>
    match strstr p (bytes "\r\n") with
    | none => true
    | some q =>
      match strstr q (bytes "User-Agent:") with
      | none => true
      | some ag => (strstr ag (bytes "\r\n")).isNone

/-- The request in the parse buffer has the verb `SOURCE` but not all of: a
`\r\n` after it, a `Source-Agent:` header after that `\r\n`, a `\r\n` after
the header. -/
def lacks_source_headers (buf : List Nat) : Bool :=
  match strstr buf (bytes "SOURCE") with
  | none => false
  | some p =>
    match strstr p (bytes "\r\n") with
    | none => true
    | some q =>
      match strstr q (bytes "Source-Agent:") with
      | none => true
      | some ag => (strstr ag (bytes "\r\n")).isNone

/-- A trace that leaves one source on mountpoint `MNT` and one pending
agent: a connection is accepted and sends
`SOURCE pw MNT\r\nSource-Agent: src/1.0\r\n\r\n`, then a second connection is
accepted. -/
def source_then_pending : List event :=
  [.accept false true true [] 0 0,
   .agent_read 0 (.data (source_request (bytes "pw") (bytes "MNT") (bytes "src/1.0"))) 1
     (fun _ => none),
   .accept false true true [] 0 2]

/-- A trace that leaves one client on mountpoint `MNT` and one pending agent:
a connection is accepted and sends
`GET /MNT HTTP/1.1\r\nUser-Agent: c/1.0\r\n\r\n`, then a second connection is
accepted. -/
def client_then_pending : List event :=
  [.accept false true true [] 0 0,
   .agent_read 0 (.data (client_request (bytes "MNT") 49 (bytes "c/1.0"))) 1 (fun _ => none),
   .accept false true true [] 0 2]

/-- The default configuration with the CLIENT cap lowered to one. -/
def one_client_config : ntrip_caster_config :=
  { caster_init_config with MAX_CLIENT_CNT := 1 }

/-- The double nearest to `0.1`, what the C literal `0.1` denotes. -/
def double_0_1 : ℚ := 3602879701896397 / 2 ^ 55

/-- The double nearest to `5.1`, what the C literal `5.1` denotes. -/
def double_5_1 : ℚ := 5742089524897382 / 2 ^ 50

/-- The client request `GET MNT HTTP/1.1\r\nUser-Agent: x\r\n\r\n`: its url,
`MNT`, has no `/`. -/
def request_without_slash : List Nat :=
  get_request (bytes "MNT") (bytes "HTTP/1.1") (bytes "x")

/-! ## Invariant of the reachable states -/

/-- All linked agents, in the order PENDING, SOURCE, CLIENT. -/
def ntrip_caster.all (c : ntrip_caster) : List ntrip_agent :=
  c.head_pending ++ c.head_source ++ c.head_client

/-- What holds of every state the event loop can reach: each list holds agents
of its own type only, pending agents have an empty parse buffer index, socket
handles are pairwise distinct and were handed out before, counters equal list
lengths, the agents fit in memory, source mountpoints are pairwise different
without regard to case, and the non-zero caps bound the counters. -/
structure Inv (c : ntrip_caster) : Prop where
  typed0 : ∀ a ∈ c.head_pending, a.type = 0 ∧ a.pending_idx = 0
  typed1 : ∀ a ∈ c.head_source, a.type = 1
  typed2 : ∀ a ∈ c.head_client, a.type = 2
  nodup : (c.all.map (fun a => a.socket)).Nodup
  fresh : ∀ a ∈ c.all, a.socket < c.next_socket
  cnt0 : c.cnt_pending = c.head_pending.length
  cnt1 : c.cnt_source = c.head_source.length
  cnt2 : c.cnt_client = c.head_client.length
  room : c.live ≤ MAX_LIVE_AGENTS
  uniq : c.head_source.Pairwise (fun a b => strcasecmp a.mountpoint b.mountpoint ≠ 0)
  cap0 : c.config.MAX_PENDING_CNT ≠ 0 → c.cnt_pending ≤ c.config.MAX_PENDING_CNT
  cap1 : c.config.MAX_SOURCE_CNT ≠ 0 → c.cnt_source ≤ c.config.MAX_SOURCE_CNT
  cap2 : c.config.MAX_CLIENT_CNT ≠ 0 → c.cnt_client ≤ c.config.MAX_CLIENT_CNT

/-- A field update that leaves the socket, the type, the mountpoint and the
parse index of every agent alone. -/
def Keeps (g : ntrip_agent → ntrip_agent) : Prop :=
  ∀ a, (g a).socket = a.socket ∧ (g a).type = a.type ∧
    (g a).mountpoint = a.mountpoint ∧ (g a).pending_idx = a.pending_idx

/-! ## Notions the later claims are stated with -/

/-- The clock value `ev_now` hands the callback of an event. -/
def event_now : event → ℚ
  | .accept _ _ _ _ _ now => now
  | .agent_read _ _ now _ => now
  | .timeout now => now

/-- The agent is idle at clock `now`: the test `now - agent->last_activity >= 5.0`
of `caster_timeout_cb`, the difference being the one of doubles. -/
def idle (now : ℚ) (agent : ntrip_agent) : Bool :=
  decide (double_sub now agent.last_activity ≥ 5)

/-- How the caster after a callback run at clock `now` (`c'`) relates to the
caster before it (`c`): every agent linked afterwards either was linked before
under the same socket, with `last_activity` kept or set to `now`, with type and
mountpoint kept unless it was pending, and with the parse index kept or zero;
or it is a connection accepted by this callback. -/
def Descends (now : ℚ) (c c' : ntrip_caster) : Prop :=
  ∀ a' ∈ c'.all,
    (∃ a ∈ c.all, a'.socket = a.socket ∧
      (a'.last_activity = a.last_activity ∨ a'.last_activity = now) ∧
      (a.type ≠ NTRIP_PENDING_AGENT → a'.type = a.type ∧ a'.mountpoint = a.mountpoint) ∧
      (a'.pending_idx = a.pending_idx ∨ a'.pending_idx = 0)) ∨
    (c.next_socket ≤ a'.socket ∧ a'.last_activity = now ∧ a'.pending_idx = 0)

/-- Bytes that reached socket `fd` through the socket operations `ops`: of each
`send` on `fd` the first `k` bytes when `send` returned `k`, none when it
failed. -/
def delivered (fd : Nat) (send_res : Nat → Option Nat) : List io_op → List Nat
  | [] => []
  | io_op.send s data :: ops =>
    (if s = fd then
      match send_res s with
      | some k => data.take k
      | none => []
    else []) ++ delivered fd send_res ops
  | io_op.close _ :: ops => delivered fd send_res ops

/-- What one event contributes to the relay from the source on socket `src` to
socket `dst`: for a successful read on `src` as a SOURCE agent the byte run
read and the bytes its fan-out delivered to `dst`; nothing for other events. -/
def relay_entry (src dst : Nat) (c : ntrip_caster) : event → List (List Nat × List Nat)
  | .agent_read socket (.data avail) now send_res =>
    match find_agent c socket with
    | some agent =>
      if socket = src ∧ agent.type = NTRIP_SOURCE_AGENT ∧ avail.take (512 - 1) ≠ [] then
        [(avail.take (512 - 1),
          delivered dst send_res (step c (.agent_read socket (.data avail) now send_res)).2)]
      else []
    | none => []
  | _ => []

/-- The relay from the source on socket `src` to socket `dst` along a trace
from the state `c`: the byte runs read, each with what was delivered of it. -/
def relay_log (src dst : Nat) : ntrip_caster → List event → List (List Nat × List Nat)
  | _, [] => []
  | c, e :: es => relay_entry src dst c e ++ relay_log src dst (step c e).1 es

/-- The bytes read from the source on socket `src` along a trace from the
state `c`, run after run. -/
def source_stream (src dst : Nat) (c : ntrip_caster) (evs : List event) : List Nat :=
  ((relay_log src dst c evs).map Prod.fst).flatten

/-- The bytes the fan-out delivered to socket `dst` from the source on socket
`src` along a trace from the state `c`, run after run. -/
def client_stream (src dst : Nat) (c : ntrip_caster) (evs : List event) : List Nat :=
  ((relay_log src dst c evs).map Prod.snd).flatten

/-- A trace in which a source (socket 0) and a client (socket 1) meet on the
mountpoint `MNT`. -/
def source_and_client : List event :=
  [.accept false true true [] 0 0,
   .agent_read 0 (.data (source_request (bytes "pw") (bytes "MNT") (bytes "src/1.0"))) 1
     (fun _ => none),
   .accept false true true [] 0 2,
   .agent_read 1 (.data (client_request (bytes "MNT") 49 (bytes "c/1.0"))) 3 (fun _ => none)]

/-- The source agent at the end of the trace `source_and_client`. -/
def relay_source : ntrip_agent :=
  (run caster_init_config source_and_client).head_source.headD (new_agent 0 [] 0 0)

/-- The client agent at the end of the trace `source_and_client`. -/
def relay_client : ntrip_agent :=
  (run caster_init_config source_and_client).head_client.headD (new_agent 0 [] 0 0)

/-- A trace in which a source (socket 0) and a client (socket 1) meet on the
mountpoint `MNT`, the source sends `A` while the write to the client fails,
and then sends `B` while the write succeeds. -/
def relay_with_failed_write : List event :=
  [.accept false true true [] 0 0,
   .agent_read 0 (.data (source_request (bytes "pw") (bytes "MNT") (bytes "src/1.0"))) 1
     (fun _ => none),
   .accept false true true [] 0 2,
   .agent_read 1 (.data (client_request (bytes "MNT") 49 (bytes "c/1.0"))) 3 (fun _ => none),
   .agent_read 0 (.data (bytes "A")) 4 (fun _ => none),
   .agent_read 0 (.data (bytes "B")) 5 (fun _ => some 1)]

/-- The PENDING branch of `agent_read_cb` with the parse index accumulated:
`agent->pending_idx += n` where the source has `agent->pending_idx =+ n`. -/
def pending_read_accumulate (c : ntrip_caster) (agent : ntrip_agent) (r : recv_result)
    (now : ℚ) : ntrip_caster × List io_op :=
  match r with
  | .error => close_agent c agent
  | .would_block => (c, [])
  | .data avail =>
    let got := avail.take (size_sub (size_sub 1024 agent.pending_idx) 1)
    if got.length = 0 then close_agent c agent
    else
      let agent := { agent with
        pending_recv := write_at agent.pending_recv agent.pending_idx got,
        last_activity := now,
        pending_idx := (agent.pending_idx + got.length) % SIZE_MOD }
      if agent.pending_idx ≥ 1024 - 1 then close_agent c agent
      else
        pending_parse c
          { agent with pending_recv := agent.pending_recv.set agent.pending_idx 0 }

/-- The function `agent_read_cb` with the accumulating PENDING branch. -/
def agent_read_cb_accumulate (c : ntrip_caster) (agent : ntrip_agent) (r : recv_result)
    (now : ℚ) (send_res : Nat → Option Nat) : ntrip_caster × List io_op :=
  if agent.type = NTRIP_PENDING_AGENT then pending_read_accumulate c agent r now
  else if agent.type = NTRIP_CLIENT_AGENT then client_read c agent r now
  else if agent.type = NTRIP_SOURCE_AGENT then source_read c agent r now send_res
  else (c, [io_op.close agent.socket])

/-- One dispatch of the event loop with the accumulating read handler. -/
def step_accumulate (c : ntrip_caster) : event → ntrip_caster × List io_op
  | .accept ev_error accept_ok calloc_ok addrbuf time now =>
    caster_accept_cb c ev_error accept_ok calloc_ok addrbuf time now
  | .agent_read socket r now send_res =>
    match find_agent c socket with
    | some agent => agent_read_cb_accumulate c agent r now send_res
    | none => (c, [])
  | .timeout now => caster_timeout_cb c now

/-- The caster after a finite sequence of events with the accumulating read
handler, from the initial state. -/
def run_accumulate (config : ntrip_caster_config) (evs : List event) : ntrip_caster :=
  evs.foldl (fun c e => (step_accumulate c e).1) (caster_init config)

/-! ## Arithmetic of `size_t` -/

theorem size_dec_pos (n : Nat) (h0 : 0 < n) (h1 : n < SIZE_MOD) : size_dec n = n - 1 := by
  unfold size_dec SIZE_MOD at *
  omega

theorem size_inc_lt (n : Nat) (h1 : n + 1 < SIZE_MOD) : size_inc n = n + 1 := by
  unfold size_inc SIZE_MOD at *
  omega

theorem max_live_val : MAX_LIVE_AGENTS = 18014398509481984 := by
  norm_num [MAX_LIVE_AGENTS]

theorem recv_len_zero : size_sub (size_sub 1024 0) 1 = 1023 := by
  norm_num [size_sub, SIZE_MOD]

/-! ## Unlinking -/

theorem remove_sublist (l : List ntrip_agent) (a : ntrip_agent) :
    (TAILQ_REMOVE l a).Sublist l :=
  List.eraseP_sublist l

theorem remove_length (l : List ntrip_agent) (a x : ntrip_agent) (hx : x ∈ l)
    (hs : x.socket = a.socket) : (TAILQ_REMOVE l a).length + 1 = l.length := by
  have h := List.length_eraseP_of_mem (p := fun y => y.socket == a.socket) hx (by simp [hs])
  have hpos : 0 < l.length := List.length_pos_of_mem hx
  unfold TAILQ_REMOVE
  omega

/-! ## Preservation of the invariant -/

theorem Inv.shrink {c c' : ntrip_caster} (hI : Inv c)
    (h0 : c'.head_pending.Sublist c.head_pending)
    (h1 : c'.head_source.Sublist c.head_source)
    (h2 : c'.head_client.Sublist c.head_client)
    (hc0 : c'.cnt_pending = c'.head_pending.length)
    (hc1 : c'.cnt_source = c'.head_source.length)
    (hc2 : c'.cnt_client = c'.head_client.length)
    (hcfg : c'.config = c.config) (hn : c.next_socket ≤ c'.next_socket) : Inv c' := by
  have hall : c'.all.Sublist c.all := (h0.append h1).append h2
  have l0 := h0.length_le
  have l1 := h1.length_le
  have l2 := h2.length_le
  have e0 := hI.cnt0
  have e1 := hI.cnt1
  have e2 := hI.cnt2
  refine
    { typed0 := fun a ha => hI.typed0 a (h0.subset ha)
      typed1 := fun a ha => hI.typed1 a (h1.subset ha)
      typed2 := fun a ha => hI.typed2 a (h2.subset ha)
      nodup := hI.nodup.sublist (hall.map _)
      fresh := fun a ha => lt_of_lt_of_le (hI.fresh a (hall.subset ha)) hn
      cnt0 := hc0
      cnt1 := hc1
      cnt2 := hc2
      room := ?_
      uniq := hI.uniq.sublist h1
      cap0 := ?_
      cap1 := ?_
      cap2 := ?_ }
  · have := hI.room
    unfold ntrip_caster.live at *
    omega
  · intro h
    rw [hcfg] at h ⊢
    have := hI.cap0 h
    omega
  · intro h
    rw [hcfg] at h ⊢
    have := hI.cap1 h
    omega
  · intro h
    rw [hcfg] at h ⊢
    have := hI.cap2 h
    omega

theorem agents_head_type {c : ntrip_caster} {t : Nat} {x : ntrip_agent}
    (hx : x ∈ c.agents_head t) : t = 0 ∨ t = 1 ∨ t = 2 := by
  match t, hx with
  | 0, _ => exact Or.inl rfl
  | 1, _ => exact Or.inr (Or.inl rfl)
  | 2, _ => exact Or.inr (Or.inr rfl)
  | _ + 3, hx => simp [ntrip_caster.agents_head] at hx

theorem cnt_lt_mod {c : ntrip_caster} (hI : Inv c) :
    c.cnt_pending < SIZE_MOD ∧ c.cnt_source < SIZE_MOD ∧ c.cnt_client < SIZE_MOD := by
  have := hI.room
  have e0 := hI.cnt0
  have e1 := hI.cnt1
  have e2 := hI.cnt2
  rw [max_live_val] at this
  unfold ntrip_caster.live at this
  unfold SIZE_MOD
  omega

theorem Inv.close {c : ntrip_caster} (hI : Inv c) (a x : ntrip_agent)
    (hx : x ∈ c.agents_head a.type) (hs : x.socket = a.socket) :
    Inv (close_agent c a).1 := by
  obtain ⟨b0, b1, b2⟩ := cnt_lt_mod hI
  have e0 := hI.cnt0
  have e1 := hI.cnt1
  have e2 := hI.cnt2
  rcases agents_head_type hx with h | h | h
  · rw [h] at hx
    have hlen := remove_length _ a x hx hs
    apply hI.shrink <;>
      simp only [close_agent, h, ntrip_caster.set_head, ntrip_caster.set_cnt,
        ntrip_caster.agents_head, ntrip_caster.agents_cnt, List.Sublist.refl, le_refl]
    · exact remove_sublist _ _
    · rw [size_dec_pos _ (by simp only [ntrip_caster.agents_head] at hlen; omega) b0]
      simp only [ntrip_caster.agents_head] at hlen
      omega
    · exact e1
    · exact e2
  · rw [h] at hx
    have hlen := remove_length _ a x hx hs
    apply hI.shrink <;>
      simp only [close_agent, h, ntrip_caster.set_head, ntrip_caster.set_cnt,
        ntrip_caster.agents_head, ntrip_caster.agents_cnt, List.Sublist.refl, le_refl]
    · exact remove_sublist _ _
    · exact e0
    · rw [size_dec_pos _ (by simp only [ntrip_caster.agents_head] at hlen; omega) b1]
      simp only [ntrip_caster.agents_head] at hlen
      omega
    · exact e2
  · rw [h] at hx
    have hlen := remove_length _ a x hx hs
    apply hI.shrink <;>
      simp only [close_agent, h, ntrip_caster.set_head, ntrip_caster.set_cnt,
        ntrip_caster.agents_head, ntrip_caster.agents_cnt, List.Sublist.refl, le_refl]
    · exact remove_sublist _ _
    · exact e0
    · exact e1
    · rw [size_dec_pos _ (by simp only [ntrip_caster.agents_head] at hlen; omega) b2]
      simp only [ntrip_caster.agents_head] at hlen
      omega

theorem Inv.relabel {c : ntrip_caster} (hI : Inv c) (g0 g1 g2 : ntrip_agent → ntrip_agent)
    (k0 : Keeps g0) (k1 : Keeps g1) (k2 : Keeps g2) :
    Inv { c with head_pending := c.head_pending.map g0,
                 head_source := c.head_source.map g1,
                 head_client := c.head_client.map g2 } := by
  have s0 : (fun a => a.socket) ∘ g0 = fun a => a.socket := funext fun a => (k0 a).1
  have s1 : (fun a => a.socket) ∘ g1 = fun a => a.socket := funext fun a => (k1 a).1
  have s2 : (fun a => a.socket) ∘ g2 = fun a => a.socket := funext fun a => (k2 a).1
  have hsock : (List.map (fun a => a.socket)
      (c.head_pending.map g0 ++ c.head_source.map g1 ++ c.head_client.map g2)) =
      c.all.map (fun a => a.socket) := by
    simp only [ntrip_caster.all, List.map_append, List.map_map, s0, s1, s2]
  refine
    { typed0 := ?_, typed1 := ?_, typed2 := ?_, nodup := ?_, fresh := ?_
      cnt0 := ?_, cnt1 := ?_, cnt2 := ?_, room := ?_, uniq := ?_
      cap0 := hI.cap0, cap1 := hI.cap1, cap2 := hI.cap2 }
  · intro a ha
    obtain ⟨b, hb, rfl⟩ := List.mem_map.1 ha
    rw [(k0 b).2.1, (k0 b).2.2.2]
    exact hI.typed0 b hb
  · intro a ha
    obtain ⟨b, hb, rfl⟩ := List.mem_map.1 ha
    rw [(k1 b).2.1]
    exact hI.typed1 b hb
  · intro a ha
    obtain ⟨b, hb, rfl⟩ := List.mem_map.1 ha
    rw [(k2 b).2.1]
    exact hI.typed2 b hb
  · show (List.map (fun a => a.socket)
      (c.head_pending.map g0 ++ c.head_source.map g1 ++ c.head_client.map g2)).Nodup
    rw [hsock]
    exact hI.nodup
  · intro a ha
    have hm : a.socket ∈ List.map (fun a => a.socket)
        (c.head_pending.map g0 ++ c.head_source.map g1 ++ c.head_client.map g2) :=
      List.mem_map.2 ⟨a, ha, rfl⟩
    rw [hsock] at hm
    obtain ⟨b, hb, hbs⟩ := List.mem_map.1 hm
    have := hI.fresh b hb
    show a.socket < c.next_socket
    omega
  · simpa using hI.cnt0
  · simpa using hI.cnt1
  · simpa using hI.cnt2
  · simpa [ntrip_caster.live] using hI.room
  · show List.Pairwise _ (c.head_source.map g1)
    rw [List.pairwise_map]
    refine hI.uniq.imp ?_
    intro a b hab
    rw [(k1 a).2.2.1, (k1 b).2.2.1]
    exact hab

theorem keeps_id : Keeps (fun a => a) := fun _ => ⟨rfl, rfl, rfl, rfl⟩

theorem keeps_touch (p : ntrip_agent → Prop) [DecidablePred p] (now : ℚ) :
    Keeps (fun x => if p x then { x with last_activity := now } else x) := by
  intro a
  by_cases h : p a <;> simp [h]

theorem Inv.set_last_activity {c : ntrip_caster} (hI : Inv c) (socket : Nat) (now : ℚ) :
    Inv (set_last_activity c socket now) :=
  hI.relabel _ _ _ (keeps_touch _ now) (keeps_touch _ now) (keeps_touch _ now)

/-- The client list after the fan-out loop: `last_activity` refreshed at the
matching clients whose `send` did not fail. -/
theorem fanout_fst (m buf : List Nat) (now : ℚ) (sr : Nat → Option Nat)
    (l : List ntrip_agent) :
    (fanout m buf now sr l).1 = l.map (fun x =>
      if strcasecmp m x.mountpoint = 0 ∧ (sr x.socket).isSome = true
      then { x with last_activity := now } else x) := by
  induction l with
  | nil => rfl
  | cons x xs ih =>
    by_cases h1 : strcasecmp m x.mountpoint = 0
    · by_cases h2 : (sr x.socket).isSome = true <;> simp [fanout, h1, h2, ih]
    · simp [fanout, h1, ih]

theorem Inv.fanout {c : ntrip_caster} (hI : Inv c) (m buf : List Nat) (now : ℚ)
    (sr : Nat → Option Nat) :
    Inv (c.set_head NTRIP_CLIENT_AGENT
      (fanout m buf now sr (c.agents_head NTRIP_CLIENT_AGENT)).1) := by
  have h := hI.relabel _ _ _ keeps_id keeps_id
    (keeps_touch (fun x => strcasecmp m x.mountpoint = 0 ∧ (sr x.socket).isSome = true) now)
  simpa [ntrip_caster.set_head, ntrip_caster.agents_head, fanout_fst] using h

theorem move_client_eq (c : ntrip_caster) (a : ntrip_agent) (h : a.type = 0) :
    move_agent c a NTRIP_CLIENT_AGENT =
      { c with head_pending := TAILQ_REMOVE c.head_pending a
               cnt_pending := size_dec c.cnt_pending
               head_client := c.head_client ++ [{ a with pending_idx := 0, type := 2 }]
               cnt_client := size_inc c.cnt_client } := by
  simp [move_agent, h, ntrip_caster.set_head, ntrip_caster.set_cnt,
    ntrip_caster.agents_head, ntrip_caster.agents_cnt, TAILQ_INSERT_TAIL, TAILQ_REMOVE]

theorem move_source_eq (c : ntrip_caster) (a : ntrip_agent) (h : a.type = 0) :
    move_agent c a NTRIP_SOURCE_AGENT =
      { c with head_pending := TAILQ_REMOVE c.head_pending a
               cnt_pending := size_dec c.cnt_pending
               head_source := c.head_source ++ [{ a with pending_idx := 0, type := 1 }]
               cnt_source := size_inc c.cnt_source } := by
  simp [move_agent, h, ntrip_caster.set_head, ntrip_caster.set_cnt,
    ntrip_caster.agents_head, ntrip_caster.agents_cnt, TAILQ_INSERT_TAIL, TAILQ_REMOVE]

theorem remove_sockets_count (l : List ntrip_agent) (a x : ntrip_agent) (hx : x ∈ l)
    (hs : x.socket = a.socket) (n : Nat) :
    List.count n ((TAILQ_REMOVE l a).map (fun y => y.socket)) + List.count n [a.socket] =
      List.count n (l.map (fun y => y.socket)) := by
  obtain ⟨y, l₁, l₂, -, hy, hl, he⟩ :=
    List.exists_of_eraseP (p := fun y => y.socket == a.socket) hx (by simp [hs])
  have hy' : y.socket = a.socket := by simpa using hy
  unfold TAILQ_REMOVE
  rw [he, hl]
  simp only [List.map_append, List.map_cons, List.count_append, List.count_cons,
    List.count_nil, hy']
  omega

theorem Inv.move_client {c : ntrip_caster} (hI : Inv c) (a x : ntrip_agent)
    (hx : x ∈ c.head_pending) (hs : x.socket = a.socket) (ht : a.type = 0)
    (hcap : ¬ (c.config.MAX_CLIENT_CNT > 0 ∧ c.config.MAX_CLIENT_CNT ≤ c.cnt_client)) :
    Inv (move_agent c a NTRIP_CLIENT_AGENT) := by
  obtain ⟨b0, b1, b2⟩ := cnt_lt_mod hI
  have e0 := hI.cnt0
  have e1 := hI.cnt1
  have e2 := hI.cnt2
  have hroom := hI.room
  have hlen := remove_length _ a x hx hs
  have hsub := remove_sublist c.head_pending a
  have hcnt := remove_sockets_count _ a x hx hs
  rw [max_live_val] at hroom
  unfold ntrip_caster.live at hroom
  have hdec : size_dec c.cnt_pending = (TAILQ_REMOVE c.head_pending a).length := by
    rw [size_dec_pos _ (by omega) b0]
    omega
  have hinc : size_inc c.cnt_client = c.head_client.length + 1 := by
    rw [size_inc_lt _ (by unfold SIZE_MOD; omega)]
    omega
  rw [move_client_eq c a ht]
  refine
    { typed0 := fun y hy => hI.typed0 y (hsub.subset hy)
      typed1 := hI.typed1
      typed2 := ?_, nodup := ?_, fresh := ?_
      cnt0 := hdec
      cnt1 := e1
      cnt2 := ?_, room := ?_
      uniq := hI.uniq
      cap0 := ?_
      cap1 := hI.cap1
      cap2 := ?_ }
  · intro y hy
    rcases List.mem_append.1 hy with h | h
    · exact hI.typed2 y h
    · rw [List.mem_singleton.1 h]
  · have hp : List.Perm
        (List.map (fun y => y.socket)
          (TAILQ_REMOVE c.head_pending a ++ c.head_source ++
            (c.head_client ++ [{ a with pending_idx := 0, type := 2 }])))
        (c.all.map (fun y => y.socket)) := by
      rw [List.perm_iff_count]
      intro n
      have := hcnt n
      simp only [ntrip_caster.all, List.map_append, List.count_append, List.map_cons,
        List.map_nil] at this ⊢
      omega
    exact hp.nodup_iff.2 hI.nodup
  · intro y hy
    have hxf := hI.fresh x (by simp [ntrip_caster.all, hx])
    have hy' : y ∈ TAILQ_REMOVE c.head_pending a ++ c.head_source ++
        (c.head_client ++ [{ a with pending_idx := 0, type := 2 }]) := hy
    simp only [List.mem_append, List.mem_singleton] at hy'
    show y.socket < c.next_socket
    rcases hy' with (h | h) | h | h
    · exact hI.fresh y (by simp [ntrip_caster.all, hsub.subset h])
    · exact hI.fresh y (by simp [ntrip_caster.all, h])
    · exact hI.fresh y (by simp [ntrip_caster.all, h])
    · rw [h]
      show a.socket < c.next_socket
      omega
  · show size_inc c.cnt_client = (c.head_client ++ [_]).length
    rw [hinc, List.length_append, List.length_singleton]
  · show (TAILQ_REMOVE c.head_pending a).length + c.head_source.length +
      (c.head_client ++ [_]).length ≤ MAX_LIVE_AGENTS
    rw [max_live_val, List.length_append, List.length_singleton]
    omega
  · intro h
    have := hI.cap0 h
    show size_dec c.cnt_pending ≤ c.config.MAX_PENDING_CNT
    omega
  · intro h
    show size_inc c.cnt_client ≤ c.config.MAX_CLIENT_CNT
    have h' : c.config.MAX_CLIENT_CNT ≠ 0 := h
    omega

theorem Inv.move_source {c : ntrip_caster} (hI : Inv c) (a x : ntrip_agent)
    (hx : x ∈ c.head_pending) (hs : x.socket = a.socket) (ht : a.type = 0)
    (huniq : ∀ s ∈ c.head_source, strcasecmp s.mountpoint a.mountpoint ≠ 0)
    (hcap : ¬ (c.config.MAX_SOURCE_CNT > 0 ∧ c.config.MAX_SOURCE_CNT ≤ c.cnt_source)) :
    Inv (move_agent c a NTRIP_SOURCE_AGENT) := by
  obtain ⟨b0, b1, b2⟩ := cnt_lt_mod hI
  have e0 := hI.cnt0
  have e1 := hI.cnt1
  have e2 := hI.cnt2
  have hroom := hI.room
  have hlen := remove_length _ a x hx hs
  have hsub := remove_sublist c.head_pending a
  have hcnt := remove_sockets_count _ a x hx hs
  rw [max_live_val] at hroom
  unfold ntrip_caster.live at hroom
  have hdec : size_dec c.cnt_pending = (TAILQ_REMOVE c.head_pending a).length := by
    rw [size_dec_pos _ (by omega) b0]
    omega
  have hinc : size_inc c.cnt_source = c.head_source.length + 1 := by
    rw [size_inc_lt _ (by unfold SIZE_MOD; omega)]
    omega
  rw [move_source_eq c a ht]
  refine
    { typed0 := fun y hy => hI.typed0 y (hsub.subset hy)
      typed1 := ?_
      typed2 := hI.typed2
      nodup := ?_, fresh := ?_
      cnt0 := hdec
      cnt1 := ?_
      cnt2 := e2
      room := ?_
      uniq := ?_
      cap0 := ?_
      cap1 := ?_
      cap2 := hI.cap2 }
  · intro y hy
    rcases List.mem_append.1 hy with h | h
    · exact hI.typed1 y h
    · rw [List.mem_singleton.1 h]
  · have hp : List.Perm
        (List.map (fun y => y.socket)
          (TAILQ_REMOVE c.head_pending a ++
            (c.head_source ++ [{ a with pending_idx := 0, type := 1 }]) ++ c.head_client))
        (c.all.map (fun y => y.socket)) := by
      rw [List.perm_iff_count]
      intro n
      have := hcnt n
      simp only [ntrip_caster.all, List.map_append, List.count_append, List.map_cons,
        List.map_nil] at this ⊢
      omega
    exact hp.nodup_iff.2 hI.nodup
  · intro y hy
    have hxf := hI.fresh x (by simp [ntrip_caster.all, hx])
    have hy' : y ∈ TAILQ_REMOVE c.head_pending a ++
        (c.head_source ++ [{ a with pending_idx := 0, type := 1 }]) ++ c.head_client := hy
    simp only [List.mem_append, List.mem_singleton] at hy'
    show y.socket < c.next_socket
    rcases hy' with (h | h | h) | h
    · exact hI.fresh y (by simp [ntrip_caster.all, hsub.subset h])
    · exact hI.fresh y (by simp [ntrip_caster.all, h])
    · rw [h]
      show a.socket < c.next_socket
      omega
    · exact hI.fresh y (by simp [ntrip_caster.all, h])
  · show size_inc c.cnt_source = (c.head_source ++ [_]).length
    rw [hinc, List.length_append, List.length_singleton]
  · show (TAILQ_REMOVE c.head_pending a).length + (c.head_source ++ [_]).length +
      c.head_client.length ≤ MAX_LIVE_AGENTS
    rw [max_live_val, List.length_append, List.length_singleton]
    omega
  · show List.Pairwise _ (c.head_source ++ [_])
    rw [List.pairwise_append]
    refine ⟨hI.uniq, List.pairwise_singleton _ _, ?_⟩
    intro s hs' b hb
    rw [List.mem_singleton.1 hb]
    exact huniq s hs'
  · intro h
    have := hI.cap0 h
    show size_dec c.cnt_pending ≤ c.config.MAX_PENDING_CNT
    omega
  · intro h
    show size_inc c.cnt_source ≤ c.config.MAX_SOURCE_CNT
    have h' : c.config.MAX_SOURCE_CNT ≠ 0 := h
    omega

theorem Inv.of_client_handshake {c : ntrip_caster} (hI : Inv c) (agent x : ntrip_agent)
    (hx : x ∈ c.head_pending) (hs : x.socket = agent.socket) (ht : agent.type = 0)
    (p : List Nat) : Inv (client_handshake c agent p).1 := by
  have hclose : ∀ a' : ntrip_agent, a'.socket = agent.socket → a'.type = 0 →
      Inv (close_agent c a').1 := by
    intro a' h1 h2
    exact hI.close a' x (by rw [h2]; exact hx) (by rw [hs, h1])
  unfold client_handshake
  split
  · exact hclose _ rfl ht
  · split
    · exact hclose _ rfl ht
    · split
      · exact hclose _ rfl ht
      · simp only []
        split
        · exact hclose _ rfl ht
        · split
          · exact hclose _ rfl ht
          · split
            · exact hclose _ rfl ht
            · rename_i hcap
              dsimp only
              exact Inv.move_client hI _ x hx hs ht hcap

theorem Inv.of_source_handshake {c : ntrip_caster} (hI : Inv c) (agent x : ntrip_agent)
    (hx : x ∈ c.head_pending) (hs : x.socket = agent.socket) (ht : agent.type = 0)
    (p : List Nat) : Inv (source_handshake c agent p).1 := by
  have hclose : ∀ a' : ntrip_agent, a'.socket = agent.socket → a'.type = 0 →
      Inv (close_agent c a').1 := by
    intro a' h1 h2
    exact hI.close a' x (by rw [h2]; exact hx) (by rw [hs, h1])
  unfold source_handshake
  split
  · exact hclose _ rfl ht
  · split
    · exact hclose _ rfl ht
    · split
      · exact hclose _ rfl ht
      · simp only []
        split
        · exact hclose _ rfl ht
        · split
          · exact hclose _ rfl ht
          · split
            · exact hclose _ rfl ht
            · split
              · exact hclose _ rfl ht
              · rename_i hany hcap
                dsimp only
                refine Inv.move_source hI _ x hx hs ht ?_ hcap
                intro s hs'
                simp only [ntrip_caster.agents_head, List.any_eq_true, beq_iff_eq,
                  not_exists, not_and, Bool.not_eq_true] at hany
                intro h0
                have := hany s hs'
                simp [h0] at this

theorem Inv.of_pending_parse {c : ntrip_caster} (hI : Inv c) (agent x : ntrip_agent)
    (hx : x ∈ c.head_pending) (hs : x.socket = agent.socket) (ht : agent.type = 0) :
    Inv (pending_parse c agent).1 := by
  unfold pending_parse
  split
  · exact hI.of_client_handshake agent x hx hs ht _
  · split
    · exact hI.of_source_handshake agent x hx hs ht _
    · exact hI.close agent x (by rw [ht]; exact hx) hs

theorem mem_all_head {c : ntrip_caster} (hI : Inv c) {a : ntrip_agent} (ha : a ∈ c.all) :
    a ∈ c.agents_head a.type := by
  simp only [ntrip_caster.all, List.mem_append] at ha
  rcases ha with (h | h) | h
  · rw [(hI.typed0 a h).1]
    exact h
  · rw [hI.typed1 a h]
    exact h
  · rw [hI.typed2 a h]
    exact h

theorem Inv.of_agent_read_cb {c : ntrip_caster} (hI : Inv c) (agent : ntrip_agent)
    (ha : agent ∈ c.all) (r : recv_result) (now : ℚ) (sr : Nat → Option Nat) :
    Inv (agent_read_cb c agent r now sr).1 := by
  have hm := mem_all_head hI ha
  have hclose : Inv (close_agent c agent).1 := hI.close agent agent hm rfl
  unfold agent_read_cb
  split
  · rename_i ht
    have hp : agent ∈ c.head_pending := by
      rw [ht] at hm
      exact hm
    cases r with
    | error => exact hclose
    | would_block => exact hI
    | data avail =>
      unfold pending_read
      dsimp only
      split
      · exact hclose
      · split
        · exact hI.close _ agent (by rw [ht]; exact hp) rfl
        · exact hI.of_pending_parse _ agent hp rfl ht
  · split
    · cases r with
      | error => exact hclose
      | would_block => exact hI
      | data avail =>
        simp only [client_read]
        split
        · exact hclose
        · exact hI.set_last_activity _ _
    · split
      · cases r with
        | error => exact hclose
        | would_block => exact hI
        | data avail =>
          simp only [source_read]
          split
          · exact hclose
          · exact (hI.set_last_activity _ _).fanout _ _ _ _
      · exact hI

theorem typed_head {c : ntrip_caster} (hI : Inv c) {t : Nat} {a : ntrip_agent}
    (ha : a ∈ c.agents_head t) : a.type = t := by
  rcases agents_head_type ha with h | h | h <;> subst h
  · exact (hI.typed0 a ha).1
  · exact hI.typed1 a ha
  · exact hI.typed2 a ha

theorem head_sublist_all (c : ntrip_caster) (t : Nat) : (c.agents_head t).Sublist c.all := by
  match t with
  | 0 =>
    exact (List.sublist_append_left _ _).trans (List.sublist_append_left _ _)
  | 1 =>
    exact (List.sublist_append_right _ _).trans (List.sublist_append_left _ _)
  | 2 => exact List.sublist_append_right _ _
  | _ + 3 => simp [ntrip_caster.agents_head]

theorem head_sockets_nodup {c : ntrip_caster} (hI : Inv c) (t : Nat) :
    ((c.agents_head t).map (fun a => a.socket)).Nodup :=
  hI.nodup.sublist ((head_sublist_all c t).map _)

/-- With pairwise distinct sockets, unlinking by socket removes the agent
itself. -/
theorem remove_eq_erase (l : List ntrip_agent) (a : ntrip_agent) (ha : a ∈ l)
    (hn : (l.map (fun x => x.socket)).Nodup) : TAILQ_REMOVE l a = l.erase a := by
  induction l with
  | nil => simp at ha
  | cons y ys ih =>
    rw [List.map_cons, List.nodup_cons] at hn
    by_cases hy : y = a
    · subst hy
      simp [TAILQ_REMOVE]
    · have ha' : a ∈ ys := by
        rcases List.mem_cons.1 ha with h | h
        · exact absurd h.symm hy
        · exact h
      have hs : y.socket ≠ a.socket := by
        intro h
        exact hn.1 (List.mem_map.2 ⟨a, ha', h.symm⟩)
      have := ih ha' hn.2
      have hb : (y.socket == a.socket) = false := by simp [hs]
      unfold TAILQ_REMOVE at this ⊢
      rw [List.eraseP_cons, List.erase_cons]
      simp [hb, hy, this]

theorem close_agent_head (c : ntrip_caster) (a : ntrip_agent) :
    (close_agent c a).1.agents_head a.type = TAILQ_REMOVE (c.agents_head a.type) a := by
  unfold close_agent
  generalize a.type = t
  match t with
  | 0 => rfl
  | 1 => rfl
  | 2 => rfl
  | _ + 3 => simp [ntrip_caster.agents_head, TAILQ_REMOVE, ntrip_caster.set_head,
      ntrip_caster.set_cnt]

theorem Inv.of_sweep (now : ℚ) (t : Nat) (l : List ntrip_agent) :
    ∀ c : ntrip_caster, Inv c → l.Sublist (c.agents_head t) → Inv (sweep now l c).1 := by
  induction l with
  | nil => intro c hI _; exact hI
  | cons a rest ih =>
    intro c hI hsub
    have ha : a ∈ c.agents_head t := hsub.subset (List.mem_cons_self _ _)
    have hty : a.type = t := typed_head hI ha
    unfold sweep
    split
    · refine ih _ (hI.close a a (by rw [hty]; exact ha) rfl) ?_
      have h1 := close_agent_head c a
      rw [hty] at h1
      rw [h1, remove_eq_erase _ a ha (head_sockets_nodup hI t)]
      have h2 := hsub.erase a
      rwa [List.erase_cons_head] at h2
    · exact ih c hI ((List.sublist_cons_self a rest).trans hsub)

theorem Inv.of_timeout {c : ntrip_caster} (hI : Inv c) (now : ℚ) :
    Inv (caster_timeout_cb c now).1 := by
  unfold caster_timeout_cb
  have h0 := Inv.of_sweep now 0 _ c hI (List.Sublist.refl _)
  have h1 := Inv.of_sweep now 1 _ _ h0 (List.Sublist.refl _)
  exact Inv.of_sweep now 2 _ _ h1 (List.Sublist.refl _)

theorem Inv.of_accept {c : ntrip_caster} (hI : Inv c) (ev_error accept_ok calloc_ok : Bool)
    (addrbuf : List Nat) (time : Nat) (now : ℚ) :
    Inv (caster_accept_cb c ev_error accept_ok calloc_ok addrbuf time now).1 := by
  have hnext : Inv { c with next_socket := c.next_socket + 1 } :=
    hI.shrink (List.Sublist.refl _) (List.Sublist.refl _) (List.Sublist.refl _)
      hI.cnt0 hI.cnt1 hI.cnt2 rfl (Nat.le_succ _)
  unfold caster_accept_cb
  split
  · exact hI
  · split
    · exact hI
    · dsimp only
      split
      · exact hnext
      · split
        · exact hnext
        · rename_i hcap hroom
          simp only [Bool.or_eq_true, Bool.not_eq_true', decide_eq_true_eq, not_or,
            Bool.not_eq_false, not_le] at hroom
          obtain ⟨b0, b1, b2⟩ := cnt_lt_mod hI
          have e0 := hI.cnt0
          have hr := hroom.2
          have hr' := hI.room
          rw [max_live_val] at hr hr'
          simp only [ntrip_caster.live] at hr hr'
          have hinc : size_inc c.cnt_pending = c.head_pending.length + 1 := by
            rw [size_inc_lt _ (by unfold SIZE_MOD; omega)]
            omega
          simp only [ntrip_caster.set_head, ntrip_caster.set_cnt, ntrip_caster.agents_head,
            ntrip_caster.agents_cnt, TAILQ_INSERT_TAIL] at hcap ⊢
          refine
            { typed0 := ?_
              typed1 := hI.typed1
              typed2 := hI.typed2
              nodup := ?_, fresh := ?_
              cnt0 := ?_
              cnt1 := hI.cnt1
              cnt2 := hI.cnt2
              room := ?_
              uniq := hI.uniq
              cap0 := ?_
              cap1 := hI.cap1
              cap2 := hI.cap2 }
          · intro y hy
            rcases List.mem_append.1 hy with h | h
            · exact hI.typed0 y h
            · rw [List.mem_singleton.1 h]
              exact ⟨rfl, rfl⟩
          · have hp : ∀ ag : ntrip_agent, ag.socket = c.next_socket → List.Perm
                (List.map (fun y : ntrip_agent => y.socket)
                  (c.head_pending ++ [ag] ++ c.head_source ++ c.head_client))
                (c.next_socket :: c.all.map (fun y => y.socket)) := by
              intro ag hag
              rw [List.perm_iff_count]
              intro n
              simp only [ntrip_caster.all, List.map_append, List.count_append, List.map_cons,
                List.map_nil, List.count_cons, List.count_nil, hag]
              omega
            refine (hp _ rfl).nodup_iff.2 (List.nodup_cons.2 ⟨?_, hI.nodup⟩)
            intro hmem
            obtain ⟨b, hb, hbs⟩ := List.mem_map.1 hmem
            have := hI.fresh b hb
            omega
          · intro y hy
            have hy' : y ∈ c.head_pending ++ [_] ++ c.head_source ++ c.head_client := hy
            simp only [List.mem_append, List.mem_singleton] at hy'
            show y.socket < c.next_socket + 1
            rcases hy' with ((h | h) | h) | h
            · exact Nat.lt_succ_of_lt (hI.fresh y (by simp [ntrip_caster.all, h]))
            · rw [h]
              exact Nat.lt_succ_self _
            · exact Nat.lt_succ_of_lt (hI.fresh y (by simp [ntrip_caster.all, h]))
            · exact Nat.lt_succ_of_lt (hI.fresh y (by simp [ntrip_caster.all, h]))
          · show size_inc c.cnt_pending = (c.head_pending ++ [_]).length
            rw [hinc, List.length_append, List.length_singleton]
          · show (c.head_pending ++ [_]).length + c.head_source.length +
              c.head_client.length ≤ MAX_LIVE_AGENTS
            rw [max_live_val, List.length_append, List.length_singleton]
            omega
          · intro h
            show size_inc c.cnt_pending ≤ c.config.MAX_PENDING_CNT
            have h' : c.config.MAX_PENDING_CNT ≠ 0 := h
            omega

theorem find_agent_mem {c : ntrip_caster} {socket : Nat} {a : ntrip_agent}
    (h : find_agent c socket = some a) : a ∈ c.all ∧ a.socket = socket := by
  unfold find_agent at h
  refine ⟨List.mem_of_find?_eq_some h, ?_⟩
  have := List.find?_some h
  simpa using this

theorem Inv.of_step {c : ntrip_caster} (hI : Inv c) (e : event) : Inv (step c e).1 := by
  cases e with
  | accept ev_error accept_ok calloc_ok addrbuf time now =>
    exact hI.of_accept _ _ _ _ _ _
  | agent_read socket r now sr =>
    simp only [step]
    split
    · rename_i agent hf
      exact hI.of_agent_read_cb agent (find_agent_mem hf).1 r now sr
    · exact hI
  | timeout now => exact hI.of_timeout now

theorem Inv.init (config : ntrip_caster_config) : Inv (caster_init config) := by
  refine
    { typed0 := ?_, typed1 := ?_, typed2 := ?_, nodup := ?_, fresh := ?_
      cnt0 := rfl, cnt1 := rfl, cnt2 := rfl, room := ?_, uniq := ?_
      cap0 := fun _ => Nat.zero_le _
      cap1 := fun _ => Nat.zero_le _
      cap2 := fun _ => Nat.zero_le _ } <;>
    simp [caster_init, ntrip_caster.all, ntrip_caster.live]

theorem Inv.of_fold (evs : List event) :
    ∀ c : ntrip_caster, Inv c → Inv (evs.foldl (fun c e => (step c e).1) c) := by
  induction evs with
  | nil => intro c hI; exact hI
  | cons e es ih => intro c hI; exact ih _ (hI.of_step e)

theorem Inv.of_run (config : ntrip_caster_config) (evs : List event) :
    Inv (run config evs) :=
  Inv.of_fold evs _ (Inv.init config)

/-! ## The configuration is never written -/

theorem set_head_config (c : ntrip_caster) (t : Nat) (l : List ntrip_agent) :
    (c.set_head t l).config = c.config := by
  unfold ntrip_caster.set_head
  split <;> rfl

theorem set_cnt_config (c : ntrip_caster) (t : Nat) (n : Nat) :
    (c.set_cnt t n).config = c.config := by
  unfold ntrip_caster.set_cnt
  split <;> rfl

theorem close_agent_config (c : ntrip_caster) (a : ntrip_agent) :
    (close_agent c a).1.config = c.config := by
  simp [close_agent, set_head_config, set_cnt_config]

theorem move_agent_config (c : ntrip_caster) (a : ntrip_agent) (t : Nat) :
    (move_agent c a t).config = c.config := by
  simp [move_agent, set_head_config, set_cnt_config]

/-- Every way a client handshake can end: a silent close, a close after the
403 reply, or the move into the client list after the 200 reply. -/
theorem client_handshake_cases (P : ntrip_caster × List io_op → Prop) (c : ntrip_caster)
    (a : ntrip_agent) (p : List Nat)
    (hclose : ∀ a' : ntrip_agent, a'.socket = a.socket → a'.type = a.type →
      P (close_agent c a'))
    (hreply : ∀ a' : ntrip_agent, a'.socket = a.socket → a'.type = a.type →
      P ((close_agent c a').1,
        io_op.send a.socket NTRIP_RESPONSE_FORBIDDEN :: (close_agent c a').2))
    (hmove : ∀ a' : ntrip_agent, a'.socket = a.socket → a'.type = a.type →
      ¬ (c.config.MAX_CLIENT_CNT > 0 ∧ c.config.MAX_CLIENT_CNT ≤ c.cnt_client) →
      P (move_agent c a' NTRIP_CLIENT_AGENT, [io_op.send a.socket NTRIP_RESPONSE_OK])) :
    P (client_handshake c a p) := by
  unfold client_handshake
  split
  · exact hclose _ rfl rfl
  · split
    · exact hclose _ rfl rfl
    · split
      · exact hclose _ rfl rfl
      · dsimp only
        split
        · exact hclose _ rfl rfl
        · split
          · exact hclose _ rfl rfl
          · split
            · exact hreply _ rfl rfl
            · rename_i hcap
              exact hmove _ rfl rfl hcap

/-- Every way a source handshake can end: a silent close, a close after the
bad-mountpoint reply, or the move into the source list after the 200 reply. -/
theorem source_handshake_cases (P : ntrip_caster × List io_op → Prop) (c : ntrip_caster)
    (a : ntrip_agent) (p : List Nat)
    (hclose : ∀ a' : ntrip_agent, a'.socket = a.socket → a'.type = a.type →
      P (close_agent c a'))
    (hreply : ∀ a' : ntrip_agent, a'.socket = a.socket → a'.type = a.type →
      P ((close_agent c a').1,
        io_op.send a.socket NTRIP_RESPONSE_ERROR_MOUNTP :: (close_agent c a').2))
    (hmove : ∀ a' : ntrip_agent, a'.socket = a.socket → a'.type = a.type →
      (∀ s ∈ c.head_source, strcasecmp s.mountpoint a'.mountpoint ≠ 0) →
      ¬ (c.config.MAX_SOURCE_CNT > 0 ∧ c.config.MAX_SOURCE_CNT ≤ c.cnt_source) →
      P (move_agent c a' NTRIP_SOURCE_AGENT, [io_op.send a.socket NTRIP_RESPONSE_OK])) :
    P (source_handshake c a p) := by
  unfold source_handshake
  split
  · exact hclose _ rfl rfl
  · split
    · exact hclose _ rfl rfl
    · split
      · exact hclose _ rfl rfl
      · dsimp only
        split
        · exact hclose _ rfl rfl
        · split
          · exact hreply _ rfl rfl
          · split
            · exact hreply _ rfl rfl
            · split
              · exact hreply _ rfl rfl
              · rename_i hany hcap
                refine hmove _ rfl rfl ?_ hcap
                intro s hs' h0
                simp only [ntrip_caster.agents_head, List.any_eq_true, beq_iff_eq,
                  not_exists, not_and, Bool.not_eq_true] at hany
                have := hany s hs'
                simp [h0] at this

/-- Every way a read on a pending agent can end. -/
theorem pending_read_cases (P : ntrip_caster × List io_op → Prop) (c : ntrip_caster)
    (a : ntrip_agent) (r : recv_result) (now : ℚ)
    (hidle : P (c, []))
    (hclose : ∀ a' : ntrip_agent, a'.socket = a.socket → a'.type = a.type →
      P (close_agent c a'))
    (hreply : ∀ (a' : ntrip_agent) (msg : List Nat), a'.socket = a.socket →
      a'.type = a.type →
      P ((close_agent c a').1, io_op.send a.socket msg :: (close_agent c a').2))
    (hclient : ∀ a' : ntrip_agent, a'.socket = a.socket → a'.type = a.type →
      ¬ (c.config.MAX_CLIENT_CNT > 0 ∧ c.config.MAX_CLIENT_CNT ≤ c.cnt_client) →
      P (move_agent c a' NTRIP_CLIENT_AGENT, [io_op.send a.socket NTRIP_RESPONSE_OK]))
    (hsource : ∀ a' : ntrip_agent, a'.socket = a.socket → a'.type = a.type →
      (∀ s ∈ c.head_source, strcasecmp s.mountpoint a'.mountpoint ≠ 0) →
      ¬ (c.config.MAX_SOURCE_CNT > 0 ∧ c.config.MAX_SOURCE_CNT ≤ c.cnt_source) →
      P (move_agent c a' NTRIP_SOURCE_AGENT, [io_op.send a.socket NTRIP_RESPONSE_OK])) :
    P (pending_read c a r now) := by
  cases r with
  | error => exact hclose a rfl rfl
  | would_block => exact hidle
  | data avail =>
    unfold pending_read
    dsimp only
    split
    · exact hclose a rfl rfl
    · split
      · exact hclose _ rfl rfl
      · unfold pending_parse
        split
        · exact client_handshake_cases P c _ _ (fun a' h1 h2 => hclose a' h1 h2)
            (fun a' h1 h2 => hreply a' _ h1 h2) (fun a' h1 h2 h3 => hclient a' h1 h2 h3)
        · split
          · exact source_handshake_cases P c _ _ (fun a' h1 h2 => hclose a' h1 h2)
              (fun a' h1 h2 => hreply a' _ h1 h2)
              (fun a' h1 h2 h3 h4 => hsource a' h1 h2 h3 h4)
          · exact hclose _ rfl rfl

theorem agent_read_cb_config (c : ntrip_caster) (a : ntrip_agent) (r : recv_result) (now : ℚ)
    (sr : Nat → Option Nat) : (agent_read_cb c a r now sr).1.config = c.config := by
  unfold agent_read_cb
  split
  · exact pending_read_cases (fun o => o.1.config = c.config) c a r now rfl
      (fun a' _ _ => close_agent_config c a') (fun a' _ _ _ => close_agent_config c a')
      (fun a' _ _ _ => move_agent_config c a' _) (fun a' _ _ _ _ => move_agent_config c a' _)
  · split
    · cases r with
      | error => exact close_agent_config _ _
      | would_block => rfl
      | data avail =>
        unfold client_read
        dsimp only
        split
        · exact close_agent_config _ _
        · rfl
    · split
      · cases r with
        | error => exact close_agent_config _ _
        | would_block => rfl
        | data avail =>
          unfold source_read
          dsimp only
          split
          · exact close_agent_config _ _
          · rw [set_head_config]
            rfl
      · rfl

theorem sweep_config (now : ℚ) (l : List ntrip_agent) :
    ∀ c : ntrip_caster, (sweep now l c).1.config = c.config := by
  induction l with
  | nil => intro c; rfl
  | cons a rest ih =>
    intro c
    unfold sweep
    split
    · rw [ih, close_agent_config]
    · exact ih c

theorem step_config (c : ntrip_caster) (e : event) : (step c e).1.config = c.config := by
  cases e with
  | accept ev_error accept_ok calloc_ok addrbuf time now =>
    simp only [step, caster_accept_cb]
    split
    · rfl
    · split
      · rfl
      · split
        · rfl
        · split
          · rfl
          · rw [set_cnt_config, set_head_config]
  | agent_read socket r now sr =>
    simp only [step]
    split
    · exact agent_read_cb_config _ _ _ _ _
    · rfl
  | timeout now =>
    simp only [step, caster_timeout_cb, sweep_config]

theorem run_config (config : ntrip_caster_config) (evs : List event) :
    (run config evs).config = config := by
  have h : ∀ (es : List event) (c : ntrip_caster),
      (es.foldl (fun c e => (step c e).1) c).config = c.config := by
    intro es
    induction es with
    | nil => intro c; rfl
    | cons e es ih => intro c; rw [List.foldl_cons, ih, step_config]
  exact h evs _

/-! ## Accepting without a cap -/

/-- With no PENDING cap, an accepted connection that gets its memory is
always linked. -/
theorem accept_without_cap {s : ntrip_caster} (hI : Inv s)
    (hcap : s.config.MAX_PENDING_CNT = 0) (hroom : s.live < MAX_LIVE_AGENTS)
    (addrbuf : List Nat) (time : Nat) (now : ℚ) :
    (caster_accept_cb s false true true addrbuf time now).1 =
      { s with next_socket := s.next_socket + 1
               head_pending := s.head_pending ++ [new_agent s.next_socket addrbuf time now]
               cnt_pending := s.cnt_pending + 1 } := by
  obtain ⟨b0, -, -⟩ := cnt_lt_mod hI
  have e0 := hI.cnt0
  have hr := hroom
  rw [max_live_val] at hr
  unfold ntrip_caster.live at hr
  have hinc : size_inc s.cnt_pending = s.cnt_pending + 1 :=
    size_inc_lt _ (by unfold SIZE_MOD; omega)
  have hroom' : ¬ (MAX_LIVE_AGENTS ≤
      s.head_pending.length + s.head_source.length + s.head_client.length) := by
    rw [max_live_val]
    omega
  simp [caster_accept_cb, hcap, hroom', ntrip_caster.live, ntrip_caster.set_head,
    ntrip_caster.set_cnt, ntrip_caster.agents_head, ntrip_caster.agents_cnt,
    TAILQ_INSERT_TAIL, hinc]

/-- With no PENDING cap, `n` accepted connections give `n` pending agents, as
long as they fit in memory. -/
theorem accepts_without_cap (config : ntrip_caster_config)
    (hcap : config.MAX_PENDING_CNT = 0) (n : Nat) (hn : n ≤ MAX_LIVE_AGENTS) :
    (run config (List.replicate n (.accept false true true [] 0 0))).cnt_pending = n ∧
      (run config (List.replicate n (.accept false true true [] 0 0))).head_source = [] ∧
      (run config (List.replicate n (.accept false true true [] 0 0))).head_client = [] := by
  induction n with
  | zero => exact ⟨rfl, rfl, rfl⟩
  | succ k ih =>
    obtain ⟨h0, h1, h2⟩ := ih (by omega)
    have hI := Inv.of_run config (List.replicate k (.accept false true true [] 0 0))
    have hc := run_config config (List.replicate k (.accept false true true [] 0 0))
    have hlive : (run config (List.replicate k (.accept false true true [] 0 0))).live <
        MAX_LIVE_AGENTS := by
      have e0 := hI.cnt0
      unfold ntrip_caster.live
      rw [h1, h2]
      simp only [List.length_nil]
      omega
    have hstep : run config (List.replicate (k + 1) (.accept false true true [] 0 0)) =
        (caster_accept_cb (run config (List.replicate k (.accept false true true [] 0 0)))
          false true true [] 0 0).1 := by
      simp only [run, List.replicate_succ', List.foldl_append, List.foldl_cons,
        List.foldl_nil, step]
    rw [hstep, accept_without_cap hI (by rw [hc]; exact hcap) hlive]
    exact ⟨congrArg (fun v => v + 1) h0, h1, h2⟩

/-! ## Case-insensitive comparison -/

theorem strcasecmp_of_lower_eq (a b : List Nat) (h : a.map tolower = b.map tolower) :
    strcasecmp a b = 0 := by
  induction a generalizing b with
  | nil =>
    cases b with
    | nil => rfl
    | cons y ys => simp at h
  | cons x xs ih =>
    cases b with
    | nil => simp at h
    | cons y ys =>
      simp only [List.map_cons, List.cons.injEq] at h
      simp only [strcasecmp, h.1, if_true]
      exact ih ys h.2

/-! ## Claims C1 to C3: invariants of the reachable states -/

/-- C1. After any finite sequence of accept, agent-read and sweeper-tick
events from the initial state, for each of the roles PENDING, SOURCE and CLIENT
the counter `agents_cnt[r]` equals the number of agents linked in list `r`. -/
theorem C1_counters_equal_collection_sizes (config : ntrip_caster_config)
    (evs : List event) :
    (run config evs).agents_cnt NTRIP_PENDING_AGENT =
        ((run config evs).agents_head NTRIP_PENDING_AGENT).length ∧
      (run config evs).agents_cnt NTRIP_SOURCE_AGENT =
        ((run config evs).agents_head NTRIP_SOURCE_AGENT).length ∧
      (run config evs).agents_cnt NTRIP_CLIENT_AGENT =
        ((run config evs).agents_head NTRIP_CLIENT_AGENT).length :=
  ⟨(Inv.of_run config evs).cnt0, (Inv.of_run config evs).cnt1, (Inv.of_run config evs).cnt2⟩

/-- C2. In every reachable state no two agents at different places of the
SOURCE list have mountpoints that compare equal without regard to ASCII case:
`strcasecmp` on them is non-zero, and their lower-cased bytes differ. -/
theorem C2_source_mountpoints_unique (config : ntrip_caster_config) (evs : List event) :
    ((run config evs).agents_head NTRIP_SOURCE_AGENT).Pairwise (fun a b =>
      strcasecmp a.mountpoint b.mountpoint ≠ 0 ∧
        a.mountpoint.map tolower ≠ b.mountpoint.map tolower) := by
  refine (Inv.of_run config evs).uniq.imp ?_
  intro a b h
  exact ⟨h, fun he => h (strcasecmp_of_lower_eq _ _ he)⟩

/-- C3. With the configured caps fixed, in every reachable state each counter
whose cap is non-zero is at most that cap (PENDING, CLIENT and SOURCE). A cap
of zero gives no bound: with a PENDING cap of zero, `n` accepted connections
make the PENDING count `n`, for every `n` that fits in memory. -/
theorem C3_counters_within_caps (config : ntrip_caster_config) (evs : List event) :
    (config.MAX_PENDING_CNT ≠ 0 →
        (run config evs).agents_cnt NTRIP_PENDING_AGENT ≤ config.MAX_PENDING_CNT) ∧
      (config.MAX_CLIENT_CNT ≠ 0 →
        (run config evs).agents_cnt NTRIP_CLIENT_AGENT ≤ config.MAX_CLIENT_CNT) ∧
      (config.MAX_SOURCE_CNT ≠ 0 →
        (run config evs).agents_cnt NTRIP_SOURCE_AGENT ≤ config.MAX_SOURCE_CNT) ∧
      (config.MAX_PENDING_CNT = 0 → ∀ n : Nat, n ≤ MAX_LIVE_AGENTS →
        (run config (List.replicate n (.accept false true true [] 0 0))).agents_cnt
          NTRIP_PENDING_AGENT = n) := by
  have hI := Inv.of_run config evs
  have hc := run_config config evs
  refine ⟨fun h => ?_, fun h => ?_, fun h => ?_, fun h n hn => ?_⟩
  · have := hI.cap0 (by rw [hc]; exact h)
    rw [hc] at this
    exact this
  · have := hI.cap2 (by rw [hc]; exact h)
    rw [hc] at this
    exact this
  · have := hI.cap1 (by rw [hc]; exact h)
    rw [hc] at this
    exact this
  · exact (accepts_without_cap config h n hn).1

/-- C3 at a concrete input: under the default caps, after a source handshake
and a second accept the PENDING count is within its cap of 20. -/
theorem C3_counters_within_caps_witness :
    (run caster_init_config source_then_pending).agents_cnt NTRIP_PENDING_AGENT ≤
      caster_init_config.MAX_PENDING_CNT :=
  (C3_counters_within_caps caster_init_config source_then_pending).1 (by decide)

/-! ## The C string routines on requests of known shape -/

theorem strstr_at_start (needle rest : List Nat) :
    strstr (needle ++ rest) needle = some (needle ++ rest) := by
  cases h : needle ++ rest with
  | nil =>
    have : needle = [] := (List.append_eq_nil.1 h).1
    simp [strstr, this]
  | cons c cs =>
    have hp : needle.isPrefixOf (c :: cs) = true := by
      rw [List.isPrefixOf_iff_prefix, ← h]
      exact List.prefix_append _ _
    simp [strstr, hp]

theorem strstr_skip (pre : List Nat) (n0 : Nat) (ns post : List Nat) (h : n0 ∉ pre) :
    strstr (pre ++ (n0 :: ns) ++ post) (n0 :: ns) = some ((n0 :: ns) ++ post) := by
  induction pre with
  | nil => exact strstr_at_start (n0 :: ns) post
  | cons c cs ih =>
    have hc : n0 ≠ c := fun e => h (by simp [e])
    have hcs : n0 ∉ cs := fun e => h (List.mem_cons_of_mem _ e)
    have ih' := ih hcs
    simp only [List.cons_append, List.append_assoc] at ih' ⊢
    simp [strstr, hc, ih']

theorem strstr_isSome (pre needle post : List Nat) :
    (strstr (pre ++ needle ++ post) needle).isSome = true := by
  induction pre with
  | nil =>
    rw [List.nil_append, strstr_at_start]
    rfl
  | cons c cs ih =>
    simp only [List.cons_append, strstr]
    split
    · rfl
    · simpa using ih

theorem strstr_occurs (hay needle s : List Nat) (h : strstr hay needle = some s) :
    needle <:+: hay := by
  induction hay with
  | nil =>
    simp only [strstr] at h
    split at h
    · rename_i he
      have : needle = [] := by simpa using he
      simp [this]
    · simp at h
  | cons c cs ih =>
    simp only [strstr] at h
    split at h
    · rename_i hp
      exact (List.isPrefixOf_iff_prefix.1 hp).isInfix
    · exact List.infix_cons (ih h)

theorem strstr_none (hay needle : List Nat) (h : ¬ needle <:+: hay) :
    strstr hay needle = none := by
  cases hs : strstr hay needle with
  | none => rfl
  | some s => exact absurd (strstr_occurs hay needle s hs) h

theorem skip_space_of_nonspace (c : Nat) (l : List Nat) (h : isspace c = false) :
    skip_space (c :: l) = c :: l := by
  simp [skip_space, h]

theorem scan_while_token (p : Nat → Bool) (tok : List Nat) :
    ∀ (w c : Nat) (rest : List Nat), (∀ x ∈ tok, p x = true) → p c = false →
      tok.length ≤ w → scan_while p w (tok ++ c :: rest) = (tok, c :: rest) := by
  induction tok with
  | nil =>
    intro w c rest _ hc _
    cases w with
    | zero => rfl
    | succ w => simp [scan_while, hc]
  | cons x xs ih =>
    intro w c rest hx hc hw
    cases w with
    | zero => simp at hw
    | succ w =>
      have hpx : p x = true := hx x (List.mem_cons_self _ _)
      have := ih w c rest (fun y hy => hx y (List.mem_cons_of_mem _ hy)) hc
        (by simpa using hw)
      simp [scan_while, hpx, this]

/-- The C string in the parse buffer after a read of NUL-free bytes at index
zero and the store of the terminator. -/
theorem cstr_written (mem msg : List Nat) (h : ∀ b ∈ msg, b ≠ 0) :
    cstr ((write_at mem 0 msg).set msg.length 0) = msg := by
  have hp : ∀ b ∈ msg, (fun b : Nat => b != 0) b = true := by
    intro b hb
    simpa using h b hb
  unfold cstr write_at
  simp only [List.take_zero, List.nil_append, Nat.zero_add]
  rw [List.set_append]
  simp only [lt_self_iff_false, if_false, Nat.sub_self]
  rw [List.takeWhile_append_of_pos hp]
  cases mem.drop msg.length with
  | nil => simp
  | cons y ys => simp

theorem match_literal_verb (verb rest : List Nat) :
    match_literal verb (verb ++ rest) = .ok rest := by
  induction verb with
  | nil => rfl
  | cons v vs ih => simp [match_literal, ih]

theorem skip_space_token {n : Nat} {t : List Nat} (ht : is_token n t) (rest : List Nat) :
    skip_space (t ++ rest) = t ++ rest := by
  obtain ⟨hne, -, hall⟩ := ht
  cases t with
  | nil => exact absurd rfl hne
  | cons x xs => exact skip_space_of_nonspace x _ (hall x (List.mem_cons_self _ _)).1

theorem scan_s_token {t : List Nat} (ht : is_token 63 t) (c : Nat) (hc : isspace c = true)
    (rest : List Nat) : scan_s 63 (t ++ c :: rest) = some (t, c :: rest) := by
  have hsc := scan_while_token (fun c => !isspace c) t 63 c rest
    (fun x hx => by simp [(ht.2.2 x hx).1]) (by simp [hc]) ht.2.1
  unfold scan_s
  rw [skip_space_token ht, hsc]
  have : t.isEmpty = false := by
    cases t with
    | nil => exact absurd rfl ht.1
    | cons x xs => rfl
  simp [this]

/-- The call `sscanf(p, "<verb> %63s %63s", ...)` on a line made of the verb
and two tokens reads both tokens. -/
theorem sscanf_two_tokens (verb a b : List Nat) (ha : is_token 63 a) (hb : is_token 63 b)
    (c : Nat) (hc : isspace c = true) (rest : List Nat) :
    sscanf_verb_s_s verb (verb ++ (32 :: (a ++ 32 :: (b ++ c :: rest)))) = (2, a, b) := by
  unfold sscanf_verb_s_s
  rw [match_literal_verb]
  have h32 : isspace 32 = true := by decide
  have e1 : skip_space (32 :: (a ++ 32 :: (b ++ c :: rest))) = a ++ 32 :: (b ++ c :: rest) := by
    rw [skip_space, if_pos h32, skip_space_token ha]
  have e2 : skip_space (32 :: (b ++ c :: rest)) = b ++ c :: rest := by
    rw [skip_space, if_pos h32, skip_space_token hb]
  simp only [e1, scan_s_token ha 32 h32, e2, scan_s_token hb c hc]

theorem close_agent_congr (c : ntrip_caster) (a a' : ntrip_agent)
    (h1 : a'.socket = a.socket) (h2 : a'.type = a.type) :
    close_agent c a' = close_agent c a := by
  simp [close_agent, TAILQ_REMOVE, h1, h2]

/-! ## String literals of the source as byte lists -/

theorem lit_GET : bytes "GET" = [71, 69, 84] := by decide

theorem lit_GET_sp : bytes "GET " = [71, 69, 84, 32] := by decide

theorem lit_GET_slash : bytes "GET /" = [71, 69, 84, 32, 47] := by decide

theorem lit_SOURCE : bytes "SOURCE" = [83, 79, 85, 82, 67, 69] := by decide

theorem lit_SOURCE_sp : bytes "SOURCE " = [83, 79, 85, 82, 67, 69, 32] := by decide

theorem lit_sp : bytes " " = [32] := by decide

theorem lit_slash : bytes "/" = [47] := by decide

theorem lit_CRLF : bytes "\r\n" = [13, 10] := by decide

theorem lit_CRLF2 : bytes "\r\n\r\n" = [13, 10, 13, 10] := by decide

theorem lit_UA : bytes "User-Agent:" = [85, 115, 101, 114, 45, 65, 103, 101, 110, 116, 58] := by
  decide

theorem lit_UA_hdr : bytes "\r\nUser-Agent: " =
    [13, 10, 85, 115, 101, 114, 45, 65, 103, 101, 110, 116, 58, 32] := by decide

theorem lit_SA : bytes "Source-Agent:" =
    [83, 111, 117, 114, 99, 101, 45, 65, 103, 101, 110, 116, 58] := by decide

theorem lit_SA_hdr : bytes "\r\nSource-Agent: " =
    [13, 10, 83, 111, 117, 114, 99, 101, 45, 65, 103, 101, 110, 116, 58, 32] := by decide

theorem lit_HTTP1 : bytes "HTTP/1" = [72, 84, 84, 80, 47, 49] := by decide

theorem lit_HTTP1_dot : bytes " HTTP/1." = [32, 72, 84, 84, 80, 47, 49, 46] := by decide

theorem token_no_cr {n : Nat} {t : List Nat} (ht : is_token n t) : 13 ∉ t := by
  intro h
  have := (ht.2.2 13 h).1
  simp [isspace] at this

/-- A client handshake on a request `GET <url> <proto>\r\nUser-Agent: ...` with
two proper tokens and a protocol starting `HTTP/1` gets past the parser: what
is left is the source-table test, the cap test and the admission. -/
theorem client_handshake_get (c : ntrip_caster) (agent : ntrip_agent)
    (url proto ua : List Nat) (hurl : is_token 63 url) (hproto : is_token 63 proto)
    (hhttp : proto.take 6 = bytes "HTTP/1") :
    ∃ uav : List Nat, client_handshake c agent (get_request url proto ua) =
      if client_mountpoint url = [] ∨ client_mountpoint url = bytes "/" then
        close_agent c agent
      else if c.config.MAX_CLIENT_CNT > 0 ∧ c.config.MAX_CLIENT_CNT ≤ c.cnt_client then
        ((close_agent c agent).1,
          io_op.send agent.socket NTRIP_RESPONSE_FORBIDDEN :: (close_agent c agent).2)
      else
        (move_agent c { agent with user_agent := uav, mountpoint := client_mountpoint url }
            NTRIP_CLIENT_AGENT,
          [io_op.send agent.socket NTRIP_RESPONSE_OK]) := by
  have hshape : get_request url proto ua = [71, 69, 84] ++ (32 :: (url ++ 32 :: (proto ++
      13 :: 10 :: ([85, 115, 101, 114, 45, 65, 103, 101, 110, 116, 58] ++
        (32 :: (ua ++ [13, 10, 13, 10])))))) := by
    simp [get_request, lit_GET_sp, lit_sp, lit_UA_hdr, lit_CRLF2]
  have h1 : strstr (get_request url proto ua) (bytes "\r\n") =
      some (13 :: 10 :: ([85, 115, 101, 114, 45, 65, 103, 101, 110, 116, 58] ++
        (32 :: (ua ++ [13, 10, 13, 10])))) := by
    have := strstr_skip ([71, 69, 84, 32] ++ url ++ 32 :: proto) 13 [10]
      ([85, 115, 101, 114, 45, 65, 103, 101, 110, 116, 58] ++ (32 :: (ua ++ [13, 10, 13, 10])))
      (by
        have := token_no_cr hurl
        have := token_no_cr hproto
        simp [List.mem_append]
        tauto)
    rw [hshape, lit_CRLF]
    simpa [List.append_assoc] using this
  have h2 : strstr (13 :: 10 :: ([85, 115, 101, 114, 45, 65, 103, 101, 110, 116, 58] ++
        (32 :: (ua ++ [13, 10, 13, 10])))) (bytes "User-Agent:") =
      some ([85, 115, 101, 114, 45, 65, 103, 101, 110, 116, 58] ++
        (32 :: (ua ++ [13, 10, 13, 10]))) := by
    have := strstr_skip [13, 10] 85 [115, 101, 114, 45, 65, 103, 101, 110, 116, 58]
      (32 :: (ua ++ [13, 10, 13, 10])) (by decide)
    rw [lit_UA]
    simpa using this
  have h3 : (strstr ([85, 115, 101, 114, 45, 65, 103, 101, 110, 116, 58] ++
        (32 :: (ua ++ [13, 10, 13, 10]))) (bytes "\r\n")).isSome = true := by
    have := strstr_isSome ([85, 115, 101, 114, 45, 65, 103, 101, 110, 116, 58] ++ 32 :: ua)
      [13, 10] [13, 10]
    rw [lit_CRLF]
    simpa [List.append_assoc] using this
  have h4 : sscanf_verb_s_s (bytes "GET") (get_request url proto ua) = (2, url, proto) := by
    rw [hshape, lit_GET]
    exact sscanf_two_tokens _ url proto hurl hproto 13 (by decide) _
  obtain ⟨v, hv⟩ := Option.isSome_iff_exists.1 h3
  have hs : strncmp_eq0 proto (bytes "HTTP/1") (bytes "HTTP/1").length = true := by
    simp [strncmp_eq0, hhttp, lit_HTTP1]
  refine ⟨sscanf_line
    (([85, 115, 101, 114, 45, 65, 103, 101, 110, 116, 58] ++
        (32 :: (ua ++ [13, 10, 13, 10]))).drop (bytes "User-Agent:").length)
    agent.user_agent, ?_⟩
  unfold client_handshake
  simp only [h1, h2, hv, h4, hs]
  simp only [ntrip_caster.agents_cnt]
  rw [if_neg (by simp)]
  split
  · exact close_agent_congr _ _ _ rfl rfl
  · split
    · simp only [close_agent, TAILQ_REMOVE]
    · rfl

/-! ## A read on a pending agent -/

theorem find_agent_of_mem {c : ntrip_caster} (hI : Inv c) {a : ntrip_agent} (ha : a ∈ c.all) :
    find_agent c a.socket = some a := by
  unfold find_agent
  cases h : List.find? (fun x => x.socket == a.socket)
      (c.head_pending ++ c.head_source ++ c.head_client) with
  | none =>
    have := List.find?_eq_none.1 h a ha
    simp at this
  | some x =>
    have hx : x ∈ c.all := List.mem_of_find?_eq_some h
    have hs : x.socket = a.socket := by simpa using List.find?_some h
    rw [List.inj_on_of_nodup_map hI.nodup hx ha hs]

/-- A read of `msg` (not empty, NUL-free, shorter than the buffer) on a pending
agent whose parse index is zero hands the parser the C string `msg`. -/
theorem pending_read_data (c : ntrip_caster) (a : ntrip_agent) (msg : List Nat) (now : ℚ)
    (hidx : a.pending_idx = 0) (hne : msg ≠ []) (hlen : msg.length < 1023)
    (hnul : nul_free msg) :
    ∃ a1 : ntrip_agent, a1.socket = a.socket ∧ a1.type = a.type ∧
      cstr a1.pending_recv = msg ∧
      pending_read c a (.data msg) now = pending_parse c a1 := by
  have htake : List.take (size_sub (size_sub 1024 a.pending_idx) 1) msg = msg := by
    rw [hidx, recv_len_zero]
    exact List.take_of_length_le (by omega)
  have hpos : msg.length ≠ 0 := fun h => hne (List.length_eq_zero.1 h)
  refine ⟨{ a with
      pending_recv := (write_at a.pending_recv 0 msg).set msg.length 0
      last_activity := now
      pending_idx := msg.length }, rfl, rfl, cstr_written _ _ hnul, ?_⟩
  unfold pending_read
  dsimp only
  rw [htake, if_neg hpos, if_neg (by omega), hidx]

theorem get_request_shape (url proto ua : List Nat) :
    get_request url proto ua = [71, 69, 84] ++ (32 :: (url ++ 32 :: (proto ++
      13 :: 10 :: ([85, 115, 101, 114, 45, 65, 103, 101, 110, 116, 58] ++
        (32 :: (ua ++ [13, 10, 13, 10])))))) := by
  simp [get_request, lit_GET_sp, lit_sp, lit_UA_hdr, lit_CRLF2]

theorem get_request_nul_free (url proto ua : List Nat) (hurl : is_token 63 url)
    (hproto : is_token 63 proto) (hua : nul_free ua) : nul_free (get_request url proto ua) := by
  intro b hb
  rw [get_request_shape] at hb
  simp only [List.mem_append, List.mem_cons, List.mem_singleton, List.not_mem_nil,
    or_false] at hb
  rcases hb with (h | h | h) | h | h | h | h | h | h | (h | h | h | h | h | h | h | h | h | h | h) | h | h | h | h | h | h
  all_goals first
    | exact (hurl.2.2 b h).2
    | exact (hproto.2.2 b h).2
    | exact hua b h
    | omega

/-- A read that delivers a whole request `GET <url> <proto>\r\nUser-Agent: ...`
to a pending agent of a reachable state: the three ways it ends. -/
theorem step_get_request {s : ntrip_caster} (hI : Inv s) (a : ntrip_agent)
    (ha : a ∈ s.head_pending) (url proto ua : List Nat) (hurl : is_token 63 url)
    (hproto : is_token 63 proto) (hhttp : proto.take 6 = bytes "HTTP/1")
    (hua : nul_free ua) (hlen : (get_request url proto ua).length < 1023) (now : ℚ)
    (sr : Nat → Option Nat) :
    ∃ a' : ntrip_agent, a'.socket = a.socket ∧ a'.type = 0 ∧
      a'.mountpoint = client_mountpoint url ∧
      step s (.agent_read a.socket (.data (get_request url proto ua)) now sr) =
        if client_mountpoint url = [] ∨ client_mountpoint url = bytes "/" then
          close_agent s a
        else if s.config.MAX_CLIENT_CNT > 0 ∧ s.config.MAX_CLIENT_CNT ≤ s.cnt_client then
          ((close_agent s a).1,
            io_op.send a.socket NTRIP_RESPONSE_FORBIDDEN :: (close_agent s a).2)
        else
          (move_agent s a' NTRIP_CLIENT_AGENT, [io_op.send a.socket NTRIP_RESPONSE_OK]) := by
  have hall : a ∈ s.all := by simp [ntrip_caster.all, ha]
  have hty := (hI.typed0 a ha).1
  have hne : get_request url proto ua ≠ [] := by
    rw [get_request_shape]
    simp
  obtain ⟨a1, hs1, ht1, hc1, hr⟩ := pending_read_data s a _ now (hI.typed0 a ha).2 hne hlen
    (get_request_nul_free url proto ua hurl hproto hua)
  have hget : strstr (get_request url proto ua) (bytes "GET") =
      some (get_request url proto ua) := by
    rw [get_request_shape, lit_GET]
    exact strstr_at_start _ _
  obtain ⟨uav, hh⟩ := client_handshake_get s a1 url proto ua hurl hproto hhttp
  refine ⟨{ a1 with user_agent := uav, mountpoint := client_mountpoint url },
    hs1, by rw [← hty, ← ht1], rfl, ?_⟩
  simp only [step, find_agent_of_mem hI hall, agent_read_cb, hty, if_true]
  rw [hr]
  unfold pending_parse
  rw [hc1, hget]
  simp only []
  rw [hh, close_agent_congr s a a1 hs1 ht1, hs1]

theorem remove_congr (l : List ntrip_agent) (a a' : ntrip_agent) (h : a'.socket = a.socket) :
    TAILQ_REMOVE l a' = TAILQ_REMOVE l a := by
  simp [TAILQ_REMOVE, h]

theorem client_request_eq (m : List Nat) (x : Nat) (ua : List Nat) :
    client_request m x ua = get_request (47 :: m) (bytes "HTTP/1" ++ [46, x]) ua := by
  simp [client_request, get_request, lit_GET_slash, lit_GET_sp, lit_HTTP1_dot, lit_sp,
    lit_HTTP1]

theorem strchr_head (c : Nat) (l : List Nat) : strchr (c :: l) c = some (c :: l) := by
  simp [strchr]

theorem client_mountpoint_slash (m : List Nat) (h : m.length ≤ 63) :
    client_mountpoint (47 :: m) = m := by
  simp [client_mountpoint, strchr_head, snprintf_s, List.take_of_length_le h]

/-- The caster after the admission of a client. -/
theorem admit_client_eq {s : ntrip_caster} (hI : Inv s) (a a' : ntrip_agent)
    (ha : a ∈ s.head_pending) (hs : a'.socket = a.socket) (ht : a'.type = 0) :
    move_agent s a' NTRIP_CLIENT_AGENT =
      { s with head_pending := s.head_pending.erase a
               cnt_pending := s.cnt_pending - 1
               head_client := s.head_client ++ [{ a' with pending_idx := 0, type := 2 }]
               cnt_client := s.cnt_client + 1 } := by
  obtain ⟨b0, b1, b2⟩ := cnt_lt_mod hI
  have hnd : (s.head_pending.map (fun x => x.socket)).Nodup := head_sockets_nodup hI 0
  have hpos : 0 < s.head_pending.length := List.length_pos_of_mem ha
  have e0 := hI.cnt0
  have e2 := hI.cnt2
  have hroom := hI.room
  rw [max_live_val] at hroom
  unfold ntrip_caster.live at hroom
  rw [move_client_eq s a' ht, remove_congr _ a a' hs, remove_eq_erase _ a ha hnd,
    size_dec_pos _ (by omega) b0, size_inc_lt _ (by unfold SIZE_MOD; omega)]

/-- The caster after the admission of a source. -/
theorem admit_source_eq {s : ntrip_caster} (hI : Inv s) (a a' : ntrip_agent)
    (ha : a ∈ s.head_pending) (hs : a'.socket = a.socket) (ht : a'.type = 0) :
    move_agent s a' NTRIP_SOURCE_AGENT =
      { s with head_pending := s.head_pending.erase a
               cnt_pending := s.cnt_pending - 1
               head_source := s.head_source ++ [{ a' with pending_idx := 0, type := 1 }]
               cnt_source := s.cnt_source + 1 } := by
  obtain ⟨b0, b1, b2⟩ := cnt_lt_mod hI
  have hnd : (s.head_pending.map (fun x => x.socket)).Nodup := head_sockets_nodup hI 0
  have hpos : 0 < s.head_pending.length := List.length_pos_of_mem ha
  have e0 := hI.cnt0
  have e1 := hI.cnt1
  have hroom := hI.room
  rw [max_live_val] at hroom
  unfold ntrip_caster.live at hroom
  rw [move_source_eq s a' ht, remove_congr _ a a' hs, remove_eq_erase _ a ha hnd,
    size_dec_pos _ (by omega) b0, size_inc_lt _ (by unfold SIZE_MOD; omega)]

theorem not_mem_erase_pending {s : ntrip_caster} (hI : Inv s) (a : ntrip_agent) :
    a ∉ s.head_pending.erase a := by
  have hnd : (s.head_pending.map (fun x => x.socket)).Nodup := head_sockets_nodup hI 0
  exact fun h => (List.Nodup.mem_erase_iff (List.Nodup.of_map _ hnd)).1 h |>.1 rfl

theorem close_pending_eq {s : ntrip_caster} (hI : Inv s) (a : ntrip_agent)
    (ha : a ∈ s.head_pending) :
    close_agent s a =
      ({ s with head_pending := s.head_pending.erase a, cnt_pending := s.cnt_pending - 1 },
        [io_op.close a.socket]) := by
  obtain ⟨b0, b1, b2⟩ := cnt_lt_mod hI
  have hnd : (s.head_pending.map (fun x => x.socket)).Nodup := head_sockets_nodup hI 0
  have hpos : 0 < s.head_pending.length := List.length_pos_of_mem ha
  have e0 := hI.cnt0
  have hty := (hI.typed0 a ha).1
  simp only [close_agent, hty, ntrip_caster.set_head, ntrip_caster.set_cnt,
    ntrip_caster.agents_head, ntrip_caster.agents_cnt]
  rw [remove_eq_erase _ a ha hnd, size_dec_pos _ (by omega) b0]

/-! ## Claim C4: admission of a client -/

/-- C4 (amended). In a reachable state, for every mountpoint `m` of 1 to 62
bytes that are neither white space nor NUL, other than `/`, every digit `x`
and every user-agent text `ua` without CR, LF or NUL such that the request
`GET /m HTTP/1.x\r\nUser-Agent: ua\r\n\r\n` is at most 1022 bytes long: when
the CLIENT count is below the CLIENT cap (or the cap is 0), a PENDING agent
whose read delivers exactly that request is sent exactly `ICY 200 OK\r\n`, is
removed from the PENDING list and appended to the CLIENT list with type CLIENT
and mountpoint `m`, the PENDING count decreases by 1, the CLIENT count
increases by 1, and its parse index is 0. -/
theorem C4_client_admission (config : ntrip_caster_config) (evs : List event)
    (a : ntrip_agent) (m : List Nat) (x : Nat) (ua : List Nat) (now : ℚ)
    (sr : Nat → Option Nat)
    (ha : a ∈ (run config evs).agents_head NTRIP_PENDING_AGENT)
    (hm : is_token 62 m) (hslash : m ≠ bytes "/") (hx : 48 ≤ x ∧ x ≤ 57)
    (hua : ∀ b ∈ ua, b ≠ 13 ∧ b ≠ 10 ∧ b ≠ 0)
    (hlen : (client_request m x ua).length ≤ 1022)
    (hcap : config.MAX_CLIENT_CNT = 0 ∨
      (run config evs).agents_cnt NTRIP_CLIENT_AGENT < config.MAX_CLIENT_CNT) :
    (deliver (run config evs) a (client_request m x ua) now sr).2 =
        [io_op.send a.socket NTRIP_RESPONSE_OK] ∧
      (deliver (run config evs) a (client_request m x ua) now sr).1.agents_head
          NTRIP_PENDING_AGENT =
        ((run config evs).agents_head NTRIP_PENDING_AGENT).erase a ∧
      a ∉ (deliver (run config evs) a (client_request m x ua) now sr).1.agents_head
          NTRIP_PENDING_AGENT ∧
      (∃ a' : ntrip_agent,
        (deliver (run config evs) a (client_request m x ua) now sr).1.agents_head
            NTRIP_CLIENT_AGENT =
          (run config evs).agents_head NTRIP_CLIENT_AGENT ++ [a'] ∧
        a'.socket = a.socket ∧ a'.type = NTRIP_CLIENT_AGENT ∧ a'.mountpoint = m ∧
        a'.pending_idx = 0) ∧
      (deliver (run config evs) a (client_request m x ua) now sr).1.agents_cnt
          NTRIP_PENDING_AGENT + 1 =
        (run config evs).agents_cnt NTRIP_PENDING_AGENT ∧
      (deliver (run config evs) a (client_request m x ua) now sr).1.agents_cnt
          NTRIP_CLIENT_AGENT =
        (run config evs).agents_cnt NTRIP_CLIENT_AGENT + 1 := by
  have hI := Inv.of_run config evs
  have hc := run_config config evs
  have hurl : is_token 63 (47 :: m) := by
    refine ⟨by simp, by simpa using hm.2.1, ?_⟩
    intro b hb
    rcases List.mem_cons.1 hb with h | h
    · subst h
      exact ⟨by decide, by decide⟩
    · exact hm.2.2 b h
  have hproto : is_token 63 (bytes "HTTP/1" ++ [46, x]) := by
    rw [lit_HTTP1]
    refine ⟨by simp, by simp, ?_⟩
    intro b hb
    simp only [List.cons_append, List.nil_append, List.mem_cons, List.mem_singleton,
      List.not_mem_nil, or_false] at hb
    have hxs : isspace x = false := by
      simp only [isspace, Bool.or_eq_false_iff, beq_eq_false_iff_ne, Bool.and_eq_false_iff,
        decide_eq_false_iff_not]
      omega
    rcases hb with h | h | h | h | h | h | h | h <;> subst h
    all_goals first
      | exact ⟨by decide, by decide⟩
      | exact ⟨hxs, by omega⟩
  have hhttp : (bytes "HTTP/1" ++ [46, x]).take 6 = bytes "HTTP/1" := by
    rw [lit_HTTP1]
    rfl
  have hmnt : client_mountpoint (47 :: m) = m := client_mountpoint_slash m (by omega)
  obtain ⟨a', hs', ht', hm', hstep⟩ := step_get_request hI a ha (47 :: m)
    (bytes "HTTP/1" ++ [46, x]) ua hurl hproto hhttp (fun b hb => (hua b hb).2.2)
    (by rw [← client_request_eq]; omega) now sr
  have hncap : ¬ ((run config evs).config.MAX_CLIENT_CNT > 0 ∧
      (run config evs).config.MAX_CLIENT_CNT ≤ (run config evs).cnt_client) := by
    rw [hc]
    simp only [ntrip_caster.agents_cnt] at hcap
    omega
  rw [hmnt] at hstep hm'
  rw [if_neg (by simp [hm.1, hslash]), if_neg hncap] at hstep
  have hpos : 0 < (run config evs).head_pending.length := List.length_pos_of_mem ha
  have e0 := hI.cnt0
  unfold deliver
  rw [client_request_eq, hstep, admit_client_eq hI a a' ha hs' ht']
  refine ⟨rfl, rfl, not_mem_erase_pending hI a, ⟨_, rfl, hs', rfl, hm', rfl⟩, ?_, rfl⟩
  show (run config evs).cnt_pending - 1 + 1 = (run config evs).cnt_pending
  omega

theorem run_first_accept (addrbuf : List Nat) (time : Nat) (now : ℚ) :
    run caster_init_config [.accept false true true addrbuf time now] =
      { head_pending := [new_agent 0 addrbuf time now]
        head_source := []
        head_client := []
        cnt_pending := 1
        cnt_source := 0
        cnt_client := 0
        config := caster_init_config
        next_socket := 1 } := by
  rfl

theorem first_agent_is_pending (addrbuf : List Nat) (time : Nat) (now : ℚ) :
    new_agent 0 addrbuf time now ∈
      (run caster_init_config [.accept false true true addrbuf time now]).agents_head
        NTRIP_PENDING_AGENT := by
  rw [run_first_accept]
  exact List.mem_singleton.2 rfl

theorem client_request_length (m : List Nat) (x : Nat) (ua : List Nat) :
    (client_request m x ua).length = 32 + m.length + ua.length := by
  simp only [client_request, lit_GET_slash, lit_HTTP1_dot, lit_UA_hdr, lit_CRLF2,
    List.length_append, List.length_cons, List.length_nil]
  omega

/-- A read that fills the parse buffer closes the pending agent, whatever the
bytes. -/
theorem deliver_full_buffer {s : ntrip_caster} (hI : Inv s) (a : ntrip_agent)
    (ha : a ∈ s.head_pending) (msg : List Nat) (hlen : 1023 ≤ msg.length) (now : ℚ)
    (sr : Nat → Option Nat) : deliver s a msg now sr = close_agent s a := by
  have hall : a ∈ s.all := by simp [ntrip_caster.all, ha]
  have hty := (hI.typed0 a ha).1
  have hidx := (hI.typed0 a ha).2
  have htake : (List.take (size_sub (size_sub 1024 a.pending_idx) 1) msg).length = 1023 := by
    rw [hidx, recv_len_zero, List.length_take]
    omega
  simp only [deliver, step, find_agent_of_mem hI hall, agent_read_cb, hty, if_true]
  unfold pending_read
  dsimp only
  rw [htake, if_neg (by omega), if_pos (by omega)]
  exact close_agent_congr _ _ _ rfl rfl

/-- C4 fails as stated when the request fills the parse buffer: with the
one-byte mountpoint `M` and a user agent of 990 letters `a` the request is
1023 bytes long, the read of the first connection delivers it whole, and the
agent is closed without any reply instead of being admitted. -/
theorem C4_counterexample_full_buffer :
    new_agent 0 [] 0 0 ∈
        (run caster_init_config [.accept false true true [] 0 0]).agents_head
          NTRIP_PENDING_AGENT ∧
      is_token 62 [77] ∧ [77] ≠ bytes "/" ∧ (48 ≤ 49 ∧ 49 ≤ 57) ∧
      (∀ b ∈ List.replicate 990 97, b ≠ 13 ∧ b ≠ 10) ∧
      (client_request [77] 49 (List.replicate 990 97)).length = 1023 ∧
      (run caster_init_config [.accept false true true [] 0 0]).agents_cnt
          NTRIP_CLIENT_AGENT < caster_init_config.MAX_CLIENT_CNT ∧
      (deliver (run caster_init_config [.accept false true true [] 0 0])
          (new_agent 0 [] 0 0) (client_request [77] 49 (List.replicate 990 97)) 1
          (fun _ => none)).2 = [io_op.close 0] ∧
      (deliver (run caster_init_config [.accept false true true [] 0 0])
          (new_agent 0 [] 0 0) (client_request [77] 49 (List.replicate 990 97)) 1
          (fun _ => none)).1.agents_head NTRIP_CLIENT_AGENT = [] := by
  have hlen : (client_request [77] 49 (List.replicate 990 97)).length = 1023 := by
    rw [client_request_length, List.length_replicate]
    rfl
  have hd := deliver_full_buffer (Inv.of_run caster_init_config [.accept false true true [] 0 0])
    (new_agent 0 [] 0 0) (first_agent_is_pending [] 0 0)
    (client_request [77] 49 (List.replicate 990 97)) (by omega) 1 (fun _ => none)
  rw [hd, close_pending_eq (Inv.of_run _ _) _ (first_agent_is_pending [] 0 0)]
  refine ⟨first_agent_is_pending [] 0 0, by decide, by decide, by decide, ?_, hlen, ?_, rfl, ?_⟩
  · intro b hb
    rw [List.eq_of_mem_replicate hb]
    exact ⟨by decide, by decide⟩
  · rw [run_first_accept]
    decide
  · rw [run_first_accept]
    rfl

/-- C4 at a concrete input: the first connection sends
`GET /MNT HTTP/1.1\r\nUser-Agent: c/1.0\r\n\r\n` and is answered
`ICY 200 OK\r\n`. -/
theorem C4_client_admission_witness :
    (deliver (run caster_init_config [.accept false true true [] 0 0]) (new_agent 0 [] 0 0)
        (client_request (bytes "MNT") 49 (bytes "c/1.0")) 1 (fun _ => none)).2 =
      [io_op.send 0 NTRIP_RESPONSE_OK] :=
  (C4_client_admission caster_init_config [.accept false true true [] 0 0]
    (new_agent 0 [] 0 0) (bytes "MNT") 49 (bytes "c/1.0") 1 (fun _ => none)
    (first_agent_is_pending [] 0 0) (by decide) (by decide) (by decide) (by decide) (by decide)
    (Or.inr (by rw [run_first_accept]; decide))).1

/-! ## A source handshake on a request of known shape -/

theorem source_request_shape (pw m ua : List Nat) :
    source_request pw m ua = [83, 79, 85, 82, 67, 69] ++ (32 :: (pw ++ 32 :: (m ++
      13 :: 10 :: ([83, 111, 117, 114, 99, 101, 45, 65, 103, 101, 110, 116, 58] ++
        (32 :: (ua ++ [13, 10, 13, 10])))))) := by
  simp [source_request, lit_SOURCE_sp, lit_sp, lit_SA_hdr, lit_CRLF2]

theorem source_request_length (pw m ua : List Nat) :
    (source_request pw m ua).length = 28 + pw.length + m.length + ua.length := by
  simp only [source_request, lit_SOURCE_sp, lit_sp, lit_SA_hdr, lit_CRLF2,
    List.length_append, List.length_cons, List.length_nil]
  omega

theorem source_request_nul_free (pw m ua : List Nat) (hpw : is_token 63 pw)
    (hm : is_token 63 m) (hua : nul_free ua) : nul_free (source_request pw m ua) := by
  intro b hb
  rw [source_request_shape] at hb
  simp only [List.mem_append, List.mem_cons, List.mem_singleton, List.not_mem_nil,
    or_false] at hb
  rcases hb with (h | h | h | h | h | h) | h | h | h | h | h | h |
    (h | h | h | h | h | h | h | h | h | h | h | h | h) | h | h | h | h | h | h
  all_goals first
    | exact (hpw.2.2 b h).2
    | exact (hm.2.2 b h).2
    | exact hua b h
    | omega

/-- A source handshake on a request `SOURCE <pw> <m>\r\nSource-Agent: ...` with
two proper tokens gets past the parser: what is left is the mountpoint test,
the search for a source on the same mountpoint, the cap test and the
admission. -/
theorem source_handshake_request (c : ntrip_caster) (agent : ntrip_agent)
    (pw m ua : List Nat) (hpw : is_token 63 pw) (hm : is_token 63 m) :
    ∃ uav : List Nat, source_handshake c agent (source_request pw m ua) =
      if m = bytes "/" then
        ((close_agent c agent).1,
          io_op.send agent.socket NTRIP_RESPONSE_ERROR_MOUNTP :: (close_agent c agent).2)
      else if c.head_source.any (fun server => strcasecmp server.mountpoint m == 0) then
        ((close_agent c agent).1,
          io_op.send agent.socket NTRIP_RESPONSE_ERROR_MOUNTP :: (close_agent c agent).2)
      else if c.config.MAX_SOURCE_CNT > 0 ∧ c.config.MAX_SOURCE_CNT ≤ c.cnt_source then
        ((close_agent c agent).1,
          io_op.send agent.socket NTRIP_RESPONSE_ERROR_MOUNTP :: (close_agent c agent).2)
      else
        (move_agent c { agent with user_agent := uav, mountpoint := m } NTRIP_SOURCE_AGENT,
          [io_op.send agent.socket NTRIP_RESPONSE_OK]) := by
  have hshape := source_request_shape pw m ua
  have h1 : strstr (source_request pw m ua) (bytes "\r\n") =
      some (13 :: 10 :: ([83, 111, 117, 114, 99, 101, 45, 65, 103, 101, 110, 116, 58] ++
        (32 :: (ua ++ [13, 10, 13, 10])))) := by
    have := strstr_skip ([83, 79, 85, 82, 67, 69, 32] ++ pw ++ 32 :: m) 13 [10]
      ([83, 111, 117, 114, 99, 101, 45, 65, 103, 101, 110, 116, 58] ++
        (32 :: (ua ++ [13, 10, 13, 10])))
      (by
        have := token_no_cr hpw
        have := token_no_cr hm
        simp [List.mem_append]
        tauto)
    rw [hshape, lit_CRLF]
    simpa [List.append_assoc] using this
  have h2 : strstr (13 :: 10 :: ([83, 111, 117, 114, 99, 101, 45, 65, 103, 101, 110, 116, 58] ++
        (32 :: (ua ++ [13, 10, 13, 10])))) (bytes "Source-Agent:") =
      some ([83, 111, 117, 114, 99, 101, 45, 65, 103, 101, 110, 116, 58] ++
        (32 :: (ua ++ [13, 10, 13, 10]))) := by
    have := strstr_skip [13, 10] 83 [111, 117, 114, 99, 101, 45, 65, 103, 101, 110, 116, 58]
      (32 :: (ua ++ [13, 10, 13, 10])) (by decide)
    rw [lit_SA]
    simpa using this
  have h3 : (strstr ([83, 111, 117, 114, 99, 101, 45, 65, 103, 101, 110, 116, 58] ++
        (32 :: (ua ++ [13, 10, 13, 10]))) (bytes "\r\n")).isSome = true := by
    have := strstr_isSome
      ([83, 111, 117, 114, 99, 101, 45, 65, 103, 101, 110, 116, 58] ++ 32 :: ua)
      [13, 10] [13, 10]
    rw [lit_CRLF]
    simpa [List.append_assoc] using this
  have h4 : sscanf_verb_s_s (bytes "SOURCE") (source_request pw m ua) = (2, pw, m) := by
    rw [hshape, lit_SOURCE]
    exact sscanf_two_tokens _ pw m hpw hm 13 (by decide) _
  obtain ⟨v, hv⟩ := Option.isSome_iff_exists.1 h3
  have hmnt : snprintf_s 64 (some m) = m := by
    simp only [snprintf_s]
    exact List.take_of_length_le (by have := hm.2.1; omega)
  refine ⟨sscanf_line
    (([83, 111, 117, 114, 99, 101, 45, 65, 103, 101, 110, 116, 58] ++
        (32 :: (ua ++ [13, 10, 13, 10]))).drop (bytes "Source-Agent:").length)
    agent.user_agent, ?_⟩
  unfold source_handshake
  simp only [h1, h2, hv, h4, hmnt]
  simp only [ntrip_caster.agents_cnt, ntrip_caster.agents_head]
  rw [if_neg (by decide)]
  simp only [hm.1, false_or]
  split
  · simp only [close_agent, TAILQ_REMOVE]
  · split
    · simp only [close_agent, TAILQ_REMOVE]
    · split
      · simp only [close_agent, TAILQ_REMOVE]
      · rfl

/-- A read that delivers a whole request `SOURCE <pw> <m>\r\nSource-Agent: ...`
free of the letters `GET` to a pending agent of a reachable state: the ways it
ends. -/
theorem step_source_request {s : ntrip_caster} (hI : Inv s) (a : ntrip_agent)
    (ha : a ∈ s.head_pending) (pw m ua : List Nat) (hpw : is_token 63 pw)
    (hm : is_token 63 m) (hua : nul_free ua)
    (hget : ¬ (bytes "GET" <:+: source_request pw m ua))
    (hlen : (source_request pw m ua).length < 1023) (now : ℚ) (sr : Nat → Option Nat) :
    ∃ a' : ntrip_agent, a'.socket = a.socket ∧ a'.type = 0 ∧ a'.mountpoint = m ∧
      deliver s a (source_request pw m ua) now sr =
        if m = bytes "/" then
          ((close_agent s a).1,
            io_op.send a.socket NTRIP_RESPONSE_ERROR_MOUNTP :: (close_agent s a).2)
        else if s.head_source.any (fun server => strcasecmp server.mountpoint m == 0) then
          ((close_agent s a).1,
            io_op.send a.socket NTRIP_RESPONSE_ERROR_MOUNTP :: (close_agent s a).2)
        else if s.config.MAX_SOURCE_CNT > 0 ∧ s.config.MAX_SOURCE_CNT ≤ s.cnt_source then
          ((close_agent s a).1,
            io_op.send a.socket NTRIP_RESPONSE_ERROR_MOUNTP :: (close_agent s a).2)
        else
          (move_agent s a' NTRIP_SOURCE_AGENT, [io_op.send a.socket NTRIP_RESPONSE_OK]) := by
  have hall : a ∈ s.all := by simp [ntrip_caster.all, ha]
  have hty := (hI.typed0 a ha).1
  have hne : source_request pw m ua ≠ [] := by
    rw [source_request_shape]
    simp
  obtain ⟨a1, hs1, ht1, hc1, hr⟩ := pending_read_data s a _ now (hI.typed0 a ha).2 hne hlen
    (source_request_nul_free pw m ua hpw hm hua)
  have hnoget : strstr (source_request pw m ua) (bytes "GET") = none := strstr_none _ _ hget
  have hsrc : strstr (source_request pw m ua) (bytes "SOURCE") =
      some (source_request pw m ua) := by
    rw [source_request_shape, lit_SOURCE]
    exact strstr_at_start _ _
  obtain ⟨uav, hh⟩ := source_handshake_request s a1 pw m ua hpw hm
  refine ⟨{ a1 with user_agent := uav, mountpoint := m },
    hs1, by rw [← hty, ← ht1], rfl, ?_⟩
  simp only [deliver, step, find_agent_of_mem hI hall, agent_read_cb, hty, if_true]
  rw [hr]
  unfold pending_parse
  rw [hc1, hnoget]
  simp only []
  rw [hsrc]
  simp only []
  rw [hh, close_agent_congr s a a1 hs1 ht1, hs1]

/-! ## Claim C5: admission of a source -/

/-- C5 (amended). In a reachable state, for every password `pw` and mountpoint
`m` that are non-empty strings of at most 63 bytes without white space or NUL,
`m` different from `/`, and every agent text `ua` without CR, LF or NUL, such
that the request `SOURCE pw m\r\nSource-Agent: ua\r\n\r\n` nowhere contains
the letters `GET` and is at most 1022 bytes long: when no agent of the SOURCE
list holds `m` (without regard to case) and the SOURCE count is below the
SOURCE cap (or the cap is 0), a PENDING agent whose read delivers exactly that
request is sent `ICY 200 OK\r\n` and is moved from the PENDING list to the end
of the SOURCE list with type SOURCE and mountpoint `m`. -/
theorem C5_source_admission (config : ntrip_caster_config) (evs : List event)
    (a : ntrip_agent) (pw m ua : List Nat) (now : ℚ) (sr : Nat → Option Nat)
    (ha : a ∈ (run config evs).agents_head NTRIP_PENDING_AGENT)
    (hpw : is_token 63 pw) (hm : is_token 63 m) (hslash : m ≠ bytes "/")
    (hua : ∀ b ∈ ua, b ≠ 13 ∧ b ≠ 10 ∧ b ≠ 0)
    (hget : ¬ (bytes "GET" <:+: source_request pw m ua))
    (hlen : (source_request pw m ua).length ≤ 1022)
    (hfree : ∀ server ∈ (run config evs).agents_head NTRIP_SOURCE_AGENT,
      strcasecmp server.mountpoint m ≠ 0)
    (hcap : config.MAX_SOURCE_CNT = 0 ∨
      (run config evs).agents_cnt NTRIP_SOURCE_AGENT < config.MAX_SOURCE_CNT) :
    (deliver (run config evs) a (source_request pw m ua) now sr).2 =
        [io_op.send a.socket NTRIP_RESPONSE_OK] ∧
      (deliver (run config evs) a (source_request pw m ua) now sr).1.agents_head
          NTRIP_PENDING_AGENT =
        ((run config evs).agents_head NTRIP_PENDING_AGENT).erase a ∧
      a ∉ (deliver (run config evs) a (source_request pw m ua) now sr).1.agents_head
          NTRIP_PENDING_AGENT ∧
      (∃ a' : ntrip_agent,
        (deliver (run config evs) a (source_request pw m ua) now sr).1.agents_head
            NTRIP_SOURCE_AGENT =
          (run config evs).agents_head NTRIP_SOURCE_AGENT ++ [a'] ∧
        a'.socket = a.socket ∧ a'.type = NTRIP_SOURCE_AGENT ∧ a'.mountpoint = m) := by
  have hI := Inv.of_run config evs
  have hc := run_config config evs
  obtain ⟨a', hs', ht', hm', hstep⟩ := step_source_request hI a ha pw m ua hpw hm
    (fun b hb => (hua b hb).2.2) hget (by omega) now sr
  have hncap : ¬ ((run config evs).config.MAX_SOURCE_CNT > 0 ∧
      (run config evs).config.MAX_SOURCE_CNT ≤ (run config evs).cnt_source) := by
    rw [hc]
    simp only [ntrip_caster.agents_cnt] at hcap
    omega
  have hnodup : (run config evs).head_source.any
      (fun server => strcasecmp server.mountpoint m == 0) = false := by
    rw [List.any_eq_false]
    intro x hx
    simpa using hfree x hx
  rw [if_neg hslash, hnodup, if_neg (by simp), if_neg hncap] at hstep
  rw [hstep, admit_source_eq hI a a' ha hs' ht']
  exact ⟨rfl, rfl, not_mem_erase_pending hI a, ⟨_, rfl, hs', rfl, hm'⟩⟩

/-- C5 fails as stated when the request contains the letters `GET`: the first
connection sends `SOURCE pw WIDGET\r\nSource-Agent: x\r\n\r\n`, the search for
`GET` comes first and succeeds inside the mountpoint, no `User-Agent:` header
follows, and the agent is closed without any reply instead of being moved to
the SOURCE list. -/
theorem C5_counterexample_get_inside :
    new_agent 0 [] 0 0 ∈
        (run caster_init_config [.accept false true true [] 0 0]).agents_head
          NTRIP_PENDING_AGENT ∧
      is_token 63 (bytes "pw") ∧ is_token 63 (bytes "WIDGET") ∧
      bytes "WIDGET" ≠ bytes "/" ∧ (∀ b ∈ bytes "x", b ≠ 13 ∧ b ≠ 10) ∧
      (∀ server ∈ (run caster_init_config [.accept false true true [] 0 0]).agents_head
          NTRIP_SOURCE_AGENT, strcasecmp server.mountpoint (bytes "WIDGET") ≠ 0) ∧
      (run caster_init_config [.accept false true true [] 0 0]).agents_cnt
          NTRIP_SOURCE_AGENT < caster_init_config.MAX_SOURCE_CNT ∧
      (deliver (run caster_init_config [.accept false true true [] 0 0])
          (new_agent 0 [] 0 0) (source_request (bytes "pw") (bytes "WIDGET") (bytes "x")) 1
          (fun _ => none)).2 = [io_op.close 0] ∧
      (deliver (run caster_init_config [.accept false true true [] 0 0])
          (new_agent 0 [] 0 0) (source_request (bytes "pw") (bytes "WIDGET") (bytes "x")) 1
          (fun _ => none)).1.agents_head NTRIP_SOURCE_AGENT = [] := by
  rw [run_first_accept]
  refine ⟨List.mem_singleton.2 rfl, by decide, by decide, by decide, by decide, by decide,
    by decide, by decide, by decide⟩

/-- C5 at a concrete input: the first connection sends
`SOURCE pw MNT\r\nSource-Agent: src/1.0\r\n\r\n` and is answered
`ICY 200 OK\r\n`. -/
theorem C5_source_admission_witness :
    (deliver (run caster_init_config [.accept false true true [] 0 0]) (new_agent 0 [] 0 0)
        (source_request (bytes "pw") (bytes "MNT") (bytes "src/1.0")) 1 (fun _ => none)).2 =
      [io_op.send 0 NTRIP_RESPONSE_OK] :=
  (C5_source_admission caster_init_config [.accept false true true [] 0 0]
    (new_agent 0 [] 0 0) (bytes "pw") (bytes "MNT") (bytes "src/1.0") 1 (fun _ => none)
    (first_agent_is_pending [] 0 0) (by decide) (by decide) (by decide) (by decide) (by decide)
    (by decide) (by rw [run_first_accept]; decide)
    (Or.inr (by rw [run_first_accept]; decide))).1

/-! ## Claims C6 and C7: requests the parser cannot finish -/

/-- The C string in the parse buffer after a read at index zero and the store
of the terminator. -/
theorem cstr_written_any (mem msg : List Nat) :
    cstr ((write_at mem 0 msg).set msg.length 0) = cstr msg := by
  unfold cstr write_at
  simp only [List.take_zero, List.nil_append, Nat.zero_add]
  rw [List.set_append]
  simp only [lt_self_iff_false, if_false, Nat.sub_self]
  have hrest : List.takeWhile (fun b : Nat => b != 0) ((mem.drop msg.length).set 0 0) = [] := by
    cases mem.drop msg.length with
    | nil => rfl
    | cons y ys => simp
  rw [List.takeWhile_append, hrest, List.append_nil]
  split
  · rename_i h
    have hp := List.takeWhile_prefix (fun b : Nat => b != 0) (l := msg)
    exact (hp.eq_of_length h).symm
  · rfl

/-- A read of `msg` (not empty, shorter than the buffer) on a pending agent
whose parse index is zero hands the parser the C string of `msg`. -/
theorem pending_read_cstr (c : ntrip_caster) (a : ntrip_agent) (msg : List Nat) (now : ℚ)
    (hidx : a.pending_idx = 0) (hne : msg ≠ []) (hlen : msg.length < 1023) :
    ∃ a1 : ntrip_agent, a1.socket = a.socket ∧ a1.type = a.type ∧
      cstr a1.pending_recv = cstr msg ∧
      pending_read c a (.data msg) now = pending_parse c a1 := by
  have htake : List.take (size_sub (size_sub 1024 a.pending_idx) 1) msg = msg := by
    rw [hidx, recv_len_zero]
    exact List.take_of_length_le (by omega)
  have hpos : msg.length ≠ 0 := fun h => hne (List.length_eq_zero.1 h)
  refine ⟨{ a with
      pending_recv := (write_at a.pending_recv 0 msg).set msg.length 0
      last_activity := now
      pending_idx := msg.length }, rfl, rfl, cstr_written_any _ _, ?_⟩
  unfold pending_read
  dsimp only
  rw [htake, if_neg hpos, if_neg (by omega), hidx]

/-- The parser closes the agent when the headers of the request are not all
there, and when the buffer has neither verb. -/
theorem pending_parse_incomplete (c : ntrip_caster) (a : ntrip_agent)
    (h : lacks_client_headers (cstr a.pending_recv) = true ∨
      (strstr (cstr a.pending_recv) (bytes "GET") = none ∧
        (lacks_source_headers (cstr a.pending_recv) = true ∨
          strstr (cstr a.pending_recv) (bytes "SOURCE") = none))) :
    pending_parse c a = close_agent c a := by
  unfold pending_parse
  rcases h with h | ⟨hg, h⟩
  · unfold lacks_client_headers at h
    cases hp : strstr (cstr a.pending_recv) (bytes "GET") with
    | none => simp [hp] at h
    | some p =>
      rw [hp] at h
      dsimp only at h ⊢
      unfold client_handshake
      cases hq : strstr p (bytes "\r\n") with
      | none => rfl
      | some q =>
        rw [hq] at h
        dsimp only at h ⊢
        cases hag : strstr q (bytes "User-Agent:") with
        | none => rfl
        | some ag =>
          rw [hag] at h
          dsimp only at h ⊢
          rw [Option.isNone_iff_eq_none.1 h]
  · rw [hg]
    dsimp only
    rcases h with h | h
    · unfold lacks_source_headers at h
      cases hp : strstr (cstr a.pending_recv) (bytes "SOURCE") with
      | none => simp [hp] at h
      | some p =>
        rw [hp] at h
        dsimp only at h ⊢
        unfold source_handshake
        cases hq : strstr p (bytes "\r\n") with
        | none => rfl
        | some q =>
          rw [hq] at h
          dsimp only at h ⊢
          cases hag : strstr q (bytes "Source-Agent:") with
          | none => rfl
          | some ag =>
            rw [hag] at h
            dsimp only at h ⊢
            rw [Option.isNone_iff_eq_none.1 h]
    · rw [h]

/-- A read that delivers an unfinished request to a pending agent of a
reachable state closes the agent without a reply. -/
theorem deliver_incomplete {s : ntrip_caster} (hI : Inv s) (a : ntrip_agent)
    (ha : a ∈ s.head_pending) (msg : List Nat) (hne : msg ≠ []) (hlen : msg.length < 1023)
    (h : lacks_client_headers (cstr msg) = true ∨
      (strstr (cstr msg) (bytes "GET") = none ∧
        (lacks_source_headers (cstr msg) = true ∨
          strstr (cstr msg) (bytes "SOURCE") = none)))
    (now : ℚ) (sr : Nat → Option Nat) :
    deliver s a msg now sr =
      ({ s with head_pending := s.head_pending.erase a, cnt_pending := s.cnt_pending - 1 },
        [io_op.close a.socket]) := by
  have hall : a ∈ s.all := by simp [ntrip_caster.all, ha]
  have hty := (hI.typed0 a ha).1
  obtain ⟨a1, hs1, ht1, hc1, hr⟩ := pending_read_cstr s a msg now (hI.typed0 a ha).2 hne hlen
  simp only [deliver, step, find_agent_of_mem hI hall, agent_read_cb, hty, if_true]
  rw [hr, pending_parse_incomplete s a1 (by rw [hc1]; exact h),
    close_agent_congr s a a1 hs1 ht1, close_pending_eq hI a ha]

/-- C6 (amended). In a reachable state, for every PENDING agent and every
successful read that leaves the buffer not full: if the buffer contains `GET`
but lacks a `\r\n` after it, or a `User-Agent:` header after that, or a `\r\n`
after the header (and likewise if it contains no `GET`, contains `SOURCE` and
lacks the `\r\n`, the `Source-Agent:` header or the terminating `\r\n`), then
the agent is closed without a reply: it is removed from the PENDING list, the
PENDING count decreases by 1, and the other lists and counts stay as they
were. -/
theorem C6_unfinished_request_is_closed (config : ntrip_caster_config) (evs : List event)
    (a : ntrip_agent) (msg : List Nat) (now : ℚ) (sr : Nat → Option Nat)
    (ha : a ∈ (run config evs).agents_head NTRIP_PENDING_AGENT)
    (hpos : 0 < msg.length) (hlen : msg.length < 1023)
    (h : lacks_client_headers (cstr msg) = true ∨
      (strstr (cstr msg) (bytes "GET") = none ∧ lacks_source_headers (cstr msg) = true)) :
    (deliver (run config evs) a msg now sr).2 = [io_op.close a.socket] ∧
      (deliver (run config evs) a msg now sr).1.agents_head NTRIP_PENDING_AGENT =
        ((run config evs).agents_head NTRIP_PENDING_AGENT).erase a ∧
      a ∉ (deliver (run config evs) a msg now sr).1.agents_head NTRIP_PENDING_AGENT ∧
      (deliver (run config evs) a msg now sr).1.agents_cnt NTRIP_PENDING_AGENT + 1 =
        (run config evs).agents_cnt NTRIP_PENDING_AGENT ∧
      (deliver (run config evs) a msg now sr).1.agents_head NTRIP_SOURCE_AGENT =
        (run config evs).agents_head NTRIP_SOURCE_AGENT ∧
      (deliver (run config evs) a msg now sr).1.agents_head NTRIP_CLIENT_AGENT =
        (run config evs).agents_head NTRIP_CLIENT_AGENT ∧
      (deliver (run config evs) a msg now sr).1.agents_cnt NTRIP_SOURCE_AGENT =
        (run config evs).agents_cnt NTRIP_SOURCE_AGENT ∧
      (deliver (run config evs) a msg now sr).1.agents_cnt NTRIP_CLIENT_AGENT =
        (run config evs).agents_cnt NTRIP_CLIENT_AGENT := by
  have hI := Inv.of_run config evs
  have hne : msg ≠ [] := fun e => by simp [e] at hpos
  have hlist : 0 < (run config evs).head_pending.length := List.length_pos_of_mem ha
  have e0 := hI.cnt0
  rw [deliver_incomplete hI a ha msg hne hlen
    (h.imp id (fun h' => ⟨h'.1, Or.inl h'.2⟩)) now sr]
  refine ⟨rfl, rfl, not_mem_erase_pending hI a, ?_, rfl, rfl, rfl, rfl⟩
  show (run config evs).cnt_pending - 1 + 1 = (run config evs).cnt_pending
  omega

/-- C6 fails as stated: the first connection sends `GET /MNT HTTP/1.1\r\n`,
which has `GET` and a `\r\n` but no `User-Agent:` header yet; the agent does
not wait for more data, it is closed and the PENDING list and count go from
one agent to none. -/
theorem C6_counterexample_closed_not_waiting :
    new_agent 0 [] 0 0 ∈
        (run caster_init_config [.accept false true true [] 0 0]).agents_head
          NTRIP_PENDING_AGENT ∧
      (run caster_init_config [.accept false true true [] 0 0]).agents_cnt
          NTRIP_PENDING_AGENT = 1 ∧
      0 < (bytes "GET /MNT HTTP/1.1\r\n").length ∧
      (bytes "GET /MNT HTTP/1.1\r\n").length < 1023 ∧
      lacks_client_headers (cstr (bytes "GET /MNT HTTP/1.1\r\n")) = true ∧
      (deliver (run caster_init_config [.accept false true true [] 0 0])
          (new_agent 0 [] 0 0) (bytes "GET /MNT HTTP/1.1\r\n") 1 (fun _ => none)).2 =
        [io_op.close 0] ∧
      (deliver (run caster_init_config [.accept false true true [] 0 0])
          (new_agent 0 [] 0 0) (bytes "GET /MNT HTTP/1.1\r\n") 1
          (fun _ => none)).1.agents_head NTRIP_PENDING_AGENT = [] ∧
      (deliver (run caster_init_config [.accept false true true [] 0 0])
          (new_agent 0 [] 0 0) (bytes "GET /MNT HTTP/1.1\r\n") 1
          (fun _ => none)).1.agents_cnt NTRIP_PENDING_AGENT = 0 := by
  rw [run_first_accept]
  refine ⟨List.mem_singleton.2 rfl, rfl, by decide, by decide, by decide, by decide,
    by decide, by decide⟩

/-- C6 at a concrete input: the first connection sends `GET /MNT HTTP/1.1\r\n`
and is closed. -/
theorem C6_unfinished_request_is_closed_witness :
    (deliver (run caster_init_config [.accept false true true [] 0 0]) (new_agent 0 [] 0 0)
        (bytes "GET /MNT HTTP/1.1\r\n") 1 (fun _ => none)).2 = [io_op.close 0] :=
  (C6_unfinished_request_is_closed caster_init_config [.accept false true true [] 0 0]
    (new_agent 0 [] 0 0) (bytes "GET /MNT HTTP/1.1\r\n") 1 (fun _ => none)
    (first_agent_is_pending [] 0 0) (by decide) (by decide) (Or.inl (by decide))).1

/-- C7 (amended). In a reachable state, for every PENDING agent and every
successful read of `n` bytes with `0 < n < 1023` whose buffer contains neither
the literal `GET` nor the literal `SOURCE`, the agent is closed without a
reply: it is removed from the PENDING list, the PENDING count decreases by 1,
and the other lists and counts stay as they were. -/
theorem C7_unknown_verb_is_closed (config : ntrip_caster_config) (evs : List event)
    (a : ntrip_agent) (msg : List Nat) (now : ℚ) (sr : Nat → Option Nat)
    (ha : a ∈ (run config evs).agents_head NTRIP_PENDING_AGENT)
    (hpos : 0 < msg.length) (hlen : msg.length < 1023)
    (hget : ¬ (bytes "GET" <:+: cstr msg)) (hsource : ¬ (bytes "SOURCE" <:+: cstr msg)) :
    (deliver (run config evs) a msg now sr).2 = [io_op.close a.socket] ∧
      (deliver (run config evs) a msg now sr).1.agents_head NTRIP_PENDING_AGENT =
        ((run config evs).agents_head NTRIP_PENDING_AGENT).erase a ∧
      a ∉ (deliver (run config evs) a msg now sr).1.agents_head NTRIP_PENDING_AGENT ∧
      (deliver (run config evs) a msg now sr).1.agents_cnt NTRIP_PENDING_AGENT + 1 =
        (run config evs).agents_cnt NTRIP_PENDING_AGENT ∧
      (deliver (run config evs) a msg now sr).1.agents_head NTRIP_SOURCE_AGENT =
        (run config evs).agents_head NTRIP_SOURCE_AGENT ∧
      (deliver (run config evs) a msg now sr).1.agents_head NTRIP_CLIENT_AGENT =
        (run config evs).agents_head NTRIP_CLIENT_AGENT ∧
      (deliver (run config evs) a msg now sr).1.agents_cnt NTRIP_SOURCE_AGENT =
        (run config evs).agents_cnt NTRIP_SOURCE_AGENT ∧
      (deliver (run config evs) a msg now sr).1.agents_cnt NTRIP_CLIENT_AGENT =
        (run config evs).agents_cnt NTRIP_CLIENT_AGENT := by
  have hI := Inv.of_run config evs
  have hne : msg ≠ [] := fun e => by simp [e] at hpos
  have hlist : 0 < (run config evs).head_pending.length := List.length_pos_of_mem ha
  have e0 := hI.cnt0
  rw [deliver_incomplete hI a ha msg hne hlen
    (Or.inr ⟨strstr_none _ _ hget, Or.inr (strstr_none _ _ hsource)⟩) now sr]
  refine ⟨rfl, rfl, not_mem_erase_pending hI a, ?_, rfl, rfl, rfl, rfl⟩
  show (run config evs).cnt_pending - 1 + 1 = (run config evs).cnt_pending
  omega

/-- C7 fails as stated: the first connection sends the five bytes `HELLO`,
which contain neither `GET` nor `SOURCE`; the agent does not stay in the
PENDING list, it is closed and the PENDING list and count go from one agent to
none. -/
theorem C7_counterexample_closed_not_waiting :
    new_agent 0 [] 0 0 ∈
        (run caster_init_config [.accept false true true [] 0 0]).agents_head
          NTRIP_PENDING_AGENT ∧
      (run caster_init_config [.accept false true true [] 0 0]).agents_cnt
          NTRIP_PENDING_AGENT = 1 ∧
      0 < (bytes "HELLO").length ∧ (bytes "HELLO").length < 1023 ∧
      strstr (cstr (bytes "HELLO")) (bytes "GET") = none ∧
      strstr (cstr (bytes "HELLO")) (bytes "SOURCE") = none ∧
      (deliver (run caster_init_config [.accept false true true [] 0 0])
          (new_agent 0 [] 0 0) (bytes "HELLO") 1 (fun _ => none)).2 = [io_op.close 0] ∧
      (deliver (run caster_init_config [.accept false true true [] 0 0])
          (new_agent 0 [] 0 0) (bytes "HELLO") 1
          (fun _ => none)).1.agents_head NTRIP_PENDING_AGENT = [] ∧
      (deliver (run caster_init_config [.accept false true true [] 0 0])
          (new_agent 0 [] 0 0) (bytes "HELLO") 1
          (fun _ => none)).1.agents_cnt NTRIP_PENDING_AGENT = 0 := by
  rw [run_first_accept]
  refine ⟨List.mem_singleton.2 rfl, rfl, by decide, by decide, by decide, by decide,
    by decide, by decide, by decide⟩

/-- C7 at a concrete input: the first connection sends `HELLO` and is
closed. -/
theorem C7_unknown_verb_is_closed_witness :
    (deliver (run caster_init_config [.accept false true true [] 0 0]) (new_agent 0 [] 0 0)
        (bytes "HELLO") 1 (fun _ => none)).2 = [io_op.close 0] :=
  (C7_unknown_verb_is_closed caster_init_config [.accept false true true [] 0 0]
    (new_agent 0 [] 0 0) (bytes "HELLO") 1 (fun _ => none)
    (first_agent_is_pending [] 0 0) (by decide) (by decide) (by decide) (by decide)).1

/-! ## Claim C8: the mountpoint of a client -/

theorem strchr_first (pre : List Nat) (ch : Nat) (post : List Nat) (h : ch ∉ pre) :
    strchr (pre ++ ch :: post) ch = some (ch :: post) := by
  induction pre with
  | nil => simp [strchr]
  | cons c cs ih =>
    have hc : c ≠ ch := fun e => h (by simp [e])
    have := ih (fun e => h (List.mem_cons_of_mem _ e))
    simp [strchr, hc, this]

/-- C8 (amended). For every client request line `GET <url> <proto>` that
passes the protocol check (`<proto>` a token that begins with `HTTP/1`, `<url>`
a token of at most 63 bytes without white space) and whose `<url>` contains a
`/`: `sscanf` reads `<url>` and `<proto>` whole, and the mountpoint derived for
the agent is the part of `<url>` after its first `/`. When `<url>` begins with
`/` this is `<url>` with that single leading `/` removed. -/
theorem C8_mountpoint_follows_first_slash (pre post proto ua : List Nat)
    (hurl : is_token 63 (pre ++ 47 :: post)) (hpre : 47 ∉ pre)
    (hproto : is_token 63 proto) (hhttp : proto.take 6 = bytes "HTTP/1") :
    sscanf_verb_s_s (bytes "GET") (get_request (pre ++ 47 :: post) proto ua) =
        (2, pre ++ 47 :: post, proto) ∧
      strncmp_eq0 proto (bytes "HTTP/1") (bytes "HTTP/1").length = true ∧
      client_mountpoint (pre ++ 47 :: post) = post ∧
      (pre = [] → client_mountpoint (pre ++ 47 :: post) = (pre ++ 47 :: post).drop 1) := by
  have hlen : post.length ≤ 63 := by
    have := hurl.2.1
    simp only [List.length_append, List.length_cons] at this
    omega
  have hm : client_mountpoint (pre ++ 47 :: post) = post := by
    simp [client_mountpoint, strchr_first pre 47 post hpre, snprintf_s,
      List.take_of_length_le hlen]
  refine ⟨?_, ?_, hm, ?_⟩
  · rw [get_request_shape, lit_GET]
    exact sscanf_two_tokens _ _ proto hurl hproto 13 (by decide) _
  · simp [strncmp_eq0, hhttp, lit_HTTP1]
  · intro h
    rw [hm, h]
    rfl

/-- C8 fails as stated for a url that does not begin with `/`: the first
connection sends `GET a/b HTTP/1.1\r\nUser-Agent: c\r\n\r\n`, the protocol
check passes with url `a/b`, and the agent is admitted to the CLIENT list with
mountpoint `b`, not with the url unchanged. -/
theorem C8_counterexample_inner_slash :
    sscanf_verb_s_s (bytes "GET") (get_request (bytes "a/b") (bytes "HTTP/1.1") (bytes "c")) =
        (2, bytes "a/b", bytes "HTTP/1.1") ∧
      strncmp_eq0 (bytes "HTTP/1.1") (bytes "HTTP/1") (bytes "HTTP/1").length = true ∧
      ((deliver (run caster_init_config [.accept false true true [] 0 0])
          (new_agent 0 [] 0 0) (get_request (bytes "a/b") (bytes "HTTP/1.1") (bytes "c")) 1
          (fun _ => none)).1.agents_head NTRIP_CLIENT_AGENT).map (fun x => x.mountpoint) =
        [bytes "b"] ∧
      client_mountpoint (bytes "a/b") = bytes "b" ∧
      bytes "b" ≠ bytes "a/b" := by
  rw [run_first_accept]
  refine ⟨by decide, by decide, by decide, by decide, by decide⟩

/-- C8 at a concrete input: the url `/MNT` with protocol `HTTP/1.1` gives the
mountpoint `MNT`. -/
theorem C8_mountpoint_follows_first_slash_witness :
    client_mountpoint ([] ++ 47 :: bytes "MNT") = bytes "MNT" :=
  (C8_mountpoint_follows_first_slash [] (bytes "MNT") (bytes "HTTP/1.1") (bytes "c/1.0")
    (by decide) (by decide) (by decide) (by decide)).2.2.1

/-! ## Claim C9: a second source on a held mountpoint -/

set_option maxRecDepth 100000 in
theorem second_agent_is_pending_after_source :
    new_agent 1 [] 0 2 ∈
      (run caster_init_config source_then_pending).agents_head NTRIP_PENDING_AGENT := by
  decide

theorem mnt_is_held_after_source :
    ∃ server ∈ (run caster_init_config source_then_pending).agents_head NTRIP_SOURCE_AGENT,
      strcasecmp server.mountpoint (bytes "mnt") = 0 := by
  decide

/-- C9 (amended). In a reachable state in which some SOURCE agent holds a
mountpoint `M`, for every PENDING agent whose read delivers exactly a source
handshake `SOURCE pw m\r\nSource-Agent: ua\r\n\r\n` (`pw` and `m` non-empty
strings of at most 63 bytes without white space or NUL, `ua` without CR, LF or
NUL) that nowhere contains the letters `GET`, is at most 1022 bytes long and
names a mountpoint `m` equal to `M` without regard to ASCII case: the bytes
sent to the new agent are exactly `ERROR - Bad Mountpoint\r\n`, the new agent
is closed (removed from the PENDING list, PENDING count decreased by 1), and
the SOURCE list (members, order, fields) and the SOURCE count are unchanged. -/
theorem C9_duplicate_source_rejected (config : ntrip_caster_config) (evs : List event)
    (a : ntrip_agent) (pw m ua : List Nat) (now : ℚ) (sr : Nat → Option Nat)
    (ha : a ∈ (run config evs).agents_head NTRIP_PENDING_AGENT)
    (hpw : is_token 63 pw) (hm : is_token 63 m)
    (hua : ∀ b ∈ ua, b ≠ 13 ∧ b ≠ 10 ∧ b ≠ 0)
    (hget : ¬ (bytes "GET" <:+: source_request pw m ua))
    (hlen : (source_request pw m ua).length ≤ 1022)
    (hheld : ∃ server ∈ (run config evs).agents_head NTRIP_SOURCE_AGENT,
      strcasecmp server.mountpoint m = 0) :
    (deliver (run config evs) a (source_request pw m ua) now sr).2 =
        [io_op.send a.socket NTRIP_RESPONSE_ERROR_MOUNTP, io_op.close a.socket] ∧
      (deliver (run config evs) a (source_request pw m ua) now sr).1.agents_head
          NTRIP_PENDING_AGENT =
        ((run config evs).agents_head NTRIP_PENDING_AGENT).erase a ∧
      a ∉ (deliver (run config evs) a (source_request pw m ua) now sr).1.agents_head
          NTRIP_PENDING_AGENT ∧
      (deliver (run config evs) a (source_request pw m ua) now sr).1.agents_cnt
          NTRIP_PENDING_AGENT + 1 =
        (run config evs).agents_cnt NTRIP_PENDING_AGENT ∧
      (deliver (run config evs) a (source_request pw m ua) now sr).1.agents_head
          NTRIP_SOURCE_AGENT =
        (run config evs).agents_head NTRIP_SOURCE_AGENT ∧
      (deliver (run config evs) a (source_request pw m ua) now sr).1.agents_cnt
          NTRIP_SOURCE_AGENT =
        (run config evs).agents_cnt NTRIP_SOURCE_AGENT := by
  have hI := Inv.of_run config evs
  have hlist : 0 < (run config evs).head_pending.length := List.length_pos_of_mem ha
  have e0 := hI.cnt0
  obtain ⟨a', -, -, -, hstep⟩ := step_source_request hI a ha pw m ua hpw hm
    (fun b hb => (hua b hb).2.2) hget (by omega) now sr
  have hany : (run config evs).head_source.any
      (fun server => strcasecmp server.mountpoint m == 0) = true := by
    obtain ⟨server, hs, h0⟩ := hheld
    rw [List.any_eq_true]
    exact ⟨server, hs, by simp [h0]⟩
  have hres : deliver (run config evs) a (source_request pw m ua) now sr =
      ((close_agent (run config evs) a).1,
        io_op.send a.socket NTRIP_RESPONSE_ERROR_MOUNTP ::
          (close_agent (run config evs) a).2) := by
    rw [hstep, hany]
    by_cases hs : m = bytes "/"
    · rw [if_pos hs]
    · rw [if_neg hs, if_pos rfl]
  rw [hres, close_pending_eq hI a ha]
  refine ⟨rfl, rfl, not_mem_erase_pending hI a, ?_, rfl, rfl⟩
  show (run config evs).cnt_pending - 1 + 1 = (run config evs).cnt_pending
  omega

set_option maxRecDepth 100000 in
/-- C9 fails as stated when the handshake contains the letters `GET`: with a
source on `MNT`, a second connection sends
`SOURCE pw MNT\r\nSource-Agent: WIDGET/1.0\r\n\r\n`; the search for `GET`
comes first and succeeds inside the agent name, no `User-Agent:` header is
found, and the connection is closed without the bad-mountpoint reply. -/
theorem C9_counterexample_get_inside :
    new_agent 1 [] 0 2 ∈
        (run caster_init_config source_then_pending).agents_head NTRIP_PENDING_AGENT ∧
      (∃ server ∈ (run caster_init_config source_then_pending).agents_head
          NTRIP_SOURCE_AGENT, strcasecmp server.mountpoint (bytes "MNT") = 0) ∧
      is_token 63 (bytes "pw") ∧ is_token 63 (bytes "MNT") ∧
      (∀ b ∈ bytes "WIDGET/1.0", b ≠ 13 ∧ b ≠ 10) ∧
      (deliver (run caster_init_config source_then_pending) (new_agent 1 [] 0 2)
          (source_request (bytes "pw") (bytes "MNT") (bytes "WIDGET/1.0")) 3
          (fun _ => none)).2 = [io_op.close 1] := by
  decide

/-- C9 at a concrete input: with a source on `MNT`, a second connection sends
`SOURCE pw mnt\r\nSource-Agent: src/1.0\r\n\r\n` and gets the bad-mountpoint
reply before it is closed. -/
theorem C9_duplicate_source_rejected_witness :
    (deliver (run caster_init_config source_then_pending) (new_agent 1 [] 0 2)
        (source_request (bytes "pw") (bytes "mnt") (bytes "src/1.0")) 3 (fun _ => none)).2 =
      [io_op.send 1 NTRIP_RESPONSE_ERROR_MOUNTP, io_op.close 1] :=
  (C9_duplicate_source_rejected caster_init_config source_then_pending (new_agent 1 [] 0 2)
    (bytes "pw") (bytes "mnt") (bytes "src/1.0") 3 (fun _ => none)
    second_agent_is_pending_after_source (by decide) (by decide) (by decide) (by decide)
    (by decide) mnt_is_held_after_source).1

/-! ## Claim C10: a client over the cap -/

set_option maxRecDepth 100000 in
theorem second_agent_is_pending_after_client :
    new_agent 1 [] 0 2 ∈
      (run one_client_config client_then_pending).agents_head NTRIP_PENDING_AGENT := by
  decide

theorem client_cap_reached :
    one_client_config.MAX_CLIENT_CNT ≤
      (run one_client_config client_then_pending).agents_cnt NTRIP_CLIENT_AGENT := by
  decide

/-- C10 (amended). In a reachable state with a non-zero CLIENT cap and a
CLIENT count greater than or equal to that cap, a PENDING agent whose read
delivers exactly a client handshake
`GET /m HTTP/1.x\r\nUser-Agent: ua\r\n\r\n` (`m` of 1 to 62 bytes without white
space or NUL, `x` a digit, `ua` without CR, LF or NUL, the request at most
1022 bytes long) with a mountpoint `m` other than `/` is sent exactly
`HTTP/1.0 403 Forbidden\r\n` (and never `ICY 200 OK\r\n`), is closed, and the
CLIENT list and the CLIENT count are left unchanged. -/
theorem C10_client_over_cap_rejected (config : ntrip_caster_config) (evs : List event)
    (a : ntrip_agent) (m : List Nat) (x : Nat) (ua : List Nat) (now : ℚ)
    (sr : Nat → Option Nat)
    (ha : a ∈ (run config evs).agents_head NTRIP_PENDING_AGENT)
    (hm : is_token 62 m) (hslash : m ≠ bytes "/") (hx : 48 ≤ x ∧ x ≤ 57)
    (hua : ∀ b ∈ ua, b ≠ 13 ∧ b ≠ 10 ∧ b ≠ 0)
    (hlen : (client_request m x ua).length ≤ 1022)
    (hcap : config.MAX_CLIENT_CNT ≠ 0)
    (hfull : config.MAX_CLIENT_CNT ≤ (run config evs).agents_cnt NTRIP_CLIENT_AGENT) :
    (deliver (run config evs) a (client_request m x ua) now sr).2 =
        [io_op.send a.socket NTRIP_RESPONSE_FORBIDDEN, io_op.close a.socket] ∧
      io_op.send a.socket NTRIP_RESPONSE_OK ∉
        (deliver (run config evs) a (client_request m x ua) now sr).2 ∧
      (deliver (run config evs) a (client_request m x ua) now sr).1.agents_head
          NTRIP_PENDING_AGENT =
        ((run config evs).agents_head NTRIP_PENDING_AGENT).erase a ∧
      a ∉ (deliver (run config evs) a (client_request m x ua) now sr).1.agents_head
          NTRIP_PENDING_AGENT ∧
      (deliver (run config evs) a (client_request m x ua) now sr).1.agents_head
          NTRIP_CLIENT_AGENT =
        (run config evs).agents_head NTRIP_CLIENT_AGENT ∧
      (deliver (run config evs) a (client_request m x ua) now sr).1.agents_cnt
          NTRIP_CLIENT_AGENT =
        (run config evs).agents_cnt NTRIP_CLIENT_AGENT := by
  have hI := Inv.of_run config evs
  have hc := run_config config evs
  have hurl : is_token 63 (47 :: m) := by
    refine ⟨by simp, by simpa using hm.2.1, ?_⟩
    intro b hb
    rcases List.mem_cons.1 hb with h | h
    · subst h
      exact ⟨by decide, by decide⟩
    · exact hm.2.2 b h
  have hproto : is_token 63 (bytes "HTTP/1" ++ [46, x]) := by
    rw [lit_HTTP1]
    refine ⟨by simp, by simp, ?_⟩
    intro b hb
    simp only [List.cons_append, List.nil_append, List.mem_cons, List.mem_singleton,
      List.not_mem_nil, or_false] at hb
    have hxs : isspace x = false := by
      simp only [isspace, Bool.or_eq_false_iff, beq_eq_false_iff_ne, Bool.and_eq_false_iff,
        decide_eq_false_iff_not]
      omega
    rcases hb with h | h | h | h | h | h | h | h <;> subst h
    all_goals first
      | exact ⟨by decide, by decide⟩
      | exact ⟨hxs, by omega⟩
  have hhttp : (bytes "HTTP/1" ++ [46, x]).take 6 = bytes "HTTP/1" := by
    rw [lit_HTTP1]
    rfl
  have hmnt : client_mountpoint (47 :: m) = m := client_mountpoint_slash m (by omega)
  obtain ⟨a', -, -, -, hstep⟩ := step_get_request hI a ha (47 :: m)
    (bytes "HTTP/1" ++ [46, x]) ua hurl hproto hhttp (fun b hb => (hua b hb).2.2)
    (by rw [← client_request_eq]; omega) now sr
  have hover : (run config evs).config.MAX_CLIENT_CNT > 0 ∧
      (run config evs).config.MAX_CLIENT_CNT ≤ (run config evs).cnt_client := by
    rw [hc]
    exact ⟨Nat.pos_of_ne_zero hcap, hfull⟩
  rw [hmnt] at hstep
  rw [if_neg (by simp [hm.1, hslash]), if_pos hover] at hstep
  have hok : NTRIP_RESPONSE_OK ≠ NTRIP_RESPONSE_FORBIDDEN := by decide
  unfold deliver
  rw [client_request_eq, hstep, close_pending_eq hI a ha]
  refine ⟨rfl, ?_, rfl, not_mem_erase_pending hI a, rfl, rfl⟩
  simp [hok]

set_option maxRecDepth 100000 in
/-- C10 fails as stated for the mountpoint `/`: with the CLIENT cap of one
reached, a second connection sends `GET // HTTP/1.1\r\nUser-Agent: c/1.0\r\n\r\n`;
the mountpoint derived is `/`, which is not empty, and the connection is closed
as a source-table request without the 403 reply. -/
theorem C10_counterexample_slash_mountpoint :
    new_agent 1 [] 0 2 ∈
        (run one_client_config client_then_pending).agents_head NTRIP_PENDING_AGENT ∧
      one_client_config.MAX_CLIENT_CNT ≠ 0 ∧
      one_client_config.MAX_CLIENT_CNT ≤
        (run one_client_config client_then_pending).agents_cnt NTRIP_CLIENT_AGENT ∧
      client_mountpoint (bytes "//") = bytes "/" ∧ bytes "/" ≠ [] ∧
      (deliver (run one_client_config client_then_pending) (new_agent 1 [] 0 2)
          (client_request (bytes "/") 49 (bytes "c/1.0")) 3 (fun _ => none)).2 =
        [io_op.close 1] := by
  decide

/-- C10 at a concrete input: with the CLIENT cap of one reached, a second
connection sends `GET /MNT HTTP/1.1\r\nUser-Agent: c/1.0\r\n\r\n` and gets the
403 reply before it is closed. -/
theorem C10_client_over_cap_rejected_witness :
    (deliver (run one_client_config client_then_pending) (new_agent 1 [] 0 2)
        (client_request (bytes "MNT") 49 (bytes "c/1.0")) 3 (fun _ => none)).2 =
      [io_op.send 1 NTRIP_RESPONSE_FORBIDDEN, io_op.close 1] :=
  (C10_client_over_cap_rejected one_client_config client_then_pending (new_agent 1 [] 0 2)
    (bytes "MNT") 49 (bytes "c/1.0") 3 (fun _ => none)
    second_agent_is_pending_after_client (by decide) (by decide) (by decide) (by decide)
    (by decide) (by decide) client_cap_reached).1

/-! ## Reads on classified agents -/

theorem socket_unique {c : ntrip_caster} (hI : Inv c) {a b : ntrip_agent} (ha : a ∈ c.all)
    (hb : b ∈ c.all) (h : a.socket = b.socket) : a = b :=
  List.inj_on_of_nodup_map hI.nodup ha hb h

theorem mem_all_pending {c : ntrip_caster} {a : ntrip_agent} (h : a ∈ c.head_pending) :
    a ∈ c.all := by
  simp [ntrip_caster.all, h]

theorem mem_all_source {c : ntrip_caster} {a : ntrip_agent} (h : a ∈ c.head_source) :
    a ∈ c.all := by
  simp [ntrip_caster.all, h]

theorem mem_all_client {c : ntrip_caster} {a : ntrip_agent} (h : a ∈ c.head_client) :
    a ∈ c.all := by
  simp [ntrip_caster.all, h]

theorem map_touch_absent (l : List ntrip_agent) (socket : Nat) (now : ℚ)
    (h : ∀ x ∈ l, x.socket ≠ socket) :
    l.map (fun x => if x.socket = socket then { x with last_activity := now } else x) = l := by
  induction l with
  | nil => rfl
  | cons y ys ih =>
    have hy : y.socket ≠ socket := h y (List.mem_cons_self _ _)
    rw [List.map_cons, if_neg hy, ih (fun x hx => h x (List.mem_cons_of_mem _ hx))]

/-- The store of `last_activity` through a source changes the SOURCE list
only. -/
theorem set_last_activity_source {s : ntrip_caster} (hI : Inv s) (S : ntrip_agent)
    (hS : S ∈ s.head_source) (now : ℚ) :
    set_last_activity s S.socket now =
      { s with head_source := s.head_source.map (fun x =>
          if x.socket = S.socket then { x with last_activity := now } else x) } := by
  have hp : ∀ x ∈ s.head_pending, x.socket ≠ S.socket := by
    intro x hx h
    have := socket_unique hI (mem_all_pending hx) (mem_all_source hS) h
    have h0 := (hI.typed0 x hx).1
    have h1 := hI.typed1 S hS
    rw [this] at h0
    omega
  have hc : ∀ x ∈ s.head_client, x.socket ≠ S.socket := by
    intro x hx h
    have := socket_unique hI (mem_all_client hx) (mem_all_source hS) h
    have h2 := hI.typed2 x hx
    have h1 := hI.typed1 S hS
    rw [this] at h2
    omega
  unfold set_last_activity
  dsimp only
  rw [map_touch_absent _ _ _ hp, map_touch_absent _ _ _ hc]

/-- The store of `last_activity` through a client changes the CLIENT list
only. -/
theorem set_last_activity_client {s : ntrip_caster} (hI : Inv s) (C : ntrip_agent)
    (hC : C ∈ s.head_client) (now : ℚ) :
    set_last_activity s C.socket now =
      { s with head_client := s.head_client.map (fun x =>
          if x.socket = C.socket then { x with last_activity := now } else x) } := by
  have hp : ∀ x ∈ s.head_pending, x.socket ≠ C.socket := by
    intro x hx h
    have := socket_unique hI (mem_all_pending hx) (mem_all_client hC) h
    have h0 := (hI.typed0 x hx).1
    have h2 := hI.typed2 C hC
    rw [this] at h0
    omega
  have hs : ∀ x ∈ s.head_source, x.socket ≠ C.socket := by
    intro x hx h
    have := socket_unique hI (mem_all_source hx) (mem_all_client hC) h
    have h1 := hI.typed1 x hx
    have h2 := hI.typed2 C hC
    rw [this] at h1
    omega
  unfold set_last_activity
  dsimp only
  rw [map_touch_absent _ _ _ hp, map_touch_absent _ _ _ hs]

/-- The writes of the fan-out loop: one per matching client, in list order,
each with the whole buffer. -/
theorem fanout_snd (m buf : List Nat) (now : ℚ) (sr : Nat → Option Nat)
    (l : List ntrip_agent) :
    (fanout m buf now sr l).2 =
      (l.filter (fun x => decide (strcasecmp m x.mountpoint = 0))).map
        (fun x => io_op.send x.socket buf) := by
  induction l with
  | nil => rfl
  | cons x xs ih =>
    by_cases h1 : strcasecmp m x.mountpoint = 0
    · simp [fanout, h1, ih]
    · simp [fanout, h1, ih]

/-- A successful read on a source: the state and the writes that result. -/
theorem deliver_source {s : ntrip_caster} (hI : Inv s) (S : ntrip_agent)
    (hS : S ∈ s.head_source) (b : List Nat) (hb : b ≠ []) (now : ℚ)
    (sr : Nat → Option Nat) :
    deliver s S b now sr =
      ({ s with
          head_source := s.head_source.map (fun x =>
            if x.socket = S.socket then { x with last_activity := now } else x)
          head_client := s.head_client.map (fun x =>
            if strcasecmp S.mountpoint x.mountpoint = 0 ∧ (sr x.socket).isSome = true
            then { x with last_activity := now } else x) },
        (s.head_client.filter (fun x => decide (strcasecmp S.mountpoint x.mountpoint = 0))).map
          (fun x => io_op.send x.socket (b.take 511))) := by
  have hty := hI.typed1 S hS
  have hlen : (List.take (512 - 1) b).length ≠ 0 := by
    cases b with
    | nil => exact absurd rfl hb
    | cons y ys => simp
  have hcb : agent_read_cb s S (.data b) now sr = source_read s S (.data b) now sr := by
    unfold agent_read_cb
    rw [hty]
    rfl
  simp only [deliver, step, find_agent_of_mem hI (mem_all_source hS)]
  rw [hcb]
  unfold source_read
  dsimp only
  rw [if_neg hlen, set_last_activity_source hI S hS now]
  simp only [ntrip_caster.agents_head, ntrip_caster.set_head, fanout_fst, fanout_snd]

/-- A successful read on a client: the state that results, and no socket
operation. -/
theorem deliver_client {s : ntrip_caster} (hI : Inv s) (C : ntrip_agent)
    (hC : C ∈ s.head_client) (b : List Nat) (hb : b ≠ []) (now : ℚ)
    (sr : Nat → Option Nat) :
    deliver s C b now sr =
      ({ s with
          head_client := s.head_client.map (fun x =>
            if x.socket = C.socket then { x with last_activity := now } else x) }, []) := by
  have hty := hI.typed2 C hC
  have hlen : (List.take (512 - 1) b).length ≠ 0 := by
    cases b with
    | nil => exact absurd rfl hb
    | cons y ys => simp
  have hcb : agent_read_cb s C (.data b) now sr = client_read s C (.data b) now := by
    unfold agent_read_cb
    rw [hty]
    rfl
  simp only [deliver, step, find_agent_of_mem hI (mem_all_client hC)]
  rw [hcb]
  unfold client_read
  dsimp only
  rw [if_neg hlen, set_last_activity_client hI C hC now]

set_option maxRecDepth 100000 in
theorem relay_client_linked :
    relay_client ∈ (run caster_init_config source_and_client).agents_head NTRIP_CLIENT_AGENT := by
  decide

/-! ## Claim C11: the writes of the fan-out -/

/-- C15. In a reachable state, a successful read on a SOURCE agent (whatever
client writes fail) and a successful read on a CLIENT agent leave the three
lists with the same agents in the same order, the three counters, and the
socket, type, mountpoint and every other field of every agent but
`last_activity` unchanged: `last_activity` is set to the clock of the event at
the reading agent and, for a source read, at exactly the clients whose
mountpoint matches and whose write did not fail. -/
theorem C15_read_touches_last_activity_only (config : ntrip_caster_config)
    (evs : List event) (a : ntrip_agent) (b : List Nat) (now : ℚ) (sr : Nat → Option Nat)
    (hb : b ≠ []) :
    (a ∈ (run config evs).agents_head NTRIP_SOURCE_AGENT →
        (deliver (run config evs) a b now sr).1 =
          { run config evs with
            head_source := (run config evs).head_source.map (fun x =>
              if x.socket = a.socket then { x with last_activity := now } else x)
            head_client := (run config evs).head_client.map (fun x =>
              if strcasecmp a.mountpoint x.mountpoint = 0 ∧ (sr x.socket).isSome = true
              then { x with last_activity := now } else x) }) ∧
      (a ∈ (run config evs).agents_head NTRIP_CLIENT_AGENT →
        deliver (run config evs) a b now sr =
          ({ run config evs with
            head_client := (run config evs).head_client.map (fun x =>
              if x.socket = a.socket then { x with last_activity := now } else x) }, [])) := by
  have hI := Inv.of_run config evs
  constructor
  · intro ha
    rw [deliver_source hI a ha b hb now sr]
  · intro ha
    rw [deliver_client hI a ha b hb now sr]

set_option maxRecDepth 100000 in
/-- C15 at a concrete input: with a source and a client on `MNT`, a read of
`ABC` from the client leaves the SOURCE list as it was. -/
theorem C15_read_touches_last_activity_only_witness :
    (deliver (run caster_init_config source_and_client) relay_client (bytes "ABC") 4
        (fun _ => none)).1.agents_head NTRIP_SOURCE_AGENT =
      (run caster_init_config source_and_client).agents_head NTRIP_SOURCE_AGENT := by
  rw [(C15_read_touches_last_activity_only caster_init_config source_and_client relay_client
    (bytes "ABC") 4 (fun _ => none) (by decide)).2 relay_client_linked]
  rfl

/-! ## The sweeper -/

theorem close_agent_other (c : ntrip_caster) (a : ntrip_agent) (t : Nat) (ht : t ≠ a.type) :
    (close_agent c a).1.agents_head t = c.agents_head t := by
  unfold close_agent
  revert ht
  generalize a.type = u
  intro ht
  match t, u, ht with
  | 0, 0, h => exact absurd rfl h
  | 1, 1, h => exact absurd rfl h
  | 2, 2, h => exact absurd rfl h
  | 0, 1, _ => rfl
  | 0, 2, _ => rfl
  | 1, 0, _ => rfl
  | 1, 2, _ => rfl
  | 2, 0, _ => rfl
  | 2, 1, _ => rfl
  | 0, _ + 3, _ => rfl
  | 1, _ + 3, _ => rfl
  | 2, _ + 3, _ => rfl
  | _ + 3, _, _ => rfl

/-- One pass of the sweeper over the tail `l` of list `t`: the agents of `l`
that are not idle stay, in order, after the part of the list already walked;
the other lists are not touched. -/
theorem sweep_spec (now : ℚ) (t : Nat) (l : List ntrip_agent) :
    ∀ (kept : List ntrip_agent) (c : ntrip_caster), Inv c → c.agents_head t = kept ++ l →
      (sweep now l c).1.agents_head t = kept ++ l.filter (fun a => !idle now a) ∧
      (∀ u, u ≠ t → (sweep now l c).1.agents_head u = c.agents_head u) ∧
      (sweep now l c).2 = (l.filter (idle now)).map (fun a => io_op.close a.socket) := by
  induction l with
  | nil =>
    intro kept c _ h
    exact ⟨by simpa [sweep] using h, fun _ _ => rfl, rfl⟩
  | cons a rest ih =>
    intro kept c hI h
    have ha : a ∈ c.agents_head t := by rw [h]; simp
    have hty : a.type = t := typed_head hI ha
    have hnd : (kept ++ a :: rest).Nodup := by
      rw [← h]
      exact List.Nodup.of_map _ (head_sockets_nodup hI t)
    have hnk : a ∉ kept := by
      intro hk
      have := (List.nodup_append.1 hnd).2.2
      exact this hk (List.mem_cons_self _ _)
    unfold sweep
    by_cases hid : double_sub now a.last_activity ≥ 5
    · rw [if_pos hid]
      have hI' : Inv (close_agent c a).1 := hI.close a a (by rw [hty]; exact ha) rfl
      have h1 := close_agent_head c a
      rw [hty, remove_eq_erase _ a ha (head_sockets_nodup hI t), h,
        List.erase_append_right _ hnk, List.erase_cons_head] at h1
      obtain ⟨e1, e2, e3⟩ := ih kept _ hI' h1
      have hidle : idle now a = true := by simp [idle, hid]
      refine ⟨?_, ?_, ?_⟩
      · dsimp only
        rw [e1, List.filter_cons]
        simp [hidle]
      · intro u hu
        dsimp only
        rw [e2 u hu]
        exact close_agent_other c a u (by rw [hty]; exact hu)
      · dsimp only
        rw [e3, List.filter_cons, if_pos hidle]
        rfl
    · rw [if_neg hid]
      have hidle : idle now a = false := by simp [idle, hid]
      obtain ⟨e1, e2, e3⟩ := ih (kept ++ [a]) c hI (by rw [h]; simp)
      refine ⟨?_, e2, ?_⟩
      · rw [e1, List.filter_cons]
        simp [hidle]
      · rw [e3, List.filter_cons]
        simp [hidle]

theorem filter_idle_length (now : ℚ) (l : List ntrip_agent) :
    (l.filter (fun a => !idle now a)).length + (l.filter (idle now)).length = l.length := by
  induction l with
  | nil => rfl
  | cons a rest ih =>
    rw [List.filter_cons, List.filter_cons]
    cases h : idle now a <;> simp <;> omega

/-- What a sweeper tick leaves: in each list the agents that are not idle, in
their order; and a close of every idle agent's socket, list by list. -/
theorem timeout_spec {c : ntrip_caster} (hI : Inv c) (now : ℚ) :
    (∀ t, (caster_timeout_cb c now).1.agents_head t =
        (c.agents_head t).filter (fun a => !idle now a)) ∧
      (caster_timeout_cb c now).2 =
        ((c.agents_head 0).filter (idle now)).map (fun a => io_op.close a.socket) ++
        ((c.agents_head 1).filter (idle now)).map (fun a => io_op.close a.socket) ++
        ((c.agents_head 2).filter (idle now)).map (fun a => io_op.close a.socket) := by
  unfold caster_timeout_cb
  have hI0 := Inv.of_sweep now 0 _ c hI (List.Sublist.refl _)
  have hI1 := Inv.of_sweep now 1 _ _ hI0 (List.Sublist.refl _)
  obtain ⟨a1, a2, a3⟩ := sweep_spec now 0 (c.agents_head 0) [] c hI rfl
  obtain ⟨b1, b2, b3⟩ := sweep_spec now 1 ((sweep now (c.agents_head 0) c).1.agents_head 1) []
    _ hI0 rfl
  obtain ⟨c1, c2, c3⟩ := sweep_spec now 2
    ((sweep now ((sweep now (c.agents_head 0) c).1.agents_head 1)
      (sweep now (c.agents_head 0) c).1).1.agents_head 2) [] _ hI1 rfl
  dsimp only
  constructor
  · intro t
    match t with
    | 0 => rw [c2 0 (by decide), b2 0 (by decide), a1]; rfl
    | 1 => rw [c2 1 (by decide), b1, a2 1 (by decide)]; rfl
    | 2 => rw [c1, b2 2 (by decide), a2 2 (by decide)]; rfl
    | _ + 3 =>
      rw [c2 _ (by omega), b2 _ (by omega), a2 _ (by omega)]
      rfl
  · rw [c3, b3, a3, b2 2 (by decide), a2 2 (by decide), a2 1 (by decide)]

theorem cnt_eq_length {c : ntrip_caster} (hI : Inv c) (t : Nat) :
    c.agents_cnt t = (c.agents_head t).length := by
  match t with
  | 0 => exact hI.cnt0
  | 1 => exact hI.cnt1
  | 2 => exact hI.cnt2
  | _ + 3 => rfl

/-! ## Rounding of a difference of doubles -/

theorem floor_le_round_half_even (x : ℚ) : ⌊x⌋ ≤ round_half_even x := by
  unfold round_half_even
  split
  · exact le_refl _
  · split
    · omega
    · split <;> omega

theorem round_half_even_le_succ (x : ℚ) : round_half_even x ≤ ⌊x⌋ + 1 := by
  unfold round_half_even
  split
  · omega
  · split
    · omega
    · split <;> omega

theorem le_round_half_even (x : ℚ) (n : ℤ) (h : (n : ℚ) ≤ x) : n ≤ round_half_even x :=
  (Int.le_floor.2 h).trans (floor_le_round_half_even x)

theorem round_half_even_le (x : ℚ) (n : ℤ) (h : x ≤ (n : ℚ)) : round_half_even x ≤ n := by
  by_cases hf : ⌊x⌋ = n
  · have hx : x = n := le_antisymm h (by rw [← hf]; exact Int.floor_le x)
    unfold round_half_even
    rw [hx]
    simp
  · have h1 : ⌊x⌋ ≤ n := by
      have := Int.floor_le x
      exact_mod_cast (this.trans h : (⌊x⌋ : ℚ) ≤ n)
    have := round_half_even_le_succ x
    omega

/-- Below the midpoint under `n`, rounding stays under `n`. -/
theorem round_half_even_lt (x : ℚ) (n : ℤ) (h : x < (n : ℚ) - 1 / 2) :
    round_half_even x ≤ n - 1 := by
  have h1 : ⌊x⌋ ≤ n - 1 := by
    have h2 : ⌊x⌋ < n := by
      rw [Int.floor_lt]
      linarith
    omega
  by_cases hf : ⌊x⌋ = n - 1
  · unfold round_half_even
    have : x - ⌊x⌋ < 1 / 2 := by
      rw [hf]
      push_cast
      linarith
    rw [if_pos this, hf]
  · have := round_half_even_le_succ x
    omega

/-- From the midpoint under an even `n` on, rounding reaches `n`. -/
theorem round_half_even_ge (x : ℚ) (n : ℤ) (hn : n % 2 = 0) (h : (n : ℚ) - 1 / 2 ≤ x) :
    n ≤ round_half_even x := by
  by_cases hx : (n : ℚ) ≤ x
  · exact le_round_half_even x n hx
  · have hx' : x < n := not_le.1 hx
    have hf : ⌊x⌋ = n - 1 := by
      rw [Int.floor_eq_iff]
      push_cast
      constructor <;> linarith
    unfold round_half_even
    rw [hf]
    have h1 : ¬ (x - ((n - 1 : ℤ) : ℚ) < 1 / 2) := by
      push_cast
      linarith
    rw [if_neg h1]
    split
    · omega
    · rw [if_neg (by omega)]
      omega

theorem scaled_bounds (x : ℚ) (hx : 0 < x) :
    (2 : ℚ) ^ (52 : ℕ) ≤ x / 2 ^ (Int.log 2 x - 52) ∧
      x / 2 ^ (Int.log 2 x - 52) < (2 : ℚ) ^ (53 : ℕ) := by
  have h1 := Int.zpow_log_le_self (b := 2) (by norm_num) hx
  have h2 := Int.lt_zpow_succ_log_self (b := 2) (by norm_num) x
  have hp : (0 : ℚ) < 2 ^ (Int.log 2 x - 52) := by positivity
  have e1 : (2 : ℚ) ^ (Int.log 2 x) = 2 ^ (52 : ℕ) * 2 ^ (Int.log 2 x - 52) := by
    rw [← zpow_natCast, ← zpow_add₀ (by norm_num)]
    congr 1
    omega
  have e2 : (2 : ℚ) ^ (Int.log 2 x + 1) = 2 ^ (53 : ℕ) * 2 ^ (Int.log 2 x - 52) := by
    rw [← zpow_natCast, ← zpow_add₀ (by norm_num)]
    congr 1
    omega
  push_cast at h1 h2
  constructor
  · rw [le_div_iff₀ hp, ← e1]
    exact h1
  · rw [div_lt_iff₀ hp, ← e2]
    exact h2

theorem double_round_nonpos (x : ℚ) (hx : x ≤ 0) : double_round x ≤ 0 := by
  unfold double_round
  split
  · exact le_refl _
  · have hp : (0 : ℚ) < 2 ^ (Int.log 2 |x| - 52) := by positivity
    have hy : x / 2 ^ (Int.log 2 |x| - 52) ≤ ((0 : ℤ) : ℚ) := by
      rw [Int.cast_zero]
      exact div_nonpos_of_nonpos_of_nonneg hx hp.le
    have := round_half_even_le _ 0 hy
    have h0 : (round_half_even (x / 2 ^ (Int.log 2 |x| - 52)) : ℚ) ≤ 0 := by exact_mod_cast this
    exact mul_nonpos_of_nonpos_of_nonneg h0 hp.le

/-- The double nearest to `x` is at least 5.0 exactly from the midpoint
between 5.0 and the double before it on. -/
theorem five_le_double_round (x : ℚ) : 5 ≤ double_round x ↔ 5 - 1 / 2 ^ 51 ≤ x := by
  by_cases hx : x ≤ 0
  · constructor
    · intro h
      have := double_round_nonpos x hx
      linarith
    · intro h
      have : (0 : ℚ) < 5 - 1 / 2 ^ 51 := by norm_num
      linarith
  · have hpos : 0 < x := not_le.1 hx
    have hne : x ≠ 0 := ne_of_gt hpos
    obtain ⟨b1, b2⟩ := scaled_bounds x hpos
    have h1 := Int.zpow_log_le_self (b := 2) (by norm_num) hpos
    have h2 := Int.lt_zpow_succ_log_self (b := 2) (by norm_num) x
    push_cast at h1 h2
    have hval : double_round x =
        round_half_even (x / 2 ^ (Int.log 2 x - 52)) * 2 ^ (Int.log 2 x - 52) := by
      unfold double_round
      rw [if_neg hne, abs_of_pos hpos]
    rw [hval]
    have hp : (0 : ℚ) < 2 ^ (Int.log 2 x - 52) := by positivity
    rcases lt_trichotomy (Int.log 2 x) 2 with hk | hk | hk
    · -- below 4
      have hle : (round_half_even (x / 2 ^ (Int.log 2 x - 52)) : ℚ) ≤ 2 ^ (53 : ℕ) := by
        have := round_half_even_le (x / 2 ^ (Int.log 2 x - 52)) (2 ^ (53 : ℕ))
          (by push_cast; exact b2.le)
        exact_mod_cast this
      have hx4 : x < 4 := by
        have : (2 : ℚ) ^ (Int.log 2 x + 1) ≤ 2 ^ (2 : ℤ) :=
          zpow_le_zpow_right₀ (by norm_num) (by omega)
        have h4 : (2 : ℚ) ^ (2 : ℤ) = 4 := by norm_num
        linarith
      have hres : (round_half_even (x / 2 ^ (Int.log 2 x - 52)) : ℚ) *
          2 ^ (Int.log 2 x - 52) ≤ 4 := by
        have e2 : (2 : ℚ) ^ (Int.log 2 x + 1) = 2 ^ (53 : ℕ) * 2 ^ (Int.log 2 x - 52) := by
          rw [← zpow_natCast, ← zpow_add₀ (by norm_num)]
          congr 1
          omega
        have : (2 : ℚ) ^ (Int.log 2 x + 1) ≤ 2 ^ (2 : ℤ) :=
          zpow_le_zpow_right₀ (by norm_num) (by omega)
        have h4 : (2 : ℚ) ^ (2 : ℤ) = 4 := by norm_num
        calc (round_half_even (x / 2 ^ (Int.log 2 x - 52)) : ℚ) * 2 ^ (Int.log 2 x - 52)
            ≤ 2 ^ (53 : ℕ) * 2 ^ (Int.log 2 x - 52) := mul_le_mul_of_nonneg_right hle hp.le
          _ = 2 ^ (Int.log 2 x + 1) := e2.symm
          _ ≤ 4 := by linarith
      constructor
      · intro h
        linarith
      · intro h
        have : (4 : ℚ) < 5 - 1 / 2 ^ 51 := by norm_num
        linarith
    · -- between 4 and 8
      rw [hk] at b1 b2 hp ⊢
      have hpow : (2 : ℚ) ^ ((2 : ℤ) - 52) = 1 / 2 ^ 50 := by norm_num
      rw [hpow] at b1 b2 hp ⊢
      constructor
      · intro h
        by_contra hlt
        have hlt' : x < 5 - 1 / 2 ^ 51 := not_le.1 hlt
        have hy : x / (1 / 2 ^ 50) < (((5 * 2 ^ 50 : ℕ) : ℤ) : ℚ) - 1 / 2 := by
          rw [div_lt_iff₀ hp]
          push_cast
          linarith
        have hr := round_half_even_lt _ _ hy
        have hr' : (round_half_even (x / (1 / 2 ^ 50)) : ℚ) ≤ 5 * 2 ^ 50 - 1 := by
          exact_mod_cast hr
        have : (round_half_even (x / (1 / 2 ^ 50)) : ℚ) * (1 / 2 ^ 50) ≤
            (5 * 2 ^ 50 - 1) * (1 / 2 ^ 50) := mul_le_mul_of_nonneg_right hr' hp.le
        have h5 : ((5 : ℚ) * 2 ^ 50 - 1) * (1 / 2 ^ 50) < 5 := by norm_num
        linarith
      · intro h
        have hy : (((5 * 2 ^ 50 : ℕ) : ℤ) : ℚ) - 1 / 2 ≤ x / (1 / 2 ^ 50) := by
          rw [le_div_iff₀ hp]
          push_cast
          linarith
        have hr := round_half_even_ge _ _ (by norm_num) hy
        have hr' : (5 * 2 ^ 50 : ℚ) ≤ round_half_even (x / (1 / 2 ^ 50)) := by
          exact_mod_cast hr
        have : (5 * 2 ^ 50 : ℚ) * (1 / 2 ^ 50) ≤
            (round_half_even (x / (1 / 2 ^ 50)) : ℚ) * (1 / 2 ^ 50) :=
          mul_le_mul_of_nonneg_right hr' hp.le
        have h5 : ((5 : ℚ) * 2 ^ 50) * (1 / 2 ^ 50) = 5 := by norm_num
        linarith
    · -- from 8 on
      have hge : (2 : ℚ) ^ (52 : ℕ) ≤ round_half_even (x / 2 ^ (Int.log 2 x - 52)) := by
        have := le_round_half_even (x / 2 ^ (Int.log 2 x - 52)) (2 ^ (52 : ℕ))
          (by push_cast; exact b1)
        exact_mod_cast this
      have e1 : (2 : ℚ) ^ (Int.log 2 x) = 2 ^ (52 : ℕ) * 2 ^ (Int.log 2 x - 52) := by
        rw [← zpow_natCast, ← zpow_add₀ (by norm_num)]
        congr 1
        omega
      have h8 : (2 : ℚ) ^ (3 : ℤ) ≤ 2 ^ (Int.log 2 x) :=
        zpow_le_zpow_right₀ (by norm_num) (by omega)
      have h8' : (2 : ℚ) ^ (3 : ℤ) = 8 := by norm_num
      have hres : (8 : ℚ) ≤ (round_half_even (x / 2 ^ (Int.log 2 x - 52)) : ℚ) *
          2 ^ (Int.log 2 x - 52) := by
        calc (8 : ℚ) = 2 ^ (3 : ℤ) := h8'.symm
          _ ≤ 2 ^ (Int.log 2 x) := h8
          _ = 2 ^ (52 : ℕ) * 2 ^ (Int.log 2 x - 52) := e1
          _ ≤ _ := mul_le_mul_of_nonneg_right hge hp.le
      constructor
      · intro _
        have : (5 : ℚ) - 1 / 2 ^ 51 ≤ 8 := by norm_num
        linarith
      · intro _
        linarith

/-- The test of the sweeper in exact terms: the difference of doubles is at
least 5.0 exactly when the exact difference is at least `5 - 2 ^ (-51)`. -/
theorem idle_iff (now : ℚ) (a : ntrip_agent) :
    idle now a = true ↔ 5 - 1 / 2 ^ 51 ≤ now - a.last_activity := by
  unfold idle double_sub
  rw [decide_eq_true_iff]
  exact five_le_double_round _

theorem not_idle_eq (now : ℚ) :
    (fun a : ntrip_agent => !idle now a) =
      (fun a : ntrip_agent => decide (double_sub now a.last_activity < 5)) := by
  funext a
  by_cases h : double_sub now a.last_activity < 5
  · simp [idle, h]
  · simp only [idle, h, decide_False, Bool.not_eq_false', decide_eq_true_eq]
    exact not_lt.1 h

theorem not_idle_eq_exact (now : ℚ) :
    (fun a : ntrip_agent => !idle now a) =
      (fun a : ntrip_agent => decide (now - a.last_activity < 5 - 1 / 2 ^ 51)) := by
  funext a
  by_cases h : now - a.last_activity < 5 - 1 / 2 ^ 51
  · have hi : idle now a = false := by
      cases hv : idle now a with
      | false => rfl
      | true => exact absurd ((idle_iff now a).1 hv) (not_le.2 h)
    rw [hi]
    exact (decide_eq_true h).symm
  · rw [(idle_iff now a).2 (not_lt.1 h)]
    exact (decide_eq_false h).symm

theorem idle_eq (now : ℚ) :
    idle now = (fun a : ntrip_agent => decide (double_sub now a.last_activity ≥ 5)) := rfl

/-! ## Claim C12: the sweeper tick -/

/-- C12 fails as stated. A connection is accepted at clock `0.1` (the double)
and the sweeper ticks at clock `5.1` (the double). The exact difference of the
two doubles is `5 - 13 / 2 ^ 55`, below 5, so by the claim the agent stays; the
difference of doubles the code computes rounds to `5.0`, the test
`now - agent->last_activity >= 5.0` holds, and the agent is closed. -/
theorem C12_counterexample_rounded_difference :
    new_agent 0 [] 0 double_0_1 ∈
        (run caster_init_config [.accept false true true [] 0 double_0_1]).agents_head
          NTRIP_PENDING_AGENT ∧
      double_5_1 - (new_agent 0 [] 0 double_0_1).last_activity < 5 ∧
      double_sub double_5_1 (new_agent 0 [] 0 double_0_1).last_activity = 5 ∧
      (caster_timeout_cb (run caster_init_config [.accept false true true [] 0 double_0_1])
        double_5_1).1.agents_head NTRIP_PENDING_AGENT = [] ∧
      (caster_timeout_cb (run caster_init_config [.accept false true true [] 0 double_0_1])
        double_5_1).2 = [io_op.close 0] := by
  have hx : double_5_1 - double_0_1 = 5 - 13 / 2 ^ 55 := by
    unfold double_5_1 double_0_1
    norm_num
  have hlog : Int.log 2 |(5 - 13 / 2 ^ 55 : ℚ)| = 2 := by
    have hpos : (0 : ℚ) < 5 - 13 / 2 ^ 55 := by norm_num
    rw [abs_of_pos hpos]
    apply le_antisymm
    · have := (Int.lt_zpow_iff_log_lt (b := 2) (by norm_num) hpos).1
        (show (5 - 13 / 2 ^ 55 : ℚ) < ((2 : ℕ) : ℚ) ^ (3 : ℤ) by norm_num)
      omega
    · exact (Int.zpow_le_iff_le_log (b := 2) (by norm_num) hpos).1
        (show ((2 : ℕ) : ℚ) ^ (2 : ℤ) ≤ (5 - 13 / 2 ^ 55 : ℚ) by norm_num)
  have hfl : ⌊((5 - 13 / 2 ^ 55 : ℚ)) / 2 ^ ((2 : ℤ) - 52)⌋ = 5 * 2 ^ 50 - 1 := by
    rw [Int.floor_eq_iff]
    constructor <;> norm_num
  have hsub : double_sub double_5_1 double_0_1 = 5 := by
    unfold double_sub double_round
    rw [hx, if_neg (by norm_num), hlog]
    unfold round_half_even
    rw [hfl]
    norm_num
  have hidle : idle double_5_1 (new_agent 0 [] 0 double_0_1) = true := by
    unfold idle
    rw [decide_eq_true_iff]
    exact le_of_eq hsub.symm
  have hsp := timeout_spec
    (Inv.of_run caster_init_config [.accept false true true [] 0 double_0_1]) double_5_1
  rw [run_first_accept [] 0 double_0_1] at hsp ⊢
  refine ⟨by simp [ntrip_caster.agents_head], ?_, hsub, ?_, ?_⟩
  · show double_5_1 - double_0_1 < 5
    rw [hx]
    norm_num
  · rw [hsp.1 0]
    simp [ntrip_caster.agents_head, hidle]
  · rw [hsp.2]
    simp only [ntrip_caster.agents_head, List.filter_cons, hidle, List.filter_nil, if_true,
      List.map, List.append_nil]
    rfl

/-- C12 (amended). For every well-formed caster state (every reachable state
is one) and every sweeper tick at clock `now`: each of the three lists
afterwards holds exactly the agents it held before for which the difference
`now - last_activity`, computed on doubles as the code does, is below 5, in
their original order; these are the agents whose exact difference is below
`5 - 2 ^ (-51)`; every agent with `now - last_activity >= 5` is gone from its
list; and each counter has gone down by the number of agents removed from its
list. -/
theorem C12_sweeper_removes_idle_agents (s : ntrip_caster) (hI : Inv s) (now : ℚ) :
    (∀ t, (caster_timeout_cb s now).1.agents_head t =
        (s.agents_head t).filter (fun a => decide (double_sub now a.last_activity < 5))) ∧
      (∀ t, (caster_timeout_cb s now).1.agents_head t =
        (s.agents_head t).filter
          (fun a => decide (now - a.last_activity < 5 - 1 / 2 ^ 51))) ∧
      (∀ t, ∀ a ∈ s.agents_head t, now - a.last_activity ≥ 5 →
        a ∉ (caster_timeout_cb s now).1.agents_head t) ∧
      (∀ t, (caster_timeout_cb s now).1.agents_cnt t +
          ((s.agents_head t).filter
            (fun a => decide (double_sub now a.last_activity ≥ 5))).length =
        s.agents_cnt t) := by
  have hsp := (timeout_spec hI now).1
  have hI' := Inv.of_timeout hI now
  refine ⟨?_, ?_, ?_, ?_⟩
  · intro t
    rw [hsp t, not_idle_eq]
  · intro t
    rw [hsp t, not_idle_eq_exact]
  · intro t a _ hid hin
    rw [hsp t, List.mem_filter] at hin
    have hi : idle now a = true := by
      rw [idle_iff]
      have : (0 : ℚ) ≤ 1 / 2 ^ 51 := by positivity
      linarith
    simp [hi] at hin
  · intro t
    rw [cnt_eq_length hI' t, cnt_eq_length hI t, hsp t, ← idle_eq]
    exact filter_idle_length now (s.agents_head t)

theorem relay_lists :
    (run caster_init_config source_and_client).agents_head 1 = [relay_source] ∧
      (run caster_init_config source_and_client).agents_head 2 = [relay_client] ∧
      relay_source.last_activity = 1 ∧ relay_client.last_activity = 3 := by
  set_option maxRecDepth 100000 in decide

/-- C12 (amended) at a concrete input: with a source last active at clock 1
and a client last active at clock 3, the tick at clock 6 removes the source
and keeps the client. -/
theorem C12_sweeper_removes_idle_agents_witness :
    (caster_timeout_cb (run caster_init_config source_and_client) 6).1.agents_head 1 = [] ∧
      (caster_timeout_cb (run caster_init_config source_and_client) 6).1.agents_head 2 =
        [relay_client] := by
  have h := (C12_sweeper_removes_idle_agents (run caster_init_config source_and_client)
    (Inv.of_run caster_init_config source_and_client) 6).2.1
  obtain ⟨e1, e2, e3, e4⟩ := relay_lists
  rw [h 1, h 2, e1, e2]
  constructor
  · rw [List.filter_cons, e3]
    norm_num
  · rw [List.filter_cons, e4]
    norm_num

/-! ## How one event changes the agents -/

theorem run_snoc (config : ntrip_caster_config) (evs : List event) (e : event) :
    run config (evs ++ [e]) = (step (run config evs) e).1 := by
  simp [run, List.foldl_append]

theorem mem_all_of_head {c : ntrip_caster} {t : Nat} {x : ntrip_agent}
    (h : x ∈ c.agents_head t) : x ∈ c.all :=
  (head_sublist_all c t).subset h

theorem exists_head_of_mem_all {c : ntrip_caster} {x : ntrip_agent} (h : x ∈ c.all) :
    ∃ t, x ∈ c.agents_head t := by
  simp only [ntrip_caster.all, List.mem_append] at h
  rcases h with (h | h) | h
  · exact ⟨0, h⟩
  · exact ⟨1, h⟩
  · exact ⟨2, h⟩

theorem close_all_subset (c : ntrip_caster) (a : ntrip_agent) :
    ∀ x ∈ (close_agent c a).1.all, x ∈ c.all := by
  intro x hx
  obtain ⟨t, ht⟩ := exists_head_of_mem_all hx
  by_cases h : t = a.type
  · subst h
    rw [close_agent_head] at ht
    exact mem_all_of_head ((remove_sublist _ a).subset ht)
  · rw [close_agent_other c a t h] at ht
    exact mem_all_of_head ht

theorem descends_of_subset (now : ℚ) {c c' : ntrip_caster}
    (h : ∀ x ∈ c'.all, x ∈ c.all) : Descends now c c' := by
  intro a' ha'
  exact Or.inl ⟨a', h a' ha', rfl, Or.inl rfl, fun _ => ⟨rfl, rfl⟩, Or.inl rfl⟩

theorem descends_close (now : ℚ) (c : ntrip_caster) (a : ntrip_agent) :
    Descends now c (close_agent c a).1 :=
  descends_of_subset now (close_all_subset c a)

/-- A handshake on the agent `a` ends with `a` closed or with `a`, some fields
of it filled in but not `last_activity`, moved to the client list. -/
theorem client_handshake_state (c : ntrip_caster) (a : ntrip_agent) (p : List Nat) :
    (client_handshake c a p).1 = (close_agent c a).1 ∨
      ∃ a' : ntrip_agent, a'.socket = a.socket ∧ a'.type = a.type ∧
        a'.last_activity = a.last_activity ∧
        (client_handshake c a p).1 = move_agent c a' NTRIP_CLIENT_AGENT := by
  have hcl : ∀ a' : ntrip_agent, a'.socket = a.socket → a'.type = a.type →
      (close_agent c a').1 = (close_agent c a).1 :=
    fun a' h1 h2 => congrArg Prod.fst (close_agent_congr c a a' h1 h2)
  unfold client_handshake
  split
  · exact Or.inl rfl
  · split
    · exact Or.inl rfl
    · split
      · exact Or.inl rfl
      · dsimp only
        split
        · exact Or.inl (hcl _ rfl rfl)
        · split
          · exact Or.inl (hcl _ rfl rfl)
          · split
            · exact Or.inl (hcl _ rfl rfl)
            · dsimp only
              refine Or.inr ⟨_, ?_, ?_, ?_, rfl⟩ <;> rfl

theorem source_handshake_state (c : ntrip_caster) (a : ntrip_agent) (p : List Nat) :
    (source_handshake c a p).1 = (close_agent c a).1 ∨
      ∃ a' : ntrip_agent, a'.socket = a.socket ∧ a'.type = a.type ∧
        a'.last_activity = a.last_activity ∧
        (source_handshake c a p).1 = move_agent c a' NTRIP_SOURCE_AGENT := by
  have hcl : ∀ a' : ntrip_agent, a'.socket = a.socket → a'.type = a.type →
      (close_agent c a').1 = (close_agent c a).1 :=
    fun a' h1 h2 => congrArg Prod.fst (close_agent_congr c a a' h1 h2)
  unfold source_handshake
  split
  · exact Or.inl rfl
  · split
    · exact Or.inl rfl
    · split
      · exact Or.inl rfl
      · dsimp only
        split
        · exact Or.inl (hcl _ rfl rfl)
        · split
          · exact Or.inl (hcl _ rfl rfl)
          · split
            · exact Or.inl (hcl _ rfl rfl)
            · split
              · exact Or.inl (hcl _ rfl rfl)
              · dsimp only
                refine Or.inr ⟨_, ?_, ?_, ?_, rfl⟩ <;> rfl

/-- A read on the pending agent `a` leaves the caster as it was, or closes `a`,
or moves `a`, stamped with the clock of the read, to the client or the source
list. -/
theorem pending_read_state (c : ntrip_caster) (a : ntrip_agent) (r : recv_result) (now : ℚ) :
    (pending_read c a r now).1 = c ∨ (pending_read c a r now).1 = (close_agent c a).1 ∨
      ∃ (a' : ntrip_agent) (t : Nat), (t = NTRIP_SOURCE_AGENT ∨ t = NTRIP_CLIENT_AGENT) ∧
        a'.socket = a.socket ∧ a'.type = a.type ∧ a'.last_activity = now ∧
        (pending_read c a r now).1 = move_agent c a' t := by
  have hcl : ∀ a' : ntrip_agent, a'.socket = a.socket → a'.type = a.type →
      (close_agent c a').1 = (close_agent c a).1 :=
    fun a' h1 h2 => congrArg Prod.fst (close_agent_congr c a a' h1 h2)
  cases r with
  | error => exact Or.inr (Or.inl rfl)
  | would_block => exact Or.inl rfl
  | data avail =>
    unfold pending_read
    dsimp only
    split
    · exact Or.inr (Or.inl rfl)
    · split
      · exact Or.inr (Or.inl (hcl _ rfl rfl))
      · unfold pending_parse
        split
        · rcases client_handshake_state c _ ‹List Nat› with h | ⟨a', h1, h2, h3, h4⟩
          · exact Or.inr (Or.inl (h.trans (hcl _ rfl rfl)))
          · exact Or.inr (Or.inr ⟨a', 2, Or.inr rfl, h1, h2, h3, h4⟩)
        · split
          · rcases source_handshake_state c _ ‹List Nat› with h | ⟨a', h1, h2, h3, h4⟩
            · exact Or.inr (Or.inl (h.trans (hcl _ rfl rfl)))
            · exact Or.inr (Or.inr ⟨a', 1, Or.inl rfl, h1, h2, h3, h4⟩)
          · exact Or.inr (Or.inl (hcl _ rfl rfl))

theorem descends_refl (now : ℚ) (c : ntrip_caster) : Descends now c c :=
  descends_of_subset now (fun _ h => h)

theorem descends_trans {now : ℚ} {c c' c'' : ntrip_caster} (h1 : Descends now c c')
    (h2 : Descends now c' c'') (hn : c.next_socket ≤ c'.next_socket) :
    Descends now c c'' := by
  intro a'' ha''
  rcases h2 a'' ha'' with ⟨a', ha', hs, hla, hty, hpi⟩ | ⟨hf, hla, hpi⟩
  · rcases h1 a' ha' with ⟨a, ha, hs', hla', hty', hpi'⟩ | ⟨hf', hla', hpi'⟩
    · refine Or.inl ⟨a, ha, hs.trans hs', ?_, ?_, ?_⟩
      · rcases hla with h | h
        · rw [h]; exact hla'
        · exact Or.inr h
      · intro hne
        obtain ⟨t1, m1⟩ := hty' hne
        obtain ⟨t2, m2⟩ := hty (by rw [t1]; exact hne)
        exact ⟨t2.trans t1, m2.trans m1⟩
      · rcases hpi with h | h
        · rw [h]; exact hpi'
        · exact Or.inr h
    · refine Or.inr ⟨by rw [hs]; exact hf', ?_, ?_⟩
      · rcases hla with h | h
        · rw [h]; exact hla'
        · exact h
      · rcases hpi with h | h
        · rw [h]; exact hpi'
        · exact h
  · exact Or.inr ⟨hn.trans hf, hla, hpi⟩

theorem descends_relabel (now : ℚ) (c : ntrip_caster) (g0 g1 g2 : ntrip_agent → ntrip_agent)
    (k0 : Keeps g0) (k1 : Keeps g1) (k2 : Keeps g2)
    (l0 : ∀ x, (g0 x).last_activity = x.last_activity ∨ (g0 x).last_activity = now)
    (l1 : ∀ x, (g1 x).last_activity = x.last_activity ∨ (g1 x).last_activity = now)
    (l2 : ∀ x, (g2 x).last_activity = x.last_activity ∨ (g2 x).last_activity = now) :
    Descends now c { c with head_pending := c.head_pending.map g0,
                            head_source := c.head_source.map g1,
                            head_client := c.head_client.map g2 } := by
  intro a' ha'
  simp only [ntrip_caster.all, List.mem_append, List.mem_map] at ha'
  rcases ha' with (⟨x, hx, rfl⟩ | ⟨x, hx, rfl⟩) | ⟨x, hx, rfl⟩
  · exact Or.inl ⟨x, mem_all_pending hx, (k0 x).1, l0 x, fun _ => ⟨(k0 x).2.1, (k0 x).2.2.1⟩,
      Or.inl (k0 x).2.2.2⟩
  · exact Or.inl ⟨x, mem_all_source hx, (k1 x).1, l1 x, fun _ => ⟨(k1 x).2.1, (k1 x).2.2.1⟩,
      Or.inl (k1 x).2.2.2⟩
  · exact Or.inl ⟨x, mem_all_client hx, (k2 x).1, l2 x, fun _ => ⟨(k2 x).2.1, (k2 x).2.2.1⟩,
      Or.inl (k2 x).2.2.2⟩

theorem touch_last_activity (p : ntrip_agent → Prop) [DecidablePred p] (now : ℚ)
    (x : ntrip_agent) :
    (if p x then { x with last_activity := now } else x).last_activity = x.last_activity ∨
      (if p x then { x with last_activity := now } else x).last_activity = now := by
  by_cases h : p x
  · rw [if_pos h]; exact Or.inr rfl
  · rw [if_neg h]; exact Or.inl rfl

theorem descends_set_last_activity (now : ℚ) (c : ntrip_caster) (socket : Nat) :
    Descends now c (set_last_activity c socket now) :=
  descends_relabel now c _ _ _ (keeps_touch _ now) (keeps_touch _ now) (keeps_touch _ now)
    (touch_last_activity _ now) (touch_last_activity _ now) (touch_last_activity _ now)

theorem descends_fanout (now : ℚ) (c : ntrip_caster) (m buf : List Nat)
    (sr : Nat → Option Nat) :
    Descends now c (c.set_head NTRIP_CLIENT_AGENT
      (fanout m buf now sr (c.agents_head NTRIP_CLIENT_AGENT)).1) := by
  have h := descends_relabel now c id id
    (fun x => if strcasecmp m x.mountpoint = 0 ∧ (sr x.socket).isSome = true
      then { x with last_activity := now } else x) keeps_id keeps_id
    (keeps_touch (fun x => strcasecmp m x.mountpoint = 0 ∧ (sr x.socket).isSome = true) now)
    (fun _ => Or.inl rfl) (fun _ => Or.inl rfl)
    (touch_last_activity (fun x => strcasecmp m x.mountpoint = 0 ∧ (sr x.socket).isSome = true)
      now)
  simpa [ntrip_caster.set_head, ntrip_caster.agents_head, fanout_fst] using h

theorem descends_move {c : ntrip_caster} (hI : Inv c) (now : ℚ) (a a' : ntrip_agent)
    (ha : a ∈ c.head_pending) (hs : a'.socket = a.socket) (ht : a'.type = a.type)
    (hla : a'.last_activity = now) (t : Nat)
    (h : t = NTRIP_SOURCE_AGENT ∨ t = NTRIP_CLIENT_AGENT) :
    Descends now c (move_agent c a' t) := by
  have hty := (hI.typed0 a ha).1
  have hnew : ∀ u : Nat, ∀ x : ntrip_agent, x = { a' with pending_idx := 0, type := u } →
      (∃ y ∈ c.all, x.socket = y.socket ∧
        (x.last_activity = y.last_activity ∨ x.last_activity = now) ∧
        (y.type ≠ NTRIP_PENDING_AGENT → x.type = y.type ∧ x.mountpoint = y.mountpoint) ∧
        (x.pending_idx = y.pending_idx ∨ x.pending_idx = 0)) ∨
      (c.next_socket ≤ x.socket ∧ x.last_activity = now ∧ x.pending_idx = 0) := by
    intro u x hx
    subst hx
    exact Or.inl ⟨a, mem_all_pending ha, hs, Or.inr hla, fun hne => absurd hty hne, Or.inr rfl⟩
  have hold : ∀ x ∈ c.all,
      (∃ y ∈ c.all, x.socket = y.socket ∧
        (x.last_activity = y.last_activity ∨ x.last_activity = now) ∧
        (y.type ≠ NTRIP_PENDING_AGENT → x.type = y.type ∧ x.mountpoint = y.mountpoint) ∧
        (x.pending_idx = y.pending_idx ∨ x.pending_idx = 0)) ∨
      (c.next_socket ≤ x.socket ∧ x.last_activity = now ∧ x.pending_idx = 0) :=
    fun x hx => Or.inl ⟨x, hx, rfl, Or.inl rfl, fun _ => ⟨rfl, rfl⟩, Or.inl rfl⟩
  rcases h with h | h
  · subst h
    rw [admit_source_eq hI a a' ha hs (ht.trans hty)]
    intro x hx
    simp only [ntrip_caster.all, List.mem_append, List.mem_singleton] at hx
    rcases hx with (hx | hx | hx) | hx
    · exact hold x (mem_all_pending (List.mem_of_mem_erase hx))
    · exact hold x (mem_all_source hx)
    · exact hnew _ x hx
    · exact hold x (mem_all_client hx)
  · subst h
    rw [admit_client_eq hI a a' ha hs (ht.trans hty)]
    intro x hx
    simp only [ntrip_caster.all, List.mem_append, List.mem_singleton] at hx
    rcases hx with (hx | hx) | hx | hx
    · exact hold x (mem_all_pending (List.mem_of_mem_erase hx))
    · exact hold x (mem_all_source hx)
    · exact hold x (mem_all_client hx)
    · exact hnew _ x hx

theorem set_last_activity_next (c : ntrip_caster) (socket : Nat) (now : ℚ) :
    (set_last_activity c socket now).next_socket = c.next_socket := rfl

theorem descends_agent_read_cb {c : ntrip_caster} (hI : Inv c) (agent : ntrip_agent)
    (ha : agent ∈ c.all) (r : recv_result) (now : ℚ) (sr : Nat → Option Nat) :
    Descends now c (agent_read_cb c agent r now sr).1 := by
  have hm := mem_all_head hI ha
  unfold agent_read_cb
  split
  · rename_i ht
    have hp : agent ∈ c.head_pending := by
      rw [ht] at hm
      exact hm
    rcases pending_read_state c agent r now with h | h | ⟨a', t, ht', h1, h2, h3, h4⟩
    · rw [h]; exact descends_refl now c
    · rw [h]; exact descends_close now c agent
    · rw [h4]; exact descends_move hI now agent a' hp h1 h2 h3 t ht'
  · split
    · cases r with
      | error => exact descends_close now c agent
      | would_block => exact descends_refl now c
      | data avail =>
        simp only [client_read]
        split
        · exact descends_close now c agent
        · exact descends_set_last_activity now c _
    · split
      · cases r with
        | error => exact descends_close now c agent
        | would_block => exact descends_refl now c
        | data avail =>
          simp only [source_read]
          split
          · exact descends_close now c agent
          · exact descends_trans (descends_set_last_activity now c agent.socket)
              (descends_fanout now _ _ _ _) (le_of_eq rfl)
      · exact descends_refl now c

theorem descends_accept (c : ntrip_caster) (ev_error accept_ok calloc_ok : Bool)
    (addrbuf : List Nat) (time : Nat) (now : ℚ) :
    Descends now c (caster_accept_cb c ev_error accept_ok calloc_ok addrbuf time now).1 := by
  unfold caster_accept_cb
  split
  · exact descends_refl now c
  · split
    · exact descends_refl now c
    · dsimp only
      split
      · exact descends_of_subset now (fun _ h => h)
      · split
        · exact descends_of_subset now (fun _ h => h)
        · intro x hx
          simp only [ntrip_caster.all, ntrip_caster.set_cnt, ntrip_caster.set_head,
            ntrip_caster.agents_head, TAILQ_INSERT_TAIL, NTRIP_PENDING_AGENT, List.mem_append,
            List.mem_singleton] at hx
          rcases hx with ((hx | hx) | hx) | hx
          · exact Or.inl ⟨x, mem_all_pending hx, rfl, Or.inl rfl, fun _ => ⟨rfl, rfl⟩,
              Or.inl rfl⟩
          · subst hx
            exact Or.inr ⟨le_refl _, rfl, rfl⟩
          · exact Or.inl ⟨x, mem_all_source hx, rfl, Or.inl rfl, fun _ => ⟨rfl, rfl⟩,
              Or.inl rfl⟩
          · exact Or.inl ⟨x, mem_all_client hx, rfl, Or.inl rfl, fun _ => ⟨rfl, rfl⟩,
              Or.inl rfl⟩

theorem descends_timeout {c : ntrip_caster} (hI : Inv c) (now : ℚ) :
    Descends now c (caster_timeout_cb c now).1 := by
  apply descends_of_subset
  intro x hx
  obtain ⟨t, ht⟩ := exists_head_of_mem_all hx
  rw [(timeout_spec hI now).1 t] at ht
  exact mem_all_of_head (List.mem_of_mem_filter ht)

/-- What one event does to the agents: see `Descends`. -/
theorem step_descends {c : ntrip_caster} (hI : Inv c) (e : event) :
    Descends (event_now e) c (step c e).1 := by
  cases e with
  | accept ev_error accept_ok calloc_ok addrbuf time now =>
    exact descends_accept c ev_error accept_ok calloc_ok addrbuf time now
  | agent_read socket r now sr =>
    simp only [step, event_now]
    cases h : find_agent c socket with
    | none => exact descends_refl now c
    | some agent => exact descends_agent_read_cb hI agent (find_agent_mem h).1 r now sr
  | timeout now => exact descends_timeout hI now

/-! ## What holds of every agent of a reachable state -/

theorem init_all (config : ntrip_caster_config) : (caster_init config).all = [] := rfl

/-- In a reachable state, the `last_activity` of every agent is the clock of
one of the events so far. -/
theorem stamped (config : ntrip_caster_config) (evs : List event) :
    ∀ a ∈ (run config evs).all, ∃ e ∈ evs, a.last_activity = event_now e := by
  induction evs using List.reverseRecOn with
  | nil =>
    intro a ha
    simp [run, init_all] at ha
  | append_singleton evs e ih =>
    intro a' ha'
    rw [run_snoc] at ha'
    rcases step_descends (Inv.of_run config evs) e a' ha' with
      ⟨a, ha, -, hla, -, -⟩ | ⟨-, hla, -⟩
    · rcases hla with h | h
      · obtain ⟨e0, he0, h0⟩ := ih a ha
        exact ⟨e0, List.mem_append_left _ he0, h.trans h0⟩
      · exact ⟨e, by simp, h⟩
    · exact ⟨e, by simp, hla⟩

/-- In a reachable state, the parse index of every agent is 0. -/
theorem pending_idx_zero (config : ntrip_caster_config) (evs : List event) :
    ∀ a ∈ (run config evs).all, a.pending_idx = 0 := by
  induction evs using List.reverseRecOn with
  | nil =>
    intro a ha
    simp [run, init_all] at ha
  | append_singleton evs e ih =>
    intro a' ha'
    rw [run_snoc] at ha'
    rcases step_descends (Inv.of_run config evs) e a' ha' with
      ⟨a, ha, -, -, -, hpi⟩ | ⟨-, -, hpi⟩
    · rcases hpi with h | h
      · exact h.trans (ih a ha)
      · exact h
    · exact hpi

/-- The agent an agent of the next state continues, when one of the state
before has the same socket. -/
theorem descends_same_socket {c c' : ntrip_caster} (hI : Inv c) {now : ℚ}
    (hd : Descends now c c') {a a' : ntrip_agent} (ha : a ∈ c.all) (ha' : a' ∈ c'.all)
    (hs : a'.socket = a.socket) :
    (a'.last_activity = a.last_activity ∨ a'.last_activity = now) ∧
      (a.type ≠ NTRIP_PENDING_AGENT → a'.type = a.type ∧ a'.mountpoint = a.mountpoint) := by
  rcases hd a' ha' with ⟨a0, ha0, hs0, hla, hty, -⟩ | ⟨hf, -, -⟩
  · have : a0 = a := socket_unique hI ha0 ha (hs0.symm.trans hs)
    subst this
    exact ⟨hla, hty⟩
  · have := hI.fresh a ha
    omega

/-! ## Claim C14: `last_activity` never decreases -/

/-- C14. When the clock values handed to the successive events are
non-decreasing, then for every event (an accept, a read on any agent with the
fan-out it may start, a sweeper tick) and every agent linked before the event
and still linked after it, the agent's `last_activity` after the event is
greater than or equal to its `last_activity` before the event. -/
theorem C14_last_activity_never_decreases (config : ntrip_caster_config) (evs : List event)
    (e : event) (a a' : ntrip_agent)
    (hclock : ((evs ++ [e]).map event_now).Pairwise (fun x y => x ≤ y))
    (ha : a ∈ (run config evs).all) (ha' : a' ∈ (step (run config evs) e).1.all)
    (hs : a'.socket = a.socket) : a.last_activity ≤ a'.last_activity := by
  obtain ⟨hla, -⟩ := descends_same_socket (Inv.of_run config evs)
    (step_descends (Inv.of_run config evs) e) ha ha' hs
  rcases hla with h | h
  · exact le_of_eq h.symm
  · obtain ⟨e0, he0, h0⟩ := stamped config evs a ha
    rw [h, h0]
    rw [List.map_append, List.pairwise_append] at hclock
    exact hclock.2.2 _ (List.mem_map_of_mem _ he0) _ (by simp)

set_option maxRecDepth 100000 in
/-- C14 at a concrete input: the source last active at clock 1 reads `A` at
clock 4. -/
theorem C14_last_activity_never_decreases_witness :
    relay_source.last_activity ≤
      ({ relay_source with last_activity := 4 } : ntrip_agent).last_activity :=
  C14_last_activity_never_decreases caster_init_config source_and_client
    (.agent_read 0 (.data (bytes "A")) 4 (fun _ => none)) relay_source
    { relay_source with last_activity := 4 }
    (by simp [source_and_client, event_now]; norm_num)
    (by decide) (by decide) rfl

/-! ## Claim C16: the parse index stays below the buffer limit -/

/-- C16. In every reachable state the parse index `pending_idx` of every live
agent is below 1023; and a read on a PENDING agent that leaves the index (the
number of bytes `recv` returned, of at most `1024 - pending_idx - 1` asked for)
at 1023 or more closes the agent: it is unlinked from the PENDING list, the
PENDING count goes down by one, and its socket is closed. -/
theorem C16_parse_index_below_limit (config : ntrip_caster_config) (evs : List event) :
    (∀ a ∈ (run config evs).all, a.pending_idx < 1023) ∧
      (∀ a ∈ (run config evs).agents_head NTRIP_PENDING_AGENT,
        ∀ (msg : List Nat) (now : ℚ) (sr : Nat → Option Nat),
        1023 ≤ (msg.take (size_sub (size_sub 1024 a.pending_idx) 1)).length →
        deliver (run config evs) a msg now sr =
          ({ run config evs with
              head_pending := (run config evs).head_pending.erase a
              cnt_pending := (run config evs).cnt_pending - 1 },
            [io_op.close a.socket])) := by
  have hI := Inv.of_run config evs
  constructor
  · intro a ha
    rw [pending_idx_zero config evs a ha]
    decide
  · intro a ha msg now sr hlen
    have hmsg : 1023 ≤ msg.length := by
      rw [List.length_take] at hlen
      omega
    rw [deliver_full_buffer hI a ha msg hmsg now sr, close_pending_eq hI a ha]

/-- C16 at a concrete input: the first connection sends 1023 bytes. -/
theorem C16_parse_index_below_limit_witness :
    deliver (run caster_init_config [.accept false true true [] 0 0]) (new_agent 0 [] 0 0)
        (List.replicate 1023 65) 1 (fun _ => none) =
      ({ run caster_init_config [.accept false true true [] 0 0] with
          head_pending := (run caster_init_config
            [.accept false true true [] 0 0]).head_pending.erase (new_agent 0 [] 0 0)
          cnt_pending := (run caster_init_config
            [.accept false true true [] 0 0]).cnt_pending - 1 },
        [io_op.close (new_agent 0 [] 0 0).socket]) :=
  (C16_parse_index_below_limit caster_init_config [.accept false true true [] 0 0]).2
    (new_agent 0 [] 0 0) (first_agent_is_pending [] 0 0) (List.replicate 1023 65) 1
    (fun _ => none) (by rw [List.length_take, List.length_replicate]; decide)

/-! ## Claim C17: a classified agent keeps its role and mountpoint -/

/-- C17. For every event and every agent that is CLIENT or SOURCE before the
event and still linked after it, the agent's type and mountpoint after the
event are those before it: a classified agent never returns to PENDING, never
changes between CLIENT and SOURCE, and never has its mountpoint rewritten. -/
theorem C17_classified_agent_keeps_role (config : ntrip_caster_config) (evs : List event)
    (e : event) (a a' : ntrip_agent) (ha : a ∈ (run config evs).all)
    (hty : a.type = NTRIP_CLIENT_AGENT ∨ a.type = NTRIP_SOURCE_AGENT)
    (ha' : a' ∈ (step (run config evs) e).1.all) (hs : a'.socket = a.socket) :
    a'.type = a.type ∧ a'.mountpoint = a.mountpoint := by
  obtain ⟨-, h⟩ := descends_same_socket (Inv.of_run config evs)
    (step_descends (Inv.of_run config evs) e) ha ha' hs
  apply h
  rcases hty with h | h <;> rw [h] <;> decide

set_option maxRecDepth 100000 in
/-- C17 at a concrete input: the source on `MNT` reads `A` at clock 4. -/
theorem C17_classified_agent_keeps_role_witness :
    ({ relay_source with last_activity := 4 } : ntrip_agent).type = relay_source.type ∧
      ({ relay_source with last_activity := 4 } : ntrip_agent).mountpoint =
        relay_source.mountpoint :=
  C17_classified_agent_keeps_role caster_init_config source_and_client
    (.agent_read 0 (.data (bytes "A")) 4 (fun _ => none)) relay_source
    { relay_source with last_activity := 4 } (by decide) (Or.inr (by decide)) (by decide) rfl

/-! ## Claim C18: closures without a reply -/

/-- A client handshake whose request line does not give two fields, or whose
protocol does not start with `HTTP/1`, or whose mountpoint comes out empty or
as `/`, closes the agent without a reply. -/
theorem client_handshake_rejects (c : ntrip_caster) (a : ntrip_agent) (p : List Nat)
    (h : (sscanf_verb_s_s (bytes "GET") p).1 < 2 ∨
      strncmp_eq0 (sscanf_verb_s_s (bytes "GET") p).2.2 (bytes "HTTP/1")
        (bytes "HTTP/1").length = false ∨
      client_mountpoint (sscanf_verb_s_s (bytes "GET") p).2.1 = [] ∨
      client_mountpoint (sscanf_verb_s_s (bytes "GET") p).2.1 = bytes "/") :
    client_handshake c a p = close_agent c a := by
  unfold client_handshake
  split
  · rfl
  · split
    · rfl
    · split
      · rfl
      · dsimp only
        split
        · exact close_agent_congr c a _ rfl rfl
        · rename_i h1
          split
          · exact close_agent_congr c a _ rfl rfl
          · rename_i h2
            rcases h with h | h | h | h
            · exact absurd (Or.inl h) h1
            · exact absurd (Or.inr h) h1
            · exact absurd (Or.inl h) h2
            · exact absurd (Or.inr h) h2

/-- C18. In a reachable state, for every PENDING agent, a read that ends in a
closure because the buffer was filled (1023 bytes or more were available), or
because the request has the verb `GET` and its request line does not give a
url and a protocol, or the protocol does not begin with `HTTP/1`, or the url
gives an empty mountpoint (as `GET / HTTP/1.1` does) or the mountpoint `/`:
the only socket operation is the close of the agent's socket, so no byte is
sent to the agent; the agent is removed from the PENDING list and the PENDING
count goes down by one; the CLIENT and SOURCE lists and counts are unchanged. -/
theorem C18_violation_closes_without_reply (config : ntrip_caster_config) (evs : List event)
    (a : ntrip_agent) (msg : List Nat) (now : ℚ) (sr : Nat → Option Nat)
    (ha : a ∈ (run config evs).agents_head NTRIP_PENDING_AGENT) (hne : msg ≠ [])
    (h : 1023 ≤ msg.length ∨
      ∃ p, strstr (cstr msg) (bytes "GET") = some p ∧
        ((sscanf_verb_s_s (bytes "GET") p).1 < 2 ∨
          strncmp_eq0 (sscanf_verb_s_s (bytes "GET") p).2.2 (bytes "HTTP/1")
            (bytes "HTTP/1").length = false ∨
          client_mountpoint (sscanf_verb_s_s (bytes "GET") p).2.1 = [] ∨
          client_mountpoint (sscanf_verb_s_s (bytes "GET") p).2.1 = bytes "/")) :
    deliver (run config evs) a msg now sr =
        ({ run config evs with
            head_pending := (run config evs).head_pending.erase a
            cnt_pending := (run config evs).cnt_pending - 1 },
          [io_op.close a.socket]) ∧
      (∀ data, io_op.send a.socket data ∉ (deliver (run config evs) a msg now sr).2) ∧
      a ∉ (deliver (run config evs) a msg now sr).1.agents_head NTRIP_PENDING_AGENT ∧
      (deliver (run config evs) a msg now sr).1.agents_head NTRIP_CLIENT_AGENT =
        (run config evs).agents_head NTRIP_CLIENT_AGENT ∧
      (deliver (run config evs) a msg now sr).1.agents_head NTRIP_SOURCE_AGENT =
        (run config evs).agents_head NTRIP_SOURCE_AGENT ∧
      (deliver (run config evs) a msg now sr).1.agents_cnt NTRIP_CLIENT_AGENT =
        (run config evs).agents_cnt NTRIP_CLIENT_AGENT ∧
      (deliver (run config evs) a msg now sr).1.agents_cnt NTRIP_SOURCE_AGENT =
        (run config evs).agents_cnt NTRIP_SOURCE_AGENT := by
  have hI := Inv.of_run config evs
  have heq : deliver (run config evs) a msg now sr =
      ({ run config evs with
          head_pending := (run config evs).head_pending.erase a
          cnt_pending := (run config evs).cnt_pending - 1 },
        [io_op.close a.socket]) := by
    by_cases hlen : 1023 ≤ msg.length
    · rw [deliver_full_buffer hI a ha msg hlen now sr, close_pending_eq hI a ha]
    · rcases h with h | ⟨p, hp, h⟩
      · exact absurd h hlen
      · have hall : a ∈ (run config evs).all := mem_all_pending ha
        have hty := (hI.typed0 a ha).1
        obtain ⟨a1, hs1, ht1, hc1, hr⟩ :=
          pending_read_cstr (run config evs) a msg now (hI.typed0 a ha).2 hne (by omega)
        simp only [deliver, step, find_agent_of_mem hI hall, agent_read_cb, hty, if_true]
        rw [hr]
        unfold pending_parse
        rw [hc1, hp]
        dsimp only
        rw [client_handshake_rejects _ a1 p h, close_agent_congr _ a a1 hs1 ht1,
          close_pending_eq hI a ha]
  rw [heq]
  refine ⟨rfl, ?_, ?_, rfl, rfl, rfl, rfl⟩
  · intro data hin
    simp at hin
  · exact not_mem_erase_pending hI a

set_option maxRecDepth 100000 in
/-- C18 at a concrete input: the first connection asks for the source table
with `GET / HTTP/1.1`. -/
theorem C18_violation_closes_without_reply_witness :
    (deliver (run caster_init_config [.accept false true true [] 0 0]) (new_agent 0 [] 0 0)
        (bytes "GET / HTTP/1.1\r\nUser-Agent: x\r\n\r\n") 1 (fun _ => none)).2 =
      [io_op.close 0] :=
  congrArg Prod.snd (C18_violation_closes_without_reply caster_init_config
    [.accept false true true [] 0 0] (new_agent 0 [] 0 0)
    (bytes "GET / HTTP/1.1\r\nUser-Agent: x\r\n\r\n") 1 (fun _ => none)
    (first_agent_is_pending [] 0 0) (by decide)
    (Or.inr ⟨bytes "GET / HTTP/1.1\r\nUser-Agent: x\r\n\r\n", by decide,
      Or.inr (Or.inr (Or.inl (by decide)))⟩)).1

/-! ## Claim C19: `pending_idx =+ n` against `pending_idx += n` -/

/-- With the parse index at 0 on entry, the PENDING branch as written and the
accumulating one are the same function. -/
theorem pending_read_accumulate_eq (c : ntrip_caster) (a : ntrip_agent) (r : recv_result)
    (now : ℚ) (hidx : a.pending_idx = 0) :
    pending_read_accumulate c a r now = pending_read c a r now := by
  cases r with
  | error => rfl
  | would_block => rfl
  | data avail =>
    have hlen : (avail.take (size_sub (size_sub 1024 a.pending_idx) 1)).length ≤ 1023 := by
      rw [hidx, recv_len_zero, List.length_take]
      omega
    have hmod : (a.pending_idx +
        (avail.take (size_sub (size_sub 1024 a.pending_idx) 1)).length) % SIZE_MOD =
        (avail.take (size_sub (size_sub 1024 a.pending_idx) 1)).length := by
      rw [hidx] at hlen ⊢
      rw [Nat.zero_add]
      exact Nat.mod_eq_of_lt (by unfold SIZE_MOD; omega)
    unfold pending_read_accumulate pending_read
    dsimp only
    rw [hmod]

theorem step_accumulate_eq {c : ntrip_caster} (hI : Inv c) (e : event) :
    step_accumulate c e = step c e := by
  cases e with
  | accept ev_error accept_ok calloc_ok addrbuf time now => rfl
  | timeout now => rfl
  | agent_read socket r now sr =>
    simp only [step_accumulate, step]
    cases h : find_agent c socket with
    | none => rfl
    | some agent =>
      dsimp only
      have hm := mem_all_head hI (find_agent_mem h).1
      unfold agent_read_cb_accumulate agent_read_cb
      by_cases ht : agent.type = NTRIP_PENDING_AGENT
      · rw [if_pos ht, if_pos ht]
        rw [ht] at hm
        exact pending_read_accumulate_eq c agent r now (hI.typed0 agent hm).2
      · rw [if_neg ht, if_neg ht]

theorem run_accumulate_snoc (config : ntrip_caster_config) (evs : List event) (e : event) :
    run_accumulate config (evs ++ [e]) = (step_accumulate (run_accumulate config evs) e).1 := by
  simp [run_accumulate, List.foldl_append]

theorem run_accumulate_eq (config : ntrip_caster_config) (evs : List event) :
    run_accumulate config evs = run config evs := by
  induction evs using List.reverseRecOn with
  | nil => exact Eq.refl (caster_init config)
  | append_singleton evs e ih =>
    exact (run_accumulate_snoc config evs e).trans
      ((congrArg (fun c => (step_accumulate c e).1) ih).trans
        ((congrArg Prod.fst (step_accumulate_eq (Inv.of_run config evs) e)).trans
          (run_snoc config evs e).symm))

/-- A successful read on a pending agent closes the agent or moves it to the
client or the source list. -/
theorem pending_data_state (c : ntrip_caster) (a : ntrip_agent) (avail : List Nat) (now : ℚ) :
    (pending_read c a (.data avail) now).1 = (close_agent c a).1 ∨
      ∃ (a' : ntrip_agent) (t : Nat), (t = NTRIP_SOURCE_AGENT ∨ t = NTRIP_CLIENT_AGENT) ∧
        a'.socket = a.socket ∧ a'.type = a.type ∧
        (pending_read c a (.data avail) now).1 = move_agent c a' t := by
  have hcl : ∀ a' : ntrip_agent, a'.socket = a.socket → a'.type = a.type →
      (close_agent c a').1 = (close_agent c a).1 :=
    fun a' h1 h2 => congrArg Prod.fst (close_agent_congr c a a' h1 h2)
  unfold pending_read
  dsimp only
  split
  · exact Or.inl rfl
  · split
    · exact Or.inl (hcl _ rfl rfl)
    · unfold pending_parse
      split
      · rcases client_handshake_state c _ ‹List Nat› with h | ⟨a', h1, h2, -, h4⟩
        · exact Or.inl (h.trans (hcl _ rfl rfl))
        · exact Or.inr ⟨a', 2, Or.inr rfl, h1, h2, h4⟩
      · split
        · rcases source_handshake_state c _ ‹List Nat› with h | ⟨a', h1, h2, -, h4⟩
          · exact Or.inl (h.trans (hcl _ rfl rfl))
          · exact Or.inr ⟨a', 1, Or.inl rfl, h1, h2, h4⟩
        · exact Or.inl (hcl _ rfl rfl)

/-- After a successful read on the pending agent `a`, the pending list holds
no agent with the socket of `a`. -/
theorem pending_data_unlinks {c : ntrip_caster} (hI : Inv c) (a : ntrip_agent)
    (ha : a ∈ c.head_pending) (avail : List Nat) (now : ℚ) (sr : Nat → Option Nat) :
    ∀ x ∈ (step c (.agent_read a.socket (.data avail) now sr)).1.head_pending,
      x.socket ≠ a.socket := by
  have hall : a ∈ c.all := mem_all_pending ha
  have hty := (hI.typed0 a ha).1
  have hcb : agent_read_cb c a (.data avail) now sr = pending_read c a (.data avail) now := by
    unfold agent_read_cb
    rw [if_pos hty]
  have herase : ∀ x ∈ c.head_pending.erase a, x.socket ≠ a.socket := by
    intro x hx hs
    have := socket_unique hI (mem_all_pending (List.mem_of_mem_erase hx)) hall hs
    rw [this] at hx
    exact not_mem_erase_pending hI a hx
  simp only [step, find_agent_of_mem hI hall]
  rw [hcb]
  rcases pending_data_state c a avail now with h | ⟨a', t, ht, h1, h2, h4⟩
  · rw [h, close_pending_eq hI a ha]
    exact herase
  · rw [h4]
    rcases ht with ht | ht
    · subst ht
      rw [admit_source_eq hI a a' ha h1 (h2.trans hty)]
      exact herase
    · subst ht
      rw [admit_client_eq hI a a' ha h1 (h2.trans hty)]
      exact herase

/-- C19. On every reachable state the read handler as written (`pending_idx`
assigned `n`) and the variant that accumulates (`pending_idx` increased by `n`)
give the same next state and the same output for every event, and so reach the
same states: every PENDING agent has `pending_idx = 0` when its read handler is
entered, because a successful PENDING read leaves no agent with that socket in
the PENDING list (the agent is closed or reclassified) and every agent of the
state after it has `pending_idx = 0`. -/
theorem C19_assign_equals_accumulate (config : ntrip_caster_config) (evs : List event) :
    (∀ e, step_accumulate (run config evs) e = step (run config evs) e) ∧
      run_accumulate config evs = run config evs ∧
      (∀ a ∈ (run config evs).agents_head NTRIP_PENDING_AGENT, a.pending_idx = 0) ∧
      (∀ a ∈ (run config evs).agents_head NTRIP_PENDING_AGENT,
        ∀ (avail : List Nat) (now : ℚ) (sr : Nat → Option Nat),
        (∀ x ∈ (step (run config evs)
            (.agent_read a.socket (.data avail) now sr)).1.agents_head NTRIP_PENDING_AGENT,
          x.socket ≠ a.socket) ∧
        (∀ x ∈ (step (run config evs) (.agent_read a.socket (.data avail) now sr)).1.all,
          x.pending_idx = 0)) := by
  have hI := Inv.of_run config evs
  refine ⟨fun e => step_accumulate_eq hI e, run_accumulate_eq config evs,
    fun a ha => (hI.typed0 a ha).2, ?_⟩
  intro a ha avail now sr
  refine ⟨pending_data_unlinks hI a ha avail now sr, ?_⟩
  intro x hx
  rw [← run_snoc] at hx
  exact pending_idx_zero config _ x hx

/-! ## Claim C20: every agent is linked once, in the list of its type -/

/-- C20. In every reachable state every live agent is linked in exactly one
of the three lists, the one its `type` field indexes (PENDING, SOURCE or
CLIENT), and at one place only (no two linked agents share a socket);
consequently the read handler, entered for a linked agent, runs the PENDING,
the CLIENT or the SOURCE branch and never the fall-back branch that closes
the socket without unlinking the agent. -/
theorem C20_agents_linked_once_by_type (config : ntrip_caster_config) (evs : List event) :
    (∀ a ∈ (run config evs).all, ∀ t, a ∈ (run config evs).agents_head t ↔ t = a.type) ∧
      (∀ a ∈ (run config evs).all, a.type = NTRIP_PENDING_AGENT ∨
        a.type = NTRIP_SOURCE_AGENT ∨ a.type = NTRIP_CLIENT_AGENT) ∧
      ((run config evs).all.map (fun a => a.socket)).Nodup ∧
      (∀ (socket : Nat) (a : ntrip_agent), find_agent (run config evs) socket = some a →
        ∀ (r : recv_result) (now : ℚ) (sr : Nat → Option Nat),
        agent_read_cb (run config evs) a r now sr =
          if a.type = NTRIP_PENDING_AGENT then pending_read (run config evs) a r now
          else if a.type = NTRIP_CLIENT_AGENT then client_read (run config evs) a r now
          else source_read (run config evs) a r now sr) := by
  have hI := Inv.of_run config evs
  have hty : ∀ a ∈ (run config evs).all, a.type = NTRIP_PENDING_AGENT ∨
      a.type = NTRIP_SOURCE_AGENT ∨ a.type = NTRIP_CLIENT_AGENT :=
    fun a ha => agents_head_type (mem_all_head hI ha)
  refine ⟨?_, hty, hI.nodup, ?_⟩
  · intro a ha t
    constructor
    · intro h
      exact (typed_head hI h).symm
    · intro h
      rw [h]
      exact mem_all_head hI ha
  · intro socket a hf r now sr
    unfold agent_read_cb
    rcases hty a (find_agent_mem hf).1 with h | h | h
    · rw [if_pos h, if_pos h]
    · rw [if_neg (by rw [h]; decide), if_neg (by rw [h]; decide), if_pos h,
        if_neg (by rw [h]; decide), if_neg (by rw [h]; decide)]
    · rw [if_neg (by rw [h]; decide), if_pos h, if_neg (by rw [h]; decide), if_pos h]

set_option maxRecDepth 100000 in
/-- C20 at a concrete input: the source of the trace `source_and_client` is
linked in the SOURCE list and in no other. -/
theorem C20_agents_linked_once_by_type_witness :
    relay_source ∈ (run caster_init_config source_and_client).agents_head 1 ↔
      1 = relay_source.type :=
  (C20_agents_linked_once_by_type caster_init_config source_and_client).1 relay_source
    (by decide) 1

/-- C19 at a concrete input: the first connection waits with its parse index
at 0. -/
theorem C19_assign_equals_accumulate_witness : (new_agent 0 [] 0 0).pending_idx = 0 :=
  (C19_assign_equals_accumulate caster_init_config [.accept false true true [] 0 0]).2.2.1
    (new_agent 0 [] 0 0) (first_agent_is_pending [] 0 0)

/-! ## Claim C13: what reaches a client of what its source sent -/

theorem delivered_absent (dst : Nat) (sr : Nat → Option Nat) (b : List Nat)
    (l : List ntrip_agent) (h : dst ∉ l.map (fun x => x.socket)) :
    delivered dst sr (l.map (fun x => io_op.send x.socket b)) = [] := by
  induction l with
  | nil => rfl
  | cons x xs ih =>
    simp only [List.map_cons, List.mem_cons, not_or] at h
    simp only [List.map_cons, delivered]
    rw [if_neg (fun e => h.1 e.symm), ih h.2]
    rfl

/-- Of one fan-out of the run `b` over agents with pairwise distinct sockets,
what is delivered on the socket `dst` is the start of `b`. -/
theorem delivered_fanout (dst : Nat) (sr : Nat → Option Nat) (b : List Nat)
    (l : List ntrip_agent) (h : (l.map (fun x => x.socket)).Nodup) :
    delivered dst sr (l.map (fun x => io_op.send x.socket b)) <+: b := by
  induction l with
  | nil => exact List.nil_prefix
  | cons x xs ih =>
    rw [List.map_cons, List.nodup_cons] at h
    simp only [List.map_cons, delivered]
    by_cases hx : x.socket = dst
    · rw [if_pos hx, delivered_absent dst sr b xs (by rw [← hx]; exact h.1), List.append_nil]
      cases sr x.socket with
      | none => exact List.nil_prefix
      | some k => exact List.take_prefix k b
    · rw [if_neg hx, List.nil_append]
      exact ih h.2

theorem relay_entry_starts {c : ntrip_caster} (hI : Inv c) (src dst : Nat) (e : event) :
    ∀ p ∈ relay_entry src dst c e, p.2 <+: p.1 := by
  intro p hp
  cases e with
  | accept ev_error accept_ok calloc_ok addrbuf time now => simp [relay_entry] at hp
  | timeout now => simp [relay_entry] at hp
  | agent_read socket r now sr =>
    cases r with
    | error => simp [relay_entry] at hp
    | would_block => simp [relay_entry] at hp
    | data avail =>
      simp only [relay_entry] at hp
      cases hf : find_agent c socket with
      | none => simp [hf] at hp
      | some agent =>
        rw [hf] at hp
        dsimp only at hp
        by_cases hc : socket = src ∧ agent.type = NTRIP_SOURCE_AGENT ∧ avail.take (512 - 1) ≠ []
        · rw [if_pos hc, List.mem_singleton] at hp
          obtain ⟨hmem, hsock⟩ := find_agent_mem hf
          have hS : agent ∈ c.head_source := by
            have := mem_all_head hI hmem
            rw [hc.2.1] at this
            exact this
          have hb : avail ≠ [] := by
            intro h0
            exact hc.2.2 (by rw [h0]; rfl)
          have hd := deliver_source hI agent hS avail hb now sr
          unfold deliver at hd
          rw [hsock] at hd
          rw [hp, hd]
          dsimp only
          exact delivered_fanout dst sr _ _
            ((head_sockets_nodup hI 2).sublist ((List.filter_sublist _).map _))
        · rw [if_neg hc] at hp
          simp at hp

theorem relay_log_starts (src dst : Nat) (evs : List event) :
    ∀ c : ntrip_caster, Inv c → ∀ p ∈ relay_log src dst c evs, p.2 <+: p.1 := by
  induction evs with
  | nil =>
    intro c _ p hp
    simp [relay_log] at hp
  | cons e es ih =>
    intro c hI p hp
    simp only [relay_log, List.mem_append] at hp
    rcases hp with hp | hp
    · exact relay_entry_starts hI src dst e p hp
    · exact ih _ (hI.of_step e) p hp

theorem flatten_sublist_of_starts (l : List (List Nat × List Nat))
    (h : ∀ p ∈ l, p.2 <+: p.1) :
    ((l.map Prod.snd).flatten).Sublist ((l.map Prod.fst).flatten) := by
  induction l with
  | nil => exact List.Sublist.refl _
  | cons p ps ih =>
    simp only [List.map_cons, List.flatten_cons]
    exact List.Sublist.append (h p (List.mem_cons_self _ _)).sublist
      (ih (fun q hq => h q (List.mem_cons_of_mem _ hq)))

set_option maxRecDepth 100000 in
/-- C13 fails as stated. A source (socket 0) and a client (socket 1) are both
admitted on `MNT`; the source sends `A`, the write of it to the client fails and
is skipped; the source sends `B`, which is written. Source and client are
linked before and after; the client was delivered `B`, which is no prefix of
the `AB` read from the source. -/
theorem C13_counterexample_failed_write :
    source_stream 0 1 (caster_init caster_init_config) relay_with_failed_write = bytes "AB" ∧
      client_stream 0 1 (caster_init caster_init_config) relay_with_failed_write = bytes "B" ∧
      ¬ (client_stream 0 1 (caster_init caster_init_config) relay_with_failed_write <+:
        source_stream 0 1 (caster_init caster_init_config) relay_with_failed_write) ∧
      (∃ S ∈ (run caster_init_config source_and_client).agents_head NTRIP_SOURCE_AGENT,
        S.socket = 0 ∧ S.mountpoint = bytes "MNT") ∧
      (∃ C ∈ (run caster_init_config source_and_client).agents_head NTRIP_CLIENT_AGENT,
        C.socket = 1 ∧ C.mountpoint = bytes "MNT") ∧
      (∃ S ∈ (run caster_init_config relay_with_failed_write).agents_head NTRIP_SOURCE_AGENT,
        S.socket = 0 ∧ S.mountpoint = bytes "MNT") ∧
      (∃ C ∈ (run caster_init_config relay_with_failed_write).agents_head NTRIP_CLIENT_AGENT,
        C.socket = 1 ∧ C.mountpoint = bytes "MNT") := by
  decide

/-- C13 (amended). For every event trace, every source socket and every
client socket: of each byte run read from the source, what the fan-out
delivers to the client is a (possibly empty) prefix of that run; so the
concatenation of the byte runs delivered to the client is a subsequence, with
order preserved, of the concatenation of the byte runs read from the source. -/
theorem C13_delivered_is_subsequence (config : ntrip_caster_config) (evs : List event)
    (src dst : Nat) :
    (∀ p ∈ relay_log src dst (caster_init config) evs, p.2 <+: p.1) ∧
      (client_stream src dst (caster_init config) evs).Sublist
        (source_stream src dst (caster_init config) evs) := by
  have h := relay_log_starts src dst evs (caster_init config) (Inv.init config)
  exact ⟨h, flatten_sublist_of_starts _ h⟩

/-- C13 (amended) at a concrete input: in the trace with the failed write, the
bytes delivered to the client are a subsequence of the bytes read from the
source. -/
theorem C13_delivered_is_subsequence_witness :
    (client_stream 0 1 (caster_init caster_init_config) relay_with_failed_write).Sublist
      (source_stream 0 1 (caster_init caster_init_config) relay_with_failed_write) :=
  (C13_delivered_is_subsequence caster_init_config relay_with_failed_write 0 1).2

/-! ## Claim C21: the search for `/` in the url -/

/-- The search `strchr(url, '/')` comes back null exactly for the urls without
a `/`. -/
theorem strchr_eq_none (url : List Nat) : strchr url 47 = none ↔ 47 ∉ url := by
  induction url with
  | nil => simp [strchr]
  | cons c cs ih =>
    unfold strchr
    by_cases h : c = 47
    · simp [h]
    · rw [if_neg h, ih]
      simp [Ne.symm h]

set_option maxRecDepth 100000 in
/-- C21 does not hold of the code. The first connection sends
`GET MNT HTTP/1.1\r\nUser-Agent: x\r\n\r\n`. The buffer has the verb `GET`,
`sscanf` reads the url `MNT` and the protocol `HTTP/1.1`, which begins with
`HTTP/1`, so the mountpoint derivation is reached; `strchr(url, '/')` finds
nothing, and its null result is what `snprintf` is given for `%s`. With a C
library that formats a null string as `(null)`, the agent is answered
`ICY 200 OK` and linked as a client of the mountpoint `(null)`. -/
theorem C21_url_without_slash_reaches_formatter :
    strstr (cstr request_without_slash) (bytes "GET") = some request_without_slash ∧
      sscanf_verb_s_s (bytes "GET") request_without_slash =
        (2, bytes "MNT", bytes "HTTP/1.1") ∧
      strncmp_eq0 (bytes "HTTP/1.1") (bytes "HTTP/1") (bytes "HTTP/1").length = true ∧
      strchr (bytes "MNT") 47 = none ∧
      client_mountpoint (bytes "MNT") = snprintf_s 64 none ∧
      (deliver (run caster_init_config [.accept false true true [] 0 0]) (new_agent 0 [] 0 0)
        request_without_slash 1 (fun _ => none)).2 = [io_op.send 0 NTRIP_RESPONSE_OK] ∧
      ((deliver (run caster_init_config [.accept false true true [] 0 0]) (new_agent 0 [] 0 0)
        request_without_slash 1 (fun _ => none)).1.agents_head NTRIP_CLIENT_AGENT).map
          (fun a => (a.socket, a.type, a.mountpoint)) =
        [(0, NTRIP_CLIENT_AGENT, bytes "(null)")] := by
  decide

end NtripCaster
